import Mathlib

/-!
# Walker: the scenario runtime

A shallow embedding of the scenario engine of `yachmenka/walker`
(`source/scene.cpp`, `source/map.cpp`, `sources/event.hpp`) and theorems about
its call parser, its condition interpreter and its view geometry.

Conventions of the embedding.

* `std::string` is the list of its `char` elements (`Str`); `size_t` values are
  natural numbers below `2 ^ 64`, `string::npos` is `2 ^ 64 - 1`, and `size_t`
  arithmetic is taken modulo `2 ^ 64`.
* `int` values are integers; every `int` addition and subtraction is followed
  by `wrap_int`, the two's-complement reduction to 32 bits.
* A function that can leave through a C++ exception, or that runs into
  undefined behaviour, returns `Except cpp_error _`.
-/

namespace Walker

/-! ## Strings -/

/-- A `std::string`, as the list of its `char` elements. -/
abbrev Str := List Char

/-- The ways in which the embedded code leaves a function without a result. -/
inductive cpp_error where
  /-- `std::out_of_range` (thrown by `substr` and by `stoi`). -/
  | out_of_range
  /-- `std::invalid_argument` (thrown by `stoi`). -/
  | invalid_argument
  /-- A `game_error` carrying its message. -/
  | game_error (what : Str)
  /-- The code runs into undefined behaviour (`back()` of an empty string,
  dereferencing an end iterator, indexing outside a buffer). -/
  | undefined_behaviour
  /-- The code does not come back: a loop that does not end, or a recursion
  deeper than the stack. -/
  | no_return
  deriving DecidableEq, Repr

deriving instance DecidableEq for Except

/-- The constant `std::string::npos`, the largest `size_t`. -/
def npos : Nat := 2 ^ 64 - 1

/-- Addition of `size_t` values. -/
def size_add (a b : Nat) : Nat := (a + b) % 2 ^ 64

/-- Subtraction of `size_t` values (`a` and `b` are below `2 ^ 64`). -/
def size_sub (a b : Nat) : Nat := (a + 2 ^ 64 - b) % 2 ^ 64

/-- The call `s.find(c, pos)`: the index of the first `c` at or after `pos`,
or `npos`. -/
def find_from (s : Str) (c : Char) (pos : Nat) : Nat :=
  if c ∈ s.drop pos then pos + (s.drop pos).indexOf c else npos

/-- The call `s.find(c)`: the index of the first `c`, or `npos`. -/
def find (s : Str) (c : Char) : Nat := find_from s c 0

/-- The call `s.rfind(c)`: the index of the last `c`, or `npos`. -/
def rfind (s : Str) (c : Char) : Nat :=
  if c ∈ s then s.length - 1 - s.reverse.indexOf c else npos

/-- The call `s.substr(pos, count)`: throws `std::out_of_range` when `pos`
is beyond the end, and otherwise returns the characters from `pos` on, at most
`count` of them. -/
def substr (s : Str) (pos count : Nat) : Except cpp_error Str :=
  if pos > s.length then .error .out_of_range else .ok ((s.drop pos).take count)

/-! ## Call parsing (`scene.cpp`, `parse_call`) -/

/-- The function `parse_call` of `scene.cpp`: splits `[id.]method([args])`. -/
def parse_call (call : Str) : Except cpp_error (Str × Str × Str) := do
  let pointer  := find call '.'
  let cbracket := rfind call ')'
  let obracket := find call '('
  /- function(2, 4, '.') - hasn't object, but point exists -/
  let (id, pointer) ←
    if pointer > obracket ∨ pointer = npos then
      (pure ([], 0) : Except cpp_error (Str × Nat))
    else do
      let id ← substr call 0 pointer
      pure (id, size_add pointer 1)
  let method ← substr call pointer (size_sub obracket pointer)
  let args ←
    if obracket = npos ∨ cbracket = npos then
      (pure [] : Except cpp_error Str)
    else
      substr call (size_add obracket 1) (size_sub cbracket (size_add obracket 1))
  pure (id, method, args)

/-! ## Machine integers and number parsing -/

/-- The largest `int`. -/
def INT_MAX : Int := 2147483647

/-- The smallest `int`. -/
def INT_MIN : Int := -2147483648

/-- Two's-complement reduction of an integer to the 32-bit `int` range. -/
def wrap_int (v : Int) : Int := (v + 2147483648) % 4294967296 - 2147483648

/-- The predicate "is a value of type `int`". -/
def is_int (v : Int) : Prop := INT_MIN ≤ v ∧ v ≤ INT_MAX

instance (v : Int) : Decidable (is_int v) := by unfold is_int; infer_instance

/-- The classification `isspace` of the "C" locale. -/
def isspace (c : Char) : Bool :=
  c = ' ' || c = '\t' || c = '\n' || c = '\x0b' || c = '\x0c' || c = '\r'

/-- The classification `isdigit`. -/
def isdigit (c : Char) : Bool := 48 ≤ c.toNat && c.toNat ≤ 57

/-- The value of a decimal digit. -/
def digit_value (c : Char) : Nat := c.toNat - 48

/-- The character of a decimal digit. -/
def digit_char (d : Nat) : Char := Char.ofNat (48 + d)

/-- The value of a run of decimal digits. -/
def digits_value (ds : Str) : Nat := ds.foldl (fun a d => 10 * a + digit_value d) 0

/-- Splits an optional sign off the front of a number text: `true` for `-`. -/
def split_sign : Str → Bool × Str
  | '-' :: t => (true, t)
  | '+' :: t => (false, t)
  | t => (false, t)

/-- Decimal digits of a natural number, most significant first; `fuel` bounds
the number of digits. -/
def to_string_nat_aux : Nat → Nat → Str → Str
  | 0, _, acc => acc
  | fuel + 1, n, acc =>
    if n < 10 then digit_char n :: acc
    else to_string_nat_aux fuel (n / 10) (digit_char (n % 10) :: acc)

/-- Decimal text of a natural number. -/
def to_string_nat (n : Nat) : Str := to_string_nat_aux (n + 1) n []

/-- The function `std::to_string(int)`. -/
def to_string (v : Int) : Str :=
  if v < 0 then '-' :: to_string_nat v.natAbs else to_string_nat v.natAbs

/-- The state of a `std::istringstream`: the characters not yet read and the
two state bits that extraction tests. -/
structure istringstream where
  buf : Str
  eofbit : Bool
  failbit : Bool
  deriving DecidableEq, Repr

/-- The extraction `in >> v` for an `int` variable holding `v`; returns the
stream and the variable afterwards. When the stream is not good, or only white space is
left, the variable keeps its value; when no number can be read it becomes `0`;
when the number does not fit it becomes the nearest `int`. -/
def extract_int (s : istringstream) (v : Int) : istringstream × Int :=
  if s.eofbit || s.failbit then
    ({ s with failbit := true }, v)
  else
    match s.buf.dropWhile isspace with
    | [] => ({ buf := [], eofbit := true, failbit := true }, v)
    | c :: cs =>
      let (neg, body) := split_sign (c :: cs)
      let digits := body.takeWhile isdigit
      let rest := body.dropWhile isdigit
      if digits = [] then
        ({ buf := rest, eofbit := rest.isEmpty, failbit := true }, 0)
      else
        let val : Int := if neg then -(digits_value digits : Int) else (digits_value digits : Int)
        if val > INT_MAX then
          ({ buf := rest, eofbit := rest.isEmpty, failbit := true }, INT_MAX)
        else if val < INT_MIN then
          ({ buf := rest, eofbit := rest.isEmpty, failbit := true }, INT_MIN)
        else
          ({ buf := rest, eofbit := rest.isEmpty, failbit := false }, val)

/-- The function `std::stoi(str)`: white space, an optional sign and decimal
digits; throws `std::invalid_argument` when there is no digit and
`std::out_of_range` when the value is not an `int`; text after the digits is
ignored. -/
def stoi (str : Str) : Except cpp_error Int :=
  let (neg, body) := split_sign (str.dropWhile isspace)
  let digits := body.takeWhile isdigit
  if digits = [] then .error .invalid_argument
  else
    let val : Int := if neg then -(digits_value digits : Int) else (digits_value digits : Int)
    if val > INT_MAX ∨ val < INT_MIN then .error .out_of_range else .ok val

/-! ## Data model -/

/-- The array type `event_conditions` with its size (`event.hpp`): the
elements in order. An element with `next == nullptr` is `leaf cond`, an element
with a non-null `next` is `nested cond next`, whose `size` is the number of
elements of `next`. -/
inductive event_conditions where
  | nil
  | leaf (cond : Str) (rest : event_conditions)
  | nested (cond : Str) (next : event_conditions) (rest : event_conditions)
  deriving DecidableEq, Repr

/-- A menu item of an event (`event_item`). -/
structure event_item where
  label : Str
  instructions : List Str
  deriving DecidableEq, Repr

/-- The class `event` (`event.hpp`). The header under `sources/` declares
`m_happened`; the occurrence counter advanced by `inc()` is `m_turns`. -/
structure event where
  id : Str
  m_conditions : event_conditions
  m_items : List event_item
  m_instructions : List Str
  m_message : Str
  m_happened : Bool
  m_turns : Int
  deriving DecidableEq, Repr

/-- The method `event::happened()` of `event.hpp`. -/
def event.happened (e : event) : Bool := e.m_happened

/-- Modelled from the spec: the overload `event::happened(int)`, which the
header under `sources/` does not declare: true iff the occurrence counter is
at least `n`. -/
def event.happened_n (e : event) (n : Int) : Bool := decide (n ≤ e.m_turns)

/-- A cell of the grid: display symbol and display attribute (the member
`attribute`). -/
structure tile where
  symbol : Char
  attr : Nat
  deriving DecidableEq, Repr

/-- Modelled from the spec: the class `object` (`object.hpp` is not among the
sources): identifier, position, the symbols that block its movement, its
render symbol and attribute, its vision range, and the symbols that block its
sight. -/
structure object where
  id : Str
  x : Int
  y : Int
  unpassable : Str
  symbol : tile
  vision_range : Int
  unvisible : Str
  deriving DecidableEq, Repr

/-- Modelled from the spec: the method `object::move(dx, dy, symbol)`: "asks
the entity whether the destination symbol permits movement; on success,
updates position". -/
def object.move (o : object) (dx dy : Int) (symbol : Char) : Bool × object :=
  if symbol ∈ o.unpassable then (false, o)
  else (true, { o with x := wrap_int (o.x + dx), y := wrap_int (o.y + dy) })

/-- Modelled from the spec: the method `object::visible(symbol)`: whether the
viewer sees through a cell with this symbol, i.e. the symbol is not in the
viewer's blocking set. -/
def object.visible (o : object) (symbol : Char) : Bool := !(o.unvisible.contains symbol)

/-- The class `character_map`: scroll offset, dimensions and rows. -/
structure character_map where
  m_x : Int
  m_y : Int
  m_width : Int
  m_height : Int
  m_lines : List (List tile)
  deriving DecidableEq, Repr

/-- A call that leaves the scenario engine: into the window toolkit, or to
the render callback `m_render_f`. -/
inductive outside_call where
  /-- The call `window_set(BUILD_MAIN)`. -/
  | window_set_main
  /-- The call `window_pop()`. -/
  | window_pop
  /-- The dialog of an event is pushed and its hook loop runs. -/
  | dialog (event_id : Str)
  /-- The call `m_render_f(m_render->get_map(), x(), y())`. -/
  | render (cells : List (List tile)) (x y : Int)
  deriving DecidableEq, Repr

/-- The class `scenario` (`scene.cpp`). The member `m_player` is the position
in `m_objects` of the object the iterator designates, and a position outside
`m_objects` when it designates no live object. The member `m_render` is `none`
for the null pointer. The list `calls` is not a member: it records, in order,
the calls that left the engine. -/
structure scenario where
  m_lines : Int
  m_cols : Int
  m_source : character_map
  m_render : Option character_map
  m_events : List event
  m_objects : List object
  m_player : Nat
  m_identifiers : List Str
  calls : List outside_call
  deriving DecidableEq, Repr

/-- Modelled from the spec: the constant `RESERVED_DIALOG_ID` of
`scenario_constants.hpp`, the reserved pseudo-object `dialog`. -/
def RESERVED_DIALOG_ID : Str := "dialog".toList

/-- Modelled from the spec: the constant `RESERVED_SCENARIO_ID` of
`scenario_constants.hpp`, the reserved pseudo-object `scenario`. -/
def RESERVED_SCENARIO_ID : Str := "scenario".toList

/-! ## The condition interpreter (`scene.cpp`) -/

/-- The method `scenario::find_object`: the first object with this id. -/
def scenario.find_object (s : scenario) (id : Str) : Option object :=
  s.m_objects.find? (fun o => o.id = id)

/-- The method `scenario::find_event`: the first event with this id. -/
def scenario.find_event (s : scenario) (id : Str) : Option event :=
  s.m_events.find? (fun e => e.id = id)

/-- The method `scenario::parse_condition`. The locals `int x; int y;` of the
`in` branch are not initialised; `x0` and `y0` are the values they happen to
hold. -/
def scenario.parse_condition (s : scenario) (x0 y0 : Int) (cond : Str) :
    Except cpp_error Bool := do
  let (id, method, args) ← parse_call cond
  if id = [] then
    if method = "false".toList then pure false
    else if method = "true".toList then pure true
    else pure false
  else
    if id = RESERVED_SCENARIO_ID then pure false
    else
      match s.find_object id with
      | some object =>
        if method = "in".toList then
          let in0 : istringstream := { buf := args, eofbit := false, failbit := false }
          let (in1, x) := extract_int in0 x0
          let (_, y) := extract_int in1 y0
          if x = object.x ∧ y = object.y then pure true else pure false
        else pure false
      | none =>
        match s.find_event id with
        | some event =>
          if method = "happened".toList then
            if args = [] then pure event.happened
            else do
              let n ← stoi args
              pure (event.happened_n n)
          else pure false
        | none => pure false

/-- The text `"or"` of a separator node. -/
def or_separator : Str := "or".toList

/-- The loop of `scenario::parse_conditions`, from element `i` on, with the
current values of `result` and `and_sequence`. -/
def scenario.parse_conditions_loop (s : scenario) (x0 y0 : Int) :
    event_conditions → Bool → Bool → Except cpp_error Bool
  | .nil, result, and_sequence => pure (result || and_sequence)
  | .nested _ next rest, result, and_sequence => do
    /- If conds contain other conds, this function will be called recursively -/
    let condition ← scenario.parse_conditions_loop s x0 y0 next false true
    scenario.parse_conditions_loop s x0 y0 rest result (and_sequence && condition)
  | .leaf cond rest, result, and_sequence =>
    if cond = or_separator then
      scenario.parse_conditions_loop s x0 y0 rest (result || and_sequence) true
    else
      match cond.getLast? with
      | none => .error .undefined_behaviour
      | some last => do
        let value ← s.parse_condition x0 y0 cond
        let condition := if last = '!' then !value else value
        scenario.parse_conditions_loop s x0 y0 rest result (and_sequence && condition)

/-- The method `scenario::parse_conditions`. -/
def scenario.parse_conditions (s : scenario) (x0 y0 : Int) (conds : event_conditions) :
    Except cpp_error Bool :=
  s.parse_conditions_loop x0 y0 conds false true

/-! ## The grid (`map.cpp`) -/

/-- The row stored by `m_lines.emplace_back(s)`: one cell per character. The
attribute `0` stands for the value the cell has until `decorate()`, the last
statement of the constructor, assigns every attribute. -/
def text_of (s : Str) : List tile := s.map (fun c => { symbol := c, attr := 0 })

/-- The method `character_map::push`. -/
def character_map.push (m : character_map) (s : Str) : Except cpp_error character_map :=
  if s = [] then
    .error (.game_error ("Line ".toList ++ to_string (wrap_int (m.m_height + 1))
      ++ " is empty.".toList))
  else
    let slen : Int := wrap_int s.length
    if m.m_width = 0 then
      .ok { m with m_width := slen, m_height := wrap_int (m.m_height + 1),
                   m_lines := m.m_lines ++ [text_of s] }
    else if m.m_width ≠ slen then
      .error (.game_error ("The lenght of line number ".toList
        ++ to_string (wrap_int (m.m_height + 1)) ++ " (".toList ++ to_string slen
        ++ ") does not match the specified length (".toList ++ to_string m.m_width
        ++ ").".toList))
    else
      .ok { m with m_height := wrap_int (m.m_height + 1),
                   m_lines := m.m_lines ++ [text_of s] }

/-- The method `character_map::decorate`; the table `map_attrs` and the
constant `DEFAULT_TILE_ATTRIBUTE` are built from macros that are not among the
sources and are parameters. -/
def character_map.decorate (map_attrs : List (Char × Nat)) (DEFAULT_TILE_ATTRIBUTE : Nat)
    (m : character_map) : character_map :=
  { m with m_lines := m.m_lines.map (fun line => line.map (fun t =>
      match map_attrs.lookup t.symbol with
      | some a => { t with attr := a }
      | none => { t with attr := DEFAULT_TILE_ATTRIBUTE })) }

/-- The loop of the constructor of `character_map`, with `n` iterations left
and the current `pos`. -/
def character_map.read_rows (map : Str) : Nat → Nat → character_map → Except cpp_error character_map
  | 0, _, m => .ok m
  | n + 1, pos, m => do
    let newline := find_from map '\n' pos
    let temp ← substr map pos (size_sub newline pos)
    let m ← m.push temp
    character_map.read_rows map n (size_add newline 1) m

/-- The constructor `character_map::character_map(id, map, w, h)`. The loop
condition `h--` lets the body run `h` times (`h` modulo `2 ^ 32` times for a
negative `h`). -/
def character_map.create (map_attrs : List (Char × Nat)) (DEFAULT_TILE_ATTRIBUTE : Nat)
    (map : Str) (w h : Int) : Except cpp_error character_map := do
  let m : character_map := { m_x := 0, m_y := 0, m_height := 0, m_width := w, m_lines := [] }
  let m ← character_map.read_rows map (h % 4294967296).toNat 0 m
  pure (m.decorate map_attrs DEFAULT_TILE_ATTRIBUTE)

/-- Modelled from the spec: the accessor `character_map::at(x, y)` (`map.hpp`
is not among the sources): the cell in column `x` of row `y`; it is not
bounds-checked, so there is no cell to return outside the rows. -/
def character_map.at (m : character_map) (x y : Int) : Option tile :=
  if x < 0 ∨ y < 0 then none
  else (m.m_lines.get? y.toNat).bind (fun line => line.get? x.toNat)

/-! ## View geometry and player movement (`scene.cpp`) -/

/-- The accessor `scenario::width`. -/
def scenario.width (s : scenario) : Int := s.m_source.m_width

/-- The accessor `scenario::height`. -/
def scenario.height (s : scenario) : Int := s.m_source.m_height

/-- The accessor `scenario::x`, the horizontal scroll offset. -/
def scenario.x (s : scenario) : Int := s.m_source.m_x

/-- The accessor `scenario::y`, the vertical scroll offset. -/
def scenario.y (s : scenario) : Int := s.m_source.m_y

/-- The method `scenario::abroad`. -/
def scenario.abroad (s : scenario) (x y : Int) : Bool :=
  decide (x ≥ s.width) || decide (y ≥ s.height) || decide (x < 0) || decide (y < 0)

/-- The method `scenario::abroadx`. -/
def scenario.abroadx (s : scenario) (x : Int) : Bool :=
  decide (x ≥ s.width) || decide (x < 0)

/-- The method `scenario::abroady`. -/
def scenario.abroady (s : scenario) (y : Int) : Bool :=
  decide (y ≥ s.height) || decide (y < 0)

/-- The call `m_source->setx(x)`. -/
def scenario.setx (s : scenario) (x : Int) : scenario :=
  { s with m_source := { s.m_source with m_x := x } }

/-- The call `m_source->sety(y)`. -/
def scenario.sety (s : scenario) (y : Int) : scenario :=
  { s with m_source := { s.m_source with m_y := y } }

/-- The method `scenario::set_view`. -/
def scenario.set_view (s : scenario) (x y : Int) : scenario :=
  let s := if !s.abroadx x && !s.abroadx (wrap_int (wrap_int (x + s.m_cols) - 1))
    then s.setx x else s
  if !s.abroady y && !s.abroady (wrap_int (wrap_int (y + s.m_lines) - 1))
    then s.sety y else s

/-- The method `scenario::move_view`. -/
def scenario.move_view (s : scenario) (x y : Int) : scenario :=
  s.set_view (wrap_int (s.x + x)) (wrap_int (s.y + y))

/-- The method `scenario::move_player`. Its tail call `turn()` renders and
tests the events through code that is mostly not among the sources (`object`,
`event::test`, `event::inc`, the window toolkit); it is the parameter `turn`.
Dereferencing `m_player` when it is the end iterator, and reading a cell
outside the rows, are undefined behaviour. -/
def scenario.move_player (turn : scenario → Except cpp_error scenario)
    (s : scenario) (x y : Int) : Except cpp_error scenario :=
  match s.m_objects.get? s.m_player with
  | none => .error .undefined_behaviour
  | some player =>
    let px := player.x
    let py := player.y
    /- Return view to player -/
    let s := s.set_view (wrap_int (px - Int.tdiv s.m_cols 2)) (wrap_int (py - Int.tdiv s.m_lines 2))
    let npx := wrap_int (px + x)
    let npy := wrap_int (py + y)
    if s.abroad npx npy then .ok s
    else
      match s.m_source.at npx npy with
      | none => .error .undefined_behaviour
      | some cell =>
        let (moved, player) := player.move x y cell.symbol
        let s := { s with m_objects := s.m_objects.set s.m_player player }
        if moved then
          turn (s.set_view (wrap_int (npx - Int.tdiv s.m_cols 2))
            (wrap_int (npy - Int.tdiv s.m_lines 2)))
        else .ok s

/-- The body of the constructor `scenario::scenario` after `load(f)` has
filled the members: the initial `set_view` on the player. -/
def scenario.after_load (s : scenario) : Except cpp_error scenario :=
  match s.m_objects.get? s.m_player with
  | none => .error .undefined_behaviour
  | some player =>
    .ok (s.set_view (wrap_int (player.x - Int.tdiv s.m_cols 2))
      (wrap_int (player.y - Int.tdiv s.m_lines 2)))

/-- The states a scenario can be in: built by the constructor from a grid that
the constructor of `character_map` returned, then changed by `set_view`,
`move_view` and `move_player` only. -/
inductive scenario.reachable (turn : scenario → Except cpp_error scenario) : scenario → Prop where
  | construct (map_attrs : List (Char × Nat)) (dflt : Nat) (map : Str) (w h l c : Int)
      (src : character_map) (events : List event) (objects : List object) (player : Nat)
      (ids : List Str) (s : scenario) :
      is_int w → is_int h → is_int l → is_int c →
      character_map.create map_attrs dflt map w h = .ok src →
      scenario.after_load { m_lines := l, m_cols := c, m_source := src, m_render := none,
                            m_events := events, m_objects := objects, m_player := player,
                            m_identifiers := ids, calls := [] } = .ok s →
      scenario.reachable turn s
  | set_view (s : scenario) (x y : Int) :
      scenario.reachable turn s → scenario.reachable turn (s.set_view x y)
  | move_view (s : scenario) (x y : Int) :
      scenario.reachable turn s → scenario.reachable turn (s.move_view x y)
  | move_player (s s' : scenario) (x y : Int) :
      scenario.reachable turn s → s.move_player turn x y = .ok s' → scenario.reachable turn s'

/-- The frame of `turn()`: it writes neither the scroll offset, nor the grid
dimensions, nor the viewport size. -/
def keeps_view (turn : scenario → Except cpp_error scenario) : Prop :=
  ∀ s s', turn s = .ok s' →
    s'.x = s.x ∧ s'.y = s.y ∧ s'.width = s.width ∧ s'.height = s.height ∧
    s'.m_cols = s.m_cols ∧ s'.m_lines = s.m_lines

/-- The viewport lies inside the grid on the horizontal axis. -/
def scenario.inside_x (s : scenario) : Prop := 0 ≤ s.x ∧ s.x + s.m_cols ≤ s.width

/-- The viewport lies inside the grid on the vertical axis. -/
def scenario.inside_y (s : scenario) : Prop := 0 ≤ s.y ∧ s.y + s.m_lines ≤ s.height

instance (s : scenario) : Decidable s.inside_x := by unfold scenario.inside_x; infer_instance

instance (s : scenario) : Decidable s.inside_y := by unfold scenario.inside_y; infer_instance

/-- The members that hold `int` values of the view geometry are in the `int`
range. -/
def scenario.ints_ok (s : scenario) : Prop :=
  is_int s.m_cols ∧ is_int s.m_lines ∧ is_int s.width ∧ is_int s.height

instance (s : scenario) : Decidable s.ints_ok := by unfold scenario.ints_ok; infer_instance

/-! ## The configuration tree and the loader (`scene.cpp`, `map.cpp`) -/

/-- A node of the YAML document that libyaml hands to the loader. -/
inductive yaml_node where
  | scalar (value : Str)
  | sequence (items : List yaml_node)
  | mapping (pairs : List (yaml_node × yaml_node))

/-- What the loader takes from code that is not among the sources: two
constants of `scenario_constants.hpp`, the factories of `object` and of this
version of `event`, the attribute table of `map.cpp`, and the capacity that a
full `std::vector` of `n` elements gets when it reallocates. -/
structure load_env where
  DEFAULT_PLAYER_ID : Str
  DEFAULT_PARSE_ERROR : Str
  object_create_from_yaml : Str → yaml_node → Except cpp_error object
  event_create_from_yaml : Str → yaml_node → Except cpp_error event
  map_attrs : List (Char × Nat)
  DEFAULT_TILE_ATTRIBUTE : Nat
  vector_growth : Nat → Nat

/-- Modelled from the spec: the constant `YAML_SECTION_OBJECTS`. -/
def YAML_SECTION_OBJECTS : Str := "objects".toList

/-- Modelled from the spec: the constant `YAML_SECTION_MAPS`. -/
def YAML_SECTION_MAPS : Str := "maps".toList

/-- Modelled from the spec: the constant `YAML_SECTION_EVENTS`. -/
def YAML_SECTION_EVENTS : Str := "events".toList

/-- Modelled from the spec: the constant `YAML_MAP_WIDTH`. -/
def YAML_MAP_WIDTH : Str := "width".toList

/-- Modelled from the spec: the constant `YAML_MAP_HEIGHT`. -/
def YAML_MAP_HEIGHT : Str := "height".toList

/-- Modelled from the spec: the constant `YAML_MAP_TEXT`. -/
def YAML_MAP_TEXT : Str := "text".toList

/-- The double quote character. -/
def dquote : Char := Char.ofNat 34

/-- The largest `long`. -/
def LONG_MAX : Int := 9223372036854775807

/-- The smallest `long`. -/
def LONG_MIN : Int := -9223372036854775808

/-- The function `atoi(value)`, that is `(int) strtol(value, NULL, 10)`: white
space, an optional sign and decimal digits; `0` when there is no digit; a value
that is not a `long` is replaced by the nearest `long` before the conversion
to `int`. -/
def atoi (value : Str) : Int :=
  let (neg, body) := split_sign (value.dropWhile isspace)
  let digits := body.takeWhile isdigit
  let val : Int := if neg then -(digits_value digits : Int) else (digits_value digits : Int)
  wrap_int (if val > LONG_MAX then LONG_MAX else if val < LONG_MIN then LONG_MIN else val)

/-- The loop of `character_map::create_from_yaml` over the pairs of the map
structure, with the current `text`, `w` and `h`. -/
def character_map.read_fields :
    List (yaml_node × yaml_node) → Str → Int → Int → Except cpp_error (Str × Int × Int)
  | [], text, w, h => .ok (text, w, h)
  | (.scalar key, .scalar value) :: rest, text, w, h =>
    if key = YAML_MAP_WIDTH then character_map.read_fields rest text (atoi value) h
    else if key = YAML_MAP_HEIGHT then character_map.read_fields rest text w (atoi value)
    else if key = YAML_MAP_TEXT then character_map.read_fields rest value w h
    else .error (.game_error ("Found unknown field ".toList ++ [dquote] ++ key ++ [dquote]
      ++ " in the map structure.".toList))
  | _ :: _, _, _, _ => .error (.game_error "Invalid map structure.".toList)

/-- The function `character_map::create_from_yaml` (`map.cpp`); the node it
gets from `parse_yaml` is never null. -/
def character_map.create_from_yaml (env : load_env) (node : yaml_node) :
    Except cpp_error character_map :=
  match node with
  | .mapping pairs => do
    let (text, w, h) ← character_map.read_fields pairs [] 0 0
    character_map.create env.map_attrs env.DEFAULT_TILE_ATTRIBUTE text w h
  | _ => .error (.game_error "Invalid map stucture.".toList)

/-- An iterator of the vector `m_objects`: the buffer it points into and the
position in it. -/
structure objects_iterator where
  buffer : Nat
  index : Nat
  deriving DecidableEq, Repr

/-- The members of `scenario` that `parse_yaml` fills, while it runs. The
vector `m_objects` is kept with its capacity and with the number of the buffer
it uses: `0` as long as nothing is allocated, one more at every reallocation,
so that an iterator taken before a reallocation differs from every iterator of
the vector afterwards. -/
structure loading where
  m_source : Option character_map
  m_events : List event
  m_objects : List object
  objects_capacity : Nat
  objects_buffer : Nat
  m_player : objects_iterator
  m_identifiers : List Str
  deriving DecidableEq, Repr

/-- The iterator `m_objects.end()`. -/
def loading.objects_end (ld : loading) : objects_iterator :=
  { buffer := ld.objects_buffer, index := ld.m_objects.length }

/-- The members as the default member initialisers leave them: no map, no
event, an empty `m_objects`, `m_player = m_objects.end()`, and the two reserved
identifiers. -/
def loading.initial : loading :=
  { m_source := none, m_events := [], m_objects := [], objects_capacity := 0,
    objects_buffer := 0, m_player := { buffer := 0, index := 0 },
    m_identifiers := [RESERVED_DIALOG_ID, RESERVED_SCENARIO_ID] }

/-- The call `m_objects.emplace_back(o)`: a full vector moves to a new
buffer. -/
def loading.emplace_object (env : load_env) (ld : loading) (o : object) : loading :=
  if ld.m_objects.length < ld.objects_capacity then
    { ld with m_objects := ld.m_objects ++ [o] }
  else
    { ld with m_objects := ld.m_objects ++ [o],
              objects_capacity := max (env.vector_growth ld.m_objects.length)
                (ld.m_objects.length + 1),
              objects_buffer := ld.objects_buffer + 1 }

/-- The method `scenario::add_id`. -/
def loading.add_id (ld : loading) (id : Str) : Except cpp_error loading :=
  if id ∈ ld.m_identifiers then
    .error (.game_error ("Found identical identifiers ".toList ++ [dquote] ++ id ++ [dquote]
      ++ ".".toList))
  else .ok { ld with m_identifiers := ld.m_identifiers ++ [id] }

/-- The branch on `section_type` in the loop of
`scenario::parse_yaml(section_type, node, doc)`: the entity that the pair
`key: value` describes is built and stored. -/
def loading.create_entry (env : load_env) (section_type : Str) (ld : loading)
    (key : Str) (value : yaml_node) : Except cpp_error loading :=
  if section_type = YAML_SECTION_OBJECTS then do
    let o ← env.object_create_from_yaml key value
    let ld := ld.emplace_object env o
    if key = env.DEFAULT_PLAYER_ID then
      pure { ld with m_player := { buffer := ld.objects_buffer,
                                   index := ld.m_objects.length - 1 } }
    else pure ld
  else if section_type = YAML_SECTION_MAPS then do
    let m ← character_map.create_from_yaml env value
    pure { ld with m_source := some m }
  else if section_type = YAML_SECTION_EVENTS then do
    let e ← env.event_create_from_yaml key value
    pure { ld with m_events := ld.m_events ++ [e] }
  else
    .error (.game_error ("Found unknown structure ".toList ++ [dquote] ++ section_type
      ++ [dquote] ++ ".".toList))

/-- The body of the loop of `scenario::parse_yaml(section_type, node, doc)`
for one pair of the section. -/
def loading.parse_entry (env : load_env) (section_type : Str) (ld : loading)
    (pair : yaml_node × yaml_node) : Except cpp_error loading :=
  match pair.1 with
  | .scalar key => do
    let ld ← ld.create_entry env section_type key pair.2
    ld.add_id key
  | _ => .error (.game_error env.DEFAULT_PARSE_ERROR)

/-- The method `scenario::parse_yaml(section_type, node, doc)`. -/
def loading.parse_section (env : load_env) (section_type : Str) (ld : loading)
    (node : yaml_node) : Except cpp_error loading :=
  match node with
  | .mapping pairs => pairs.foldlM (loading.parse_entry env section_type) ld
  | _ => .error (.game_error env.DEFAULT_PARSE_ERROR)

/-- The body of the loop of `scenario::parse_yaml()` for one pair of the
root mapping. -/
def loading.parse_top (env : load_env) (ld : loading) (pair : yaml_node × yaml_node) :
    Except cpp_error loading :=
  match pair.1 with
  | .scalar key => ld.parse_section env key pair.2
  | _ => .error (.game_error env.DEFAULT_PARSE_ERROR)

/-- The method `scenario::load`, from the root node of the document on (`none`
for an empty document): the part of `scenario::parse_yaml()` that reads the
configuration. -/
def scenario.load (env : load_env) (root : Option yaml_node) : Except cpp_error loading :=
  match root with
  | some (.mapping pairs) => do
    let ld ← pairs.foldlM (loading.parse_top env) loading.initial
    if ld.m_player = ld.objects_end then
      .error (.game_error "Player structure doesn't exists.".toList)
    else pure ld
  | _ => .error (.game_error env.DEFAULT_PARSE_ERROR)

/-- The members after `load`, as the rest of the engine uses them: a null
`m_source` cannot be used, and an iterator `m_player` that does not point into
the current buffer of `m_objects` designates no object. -/
def loading.to_scenario (ld : loading) (l c : Int) : Except cpp_error scenario :=
  match ld.m_source with
  | none => .error .undefined_behaviour
  | some src =>
    .ok { m_lines := l, m_cols := c, m_source := src, m_render := none,
          m_events := ld.m_events, m_objects := ld.m_objects,
          m_player := if ld.m_player.buffer = ld.objects_buffer then ld.m_player.index
                      else ld.m_objects.length,
          m_identifiers := ld.m_identifiers, calls := [] }

/-- The constructor `scenario::scenario(f, r_f, l, c)`, from the document that
the file `f` parses to. -/
def scenario.create (env : load_env) (root : Option yaml_node) (l c : Int) :
    Except cpp_error scenario := do
  let ld ← scenario.load env root
  let s ← ld.to_scenario l c
  s.after_load

/-! ## The specification of condition lists -/

/-- Concatenation of two condition lists. -/
def event_conditions.append : event_conditions → event_conditions → event_conditions
  | .nil, b => b
  | .leaf cond rest, b => .leaf cond (rest.append b)
  | .nested cond next rest, b => .nested cond next (rest.append b)

/-- The leaf expressions of a condition list, nested ones included; the `"or"`
separators are not leaves. -/
def event_conditions.leaves : event_conditions → List Str
  | .nil => []
  | .leaf cond rest => if cond = or_separator then rest.leaves else cond :: rest.leaves
  | .nested _ next rest => next.leaves ++ rest.leaves

/-- The value of a leaf: whether `parse_condition` returns true on its text. -/
def scenario.leaf_value (s : scenario) (x0 y0 : Int) (cond : Str) : Bool :=
  decide (s.parse_condition x0 y0 cond = .ok true)

/-- The term a leaf contributes: its value, negated when the text ends in the
marker `!`. -/
def scenario.leaf_term (s : scenario) (x0 y0 : Int) (cond : Str) : Bool :=
  if cond.getLast? = some '!' then !s.leaf_value x0 y0 cond else s.leaf_value x0 y0 cond

/-- Puts a term in front of the first run. -/
def push_term (t : Bool) : List (List Bool) → List (List Bool)
  | [] => [[t]]
  | run :: runs => (t :: run) :: runs

/-- The specification of a condition list, in the words of the spec: the
maximal runs of nodes delimited by the `"or"` separators, each run as the list
of the values of its terms; the term of a nested list is the OR over its runs
of the AND of their terms. -/
def scenario.runs (s : scenario) (x0 y0 : Int) : event_conditions → List (List Bool)
  | .nil => [[]]
  | .leaf cond rest =>
    if cond = or_separator then [] :: scenario.runs s x0 y0 rest
    else push_term (s.leaf_term x0 y0 cond) (scenario.runs s x0 y0 rest)
  | .nested _ next rest =>
    push_term ((scenario.runs s x0 y0 next).any (fun run => run.all id))
      (scenario.runs s x0 y0 rest)

/-- The specification of `parse_conditions`: the OR over the runs of the AND
of the terms of each run. -/
def scenario.or_of_ands (s : scenario) (x0 y0 : Int) (conds : event_conditions) : Bool :=
  (s.runs x0 y0 conds).any (fun run => run.all id)

/-- Every leaf of the list is a non-empty text on which `parse_condition`
returns a boolean. -/
def scenario.leaves_evaluate (s : scenario) (x0 y0 : Int) (conds : event_conditions) : Prop :=
  ∀ cond ∈ conds.leaves, cond ≠ [] ∧ (s.parse_condition x0 y0 cond).isOk = true

instance (s : scenario) (x0 y0 : Int) (conds : event_conditions) :
    Decidable (s.leaves_evaluate x0 y0 conds) := by
  unfold scenario.leaves_evaluate; infer_instance

/-- The value the loop of `parse_conditions` returns from the runs that are
left, given the current `result` and `and_sequence`. -/
def finish (result and_sequence : Bool) : List (List Bool) → Bool
  | [] => result || and_sequence
  | run :: runs => result || (and_sequence && run.all id) || runs.any (fun r => r.all id)

/-! ## Invariants used in the proofs -/

/-- What the constructor of `character_map` establishes for the view: the
offset is `(0, 0)` and the dimensions are `int` values. -/
def character_map.fresh (m : character_map) : Prop :=
  m.m_x = 0 ∧ m.m_y = 0 ∧ is_int m.m_width ∧ is_int m.m_height

/-- The invariant of the view: the `int` members are in range, the viewport
is inside the grid on an axis where it fits, and the offset is `0` on an axis
where it does not. -/
def scenario.view_ok (s : scenario) : Prop :=
  s.ints_ok ∧ (s.m_cols ≤ s.width → s.inside_x) ∧ (s.width < s.m_cols → s.x = 0)
    ∧ (s.m_lines ≤ s.height → s.inside_y) ∧ (s.height < s.m_lines → s.y = 0)

/-! ## Concrete states -/

/-- A 3x3 grid of open cells, as the constructor of `character_map` builds it
from `"...\n...\n..."` with no attribute table. -/
def grid3 : character_map :=
  { m_x := 0, m_y := 0, m_width := 3, m_height := 3,
    m_lines := [text_of "...".toList, text_of "...".toList, text_of "...".toList] }

/-- A player at the centre of `grid3`. -/
def player11 : object :=
  { id := "player".toList, x := 1, y := 1, unpassable := ['#'], symbol := ⟨'@', 0⟩,
    vision_range := 2, unvisible := ['#'] }

/-- An entity `obj` at `(1, 1)`. -/
def obj11 : object :=
  { id := "obj".toList, x := 1, y := 1, unpassable := [], symbol := ⟨'o', 0⟩,
    vision_range := 0, unvisible := [] }

/-- The identifiers recorded when `player11`, `obj11` and `ev2` are loaded. -/
def ids3 : List Str :=
  [RESERVED_DIALOG_ID, RESERVED_SCENARIO_ID, "player".toList, "obj".toList, "ev".toList]

/-- An event `ev` that has fired twice. -/
def ev2 : event :=
  { id := "ev".toList, m_conditions := .nil, m_items := [], m_instructions := [],
    m_message := [], m_happened := true, m_turns := 2 }

/-- A scenario on `grid3` with a 2x2 viewport, the player, `obj` and `ev`. -/
def small_view : scenario :=
  { m_lines := 2, m_cols := 2, m_source := grid3, m_render := none,
    m_events := [ev2], m_objects := [player11, obj11], m_player := 0, m_identifiers := ids3,
    calls := [] }

/-- An entity `obj` at `(1, 0)`. -/
def obj10 : object :=
  { id := "obj".toList, x := 1, y := 0, unpassable := [], symbol := ⟨'o', 0⟩,
    vision_range := 0, unvisible := [] }

/-- The scenario `small_view` with `obj` at `(1, 0)`. -/
def top_view : scenario :=
  { m_lines := 2, m_cols := 2, m_source := grid3, m_render := none,
    m_events := [ev2], m_objects := [player11, obj10], m_player := 0, m_identifiers := ids3,
    calls := [] }

/-- A scenario on `grid3` with an 80x24 viewport. -/
def large_view : scenario :=
  { m_lines := 24, m_cols := 80, m_source := grid3, m_render := none,
    m_events := [ev2], m_objects := [player11, obj11], m_player := 0, m_identifiers := ids3,
    calls := [] }

/-- A scenario on `grid3` whose viewport has no column, scrolled to `x = 2`. -/
def zero_cols : scenario :=
  { m_lines := 2, m_cols := 0, m_source := { grid3 with m_x := 2 }, m_render := none,
    m_events := [ev2], m_objects := [player11, obj11], m_player := 0, m_identifiers := ids3,
    calls := [] }

/-- The state `small_view` after the player has stepped to `(2, 1)` and the
view has followed to the offset `(1, 0)`. -/
def after_step : scenario :=
  { m_lines := 2, m_cols := 2, m_source := { grid3 with m_x := 1, m_y := 0 }, m_render := none,
    m_events := [ev2], m_objects := [{ player11 with x := 2 }, obj11], m_player := 0,
    m_identifiers := ids3, calls := [] }

/-- A `turn()` that changes nothing. -/
def idle_turn (s : scenario) : Except cpp_error scenario := .ok s

/-! ## The identifiers of a configuration tree, and concrete trees -/

/-- The keys of the entries of a section. -/
def section_keys : yaml_node → List Str
  | .mapping pairs => pairs.filterMap (fun p =>
      match p.1 with
      | .scalar key => some key
      | _ => none)
  | _ => []

/-- The identifiers of the entries of a top-level pair: the keys of its
entries when it is one of the sections `objects`, `maps`, `events`. -/
def top_entry_ids (pair : yaml_node × yaml_node) : List Str :=
  match pair.1 with
  | .scalar key =>
    if key = YAML_SECTION_OBJECTS ∨ key = YAML_SECTION_MAPS ∨ key = YAML_SECTION_EVENTS
    then section_keys pair.2 else []
  | _ => []

/-- The identifiers that the entries of the sections `objects`, `maps` and
`events` of a configuration tree carry, in document order. -/
def entry_ids : Option yaml_node → List Str
  | some (.mapping pairs) => (pairs.map top_entry_ids).flatten
  | _ => []

/-- A loader environment: the player is called `player`, the factories accept
every description, and the vector grows as in libstdc++ (a full vector of `n`
elements gets room for `n + max n 1`). -/
def demo_env : load_env :=
  { DEFAULT_PLAYER_ID := "player".toList,
    DEFAULT_PARSE_ERROR := "Parse error.".toList,
    object_create_from_yaml := fun key _ =>
      .ok { id := key, x := 1, y := 1, unpassable := ['#'], symbol := ⟨'@', 0⟩,
            vision_range := 2, unvisible := ['#'] },
    event_create_from_yaml := fun key _ =>
      .ok { id := key, m_conditions := .nil, m_items := [], m_instructions := [],
            m_message := [], m_happened := false, m_turns := 0 },
    map_attrs := [],
    DEFAULT_TILE_ATTRIBUTE := 0,
    vector_growth := fun n => n + max n 1 }

/-- The map structure of a 3x3 grid of open cells. -/
def map_node : yaml_node :=
  .mapping [(.scalar "width".toList, .scalar "3".toList),
            (.scalar "height".toList, .scalar "3".toList),
            (.scalar "text".toList, .scalar "...\n...\n...".toList)]

/-- A configuration with the entity `obj` and the event `obj`. -/
def tree_duplicate : yaml_node :=
  .mapping [(.scalar "objects".toList,
              .mapping [(.scalar "player".toList, .mapping []),
                        (.scalar "obj".toList, .mapping [])]),
            (.scalar "maps".toList, .mapping [(.scalar "map".toList, map_node)]),
            (.scalar "events".toList, .mapping [(.scalar "obj".toList, .mapping [])])]

/-- A configuration with the player, a map and the empty section `foo`. -/
def tree_unknown_section : yaml_node :=
  .mapping [(.scalar "objects".toList, .mapping [(.scalar "player".toList, .mapping [])]),
            (.scalar "maps".toList, .mapping [(.scalar "map".toList, map_node)]),
            (.scalar "foo".toList, .mapping [])]

/-- A configuration with the entity `obj`, a map, and no player. -/
def tree_no_player : yaml_node :=
  .mapping [(.scalar "objects".toList, .mapping [(.scalar "obj".toList, .mapping [])]),
            (.scalar "maps".toList, .mapping [(.scalar "map".toList, map_node)])]

/-- A configuration that declares the player first and `obj` after it. -/
def tree_player_first : yaml_node :=
  .mapping [(.scalar "objects".toList,
              .mapping [(.scalar "player".toList, .mapping []),
                        (.scalar "obj".toList, .mapping [])]),
            (.scalar "maps".toList, .mapping [(.scalar "map".toList, map_node)])]

/-! ## The rows of a map text -/

/-- The rows that the loop of the constructor of `character_map` cuts out of
the text: `n` rows, the first from `pos` on. -/
def consumed_rows (map : Str) : Nat → Nat → List Str
  | 0, _ => []
  | n + 1, pos =>
    ((map.drop pos).take (size_sub (find_from map '\n' pos) pos))
      :: consumed_rows map n (size_add (find_from map '\n' pos) 1)

/-- The message of `character_map::push` for the row number `k` when the row
is empty, or when its length is not the width `w`. -/
def bad_row_message (k : Int) (row : Str) (w : Int) : Str :=
  if row = [] then "Line ".toList ++ to_string k ++ " is empty.".toList
  else "The lenght of line number ".toList ++ to_string k ++ " (".toList
    ++ to_string row.length ++ ") does not match the specified length (".toList
    ++ to_string w ++ ").".toList

/-- A text block: its rows, separated by newlines. -/
def join_rows : List Str → Str
  | [] => []
  | [row] => row
  | row :: rows => row ++ '\n' :: join_rows rows

/-! ## Line of sight and rendering (`scene.cpp`) -/

/-- The attribute bit `A_DIM` of the window toolkit (`NCURSES_BITS(1U, 12)`). -/
def A_DIM : Nat := 1048576

/-- The attribute bit `A_BOLD` of the window toolkit (`NCURSES_BITS(1U, 13)`). -/
def A_BOLD : Nat := 2097152

/-- The attribute bit `A_INVIS` of the window toolkit (`NCURSES_BITS(1U, 15)`). -/
def A_INVIS : Nat := 8388608

/-- The attribute mask `A_COLOR` of the window toolkit
(`NCURSES_BITS(((1U) << 8) - 1U, 0)`), the bits of the colour pair. -/
def A_COLOR : Nat := 65280

/-- The assignment `a &= ~mask` on an unsigned attribute. -/
def clear_bits (a mask : Nat) : Nat := a ^^^ (a &&& mask)

/-- A cell is detected: it is no longer invisible and is drawn dimmed, which is
what `source_set_detected` leaves behind. -/
def tile.detected (t : tile) : Bool := t.attr &&& A_INVIS = 0 && t.attr &&& A_DIM ≠ 0

/-- A cell is visible: it is drawn bold, neither invisible nor dimmed, which is
what `render_set_visible` leaves behind. -/
def tile.lit (t : tile) : Bool :=
  t.attr &&& A_INVIS = 0 && t.attr &&& A_DIM = 0 && t.attr &&& A_BOLD ≠ 0

/-- The effect of `source_set_detected` on the cell. -/
def tile.set_detected (t : tile) : tile :=
  { t with attr := clear_bits t.attr A_INVIS ||| A_DIM }

/-- The effect of `render_set_visible` on the cell. -/
def tile.set_visible (t : tile) : tile :=
  { t with attr := clear_bits t.attr (A_INVIS ||| A_DIM) ||| A_BOLD }

/-- Modelled from the spec: a write through the reference that
`character_map::at(x, y)` returns; outside the rows there is no cell to write. -/
def character_map.modify (m : character_map) (x y : Int) (f : tile → tile) :
    Option character_map :=
  if x < 0 ∨ y < 0 then none
  else
    match m.m_lines.get? y.toNat with
    | none => none
    | some line =>
      match line.get? x.toNat with
      | none => none
      | some t => some { m with m_lines := m.m_lines.set y.toNat (line.set x.toNat (f t)) }

/-- The method `scenario::source_set_detected`. -/
def scenario.source_set_detected (s : scenario) (x y : Int) : Except cpp_error scenario :=
  match s.m_source.modify x y tile.set_detected with
  | none => .error .undefined_behaviour
  | some m => .ok { s with m_source := m }

/-- The method `scenario::render_set_visible`. -/
def scenario.render_set_visible (s : scenario) (x y : Int) : Except cpp_error scenario :=
  match s.m_render with
  | none => .error .undefined_behaviour
  | some r =>
    match r.modify x y tile.set_visible with
    | none => .error .undefined_behaviour
    | some m => .ok { s with m_render := some m }

/-- The block of `render_los` that marks the cell `(px, py)` and looks whether
the viewer sees through it; `true` stands for `goto next_line`. -/
def scenario.los_mark (s : scenario) (viewer : object) (px py : Int) :
    Except cpp_error (scenario × Bool) := do
  let s ← s.source_set_detected px py
  let s ← s.render_set_visible px py
  match s.m_source.at px py with
  | none => .error .undefined_behaviour
  | some cell => pure (s, !viewer.visible cell.symbol)

/-- The bits of the integer square root of `n` below the bit `k`, found from
the highest one down: `acc` holds the bits found so far. -/
def sqrt_bits (n : Nat) : Nat → Nat → Nat
  | 0, acc => acc
  | k + 1, acc =>
    if (acc + 2 ^ k) * (acc + 2 ^ k) ≤ n then sqrt_bits n k (acc + 2 ^ k) else sqrt_bits n k acc

/-- The integer nearest to the square root of `n`, for `n < 2 ^ 106`; the
square root of an integer is never half way between two integers. -/
def sqrt_nearest (n : Nat) : Nat :=
  let f := sqrt_bits n 53 0
  if f * f + f < n then f + 1 else f

/-- The number of binary places of the `double` values around the square root
of `d`: the largest `k ≤ n` with `d * 4 ^ k < 2 ^ 106`, so that the square root
of `d`, counted in units of `2 ^ (-k)`, has 53 bits. -/
def double_places (d : Nat) : Nat → Nat
  | 0 => 0
  | k + 1 => if d * 4 ^ (k + 1) < 2 ^ 106 then k + 1 else double_places d k

/-- The library function `hypot` of `<cmath>` on two `int` values, which are
converted to `double` without loss. It is taken as correctly rounded: the
result is the `double` nearest to the square root of `dx * dx + dy * dy`,
given as the pair `(m, k)` that stands for `m / 2 ^ k`. -/
def std_hypot (dx dy : Int) : Nat × Nat :=
  let d := dx.natAbs * dx.natAbs + dy.natAbs * dy.natAbs
  let k := double_places d 52
  (sqrt_nearest (d * 4 ^ k), k)

/-- The library function `round` of `<cmath>` on the `double` value
`m / 2 ^ k`, which is not negative: the nearest integer, halves away from
zero. -/
def std_round (v : Nat × Nat) : Int := ((2 * v.1 + 2 ^ v.2) / 2 ^ (v.2 + 1) : Nat)

/-- The test `round(hypot(dx, dy)) >= vision_range` of `render_los`, in
`double` arithmetic. -/
def los_far (vision_range dx dy : Int) : Bool :=
  decide (std_round (std_hypot dx dy) ≥ vision_range)

/-- The initialiser `(d > 0) - (d < 0)` of `ix` and `iy`. -/
def los_sign (d : Int) : Int := (if d > 0 then 1 else 0) - (if d < 0 then 1 else 0)

/-- The loop `while (px != x)` of `render_los`. An `int` that steps by one
reaches every value within `2 ^ 32` steps, which is the fuel the caller gives. -/
def scenario.los_walk_x (viewer : object) (x ix iy delta_x delta_y : Int) :
    Nat → scenario → Int → Int → Int → Except cpp_error scenario
  | 0, _, _, _, _ => .error .no_return
  | fuel + 1, s, px, py, error =>
    if px = x then .ok s
    else
      let step := decide (error > 0) || (decide (error = 0) && decide (ix > 0))
      let error := if step then wrap_int (error - delta_x) else error
      let py := if step then wrap_int (py + iy) else py
      let error := wrap_int (error + delta_y)
      let px := wrap_int (px + ix)
      if !s.abroad px py then
        match s.los_mark viewer px py with
        | .error e => .error e
        | .ok (s, stop) =>
          if stop then .ok s
          else scenario.los_walk_x viewer x ix iy delta_x delta_y fuel s px py error
      else scenario.los_walk_x viewer x ix iy delta_x delta_y fuel s px py error

/-- The loop `while (py != y)` of `render_los`. -/
def scenario.los_walk_y (viewer : object) (y ix iy delta_x delta_y : Int) :
    Nat → scenario → Int → Int → Int → Except cpp_error scenario
  | 0, _, _, _, _ => .error .no_return
  | fuel + 1, s, px, py, error =>
    if py = y then .ok s
    else
      let step := decide (error > 0) || (decide (error = 0) && decide (iy > 0))
      let error := if step then wrap_int (error - delta_y) else error
      let px := if step then wrap_int (px + ix) else px
      let error := wrap_int (error + delta_x)
      let py := wrap_int (py + iy)
      if !s.abroad px py then
        match s.los_mark viewer px py with
        | .error e => .error e
        | .ok (s, stop) =>
          if stop then .ok s
          else scenario.los_walk_y viewer y ix iy delta_x delta_y fuel s px py error
      else scenario.los_walk_y viewer y ix iy delta_x delta_y fuel s px py error

/-- The body of the two loops of `render_los` for the target `(x, y)`. -/
def scenario.los_target (s : scenario) (viewer : object) (x y : Int) :
    Except cpp_error scenario :=
  let vision_range := viewer.vision_range
  if los_far vision_range (wrap_int (x - viewer.x)) (wrap_int (y - viewer.y)) then .ok s
  else
    let px := viewer.x
    let py := viewer.y
    let delta_x := wrap_int (x - px)
    let ix := los_sign delta_x
    let delta_x := wrap_int (2 * wrap_int (Int.natAbs delta_x))
    let delta_y := wrap_int (y - py)
    let iy := los_sign delta_y
    let delta_y := wrap_int (2 * wrap_int (Int.natAbs delta_y))
    match (if !s.abroad x y then s.los_mark viewer px py else .ok (s, false)) with
    | .error e => .error e
    | .ok (s, stop) =>
      if stop then .ok s
      else if delta_x ≥ delta_y then
        scenario.los_walk_x viewer x ix iy delta_x delta_y 4294967296 s px py
          (wrap_int (delta_y - delta_x / 2))
      else
        scenario.los_walk_y viewer y ix iy delta_x delta_y 4294967296 s px py
          (wrap_int (delta_x - delta_y / 2))

/-- The values of the loop variable of `for (int v = lo; v < hi; ++v)`. -/
def int_range (lo hi : Int) : List Int :=
  (List.range (hi - lo).toNat).map (fun (i : Nat) => lo + (i : Int))

/-- The method `scenario::render_los`. -/
def scenario.render_los (s : scenario) (viewer : object) : Except cpp_error scenario :=
  let vision_range := viewer.vision_range
  let px := viewer.x
  let py := viewer.y
  (int_range (wrap_int (py - vision_range)) (wrap_int (py + vision_range))).foldlM
    (fun s y =>
      (int_range (wrap_int (px - vision_range)) (wrap_int (px + vision_range))).foldlM
        (fun s x => s.los_target viewer x y) s) s

/-- The macro `PAIR_NUMBER` of the window toolkit. -/
def PAIR_NUMBER (a : Nat) : Nat := (a &&& A_COLOR) >>> 8

/-- The macro `COLOR_PAIR` of the window toolkit. -/
def COLOR_PAIR (n : Nat) : Nat := (n <<< 8) &&& A_COLOR

/-- The body of the loop of `scenario::render` for one object: its symbol and
its colour pair are put on the cell of the render copy where it stands. -/
def scenario.render_object (s : scenario) (obj : object) : Except cpp_error scenario :=
  match s.m_render with
  | none => .error .undefined_behaviour
  | some r =>
    match r.modify obj.x obj.y (fun tile =>
        { symbol := obj.symbol.symbol,
          attr := clear_bits tile.attr (COLOR_PAIR (PAIR_NUMBER tile.attr))
            ||| COLOR_PAIR (PAIR_NUMBER obj.symbol.attr) }) with
    | none => .error .undefined_behaviour
    | some m => .ok { s with m_render := some m }

/-- The method `scenario::render`. The call of the paint callback `m_render_f`
is recorded in `calls`. -/
def scenario.render (s : scenario) : Except cpp_error scenario :=
  let s := { s with m_render := some s.m_source }
  match s.m_objects.get? s.m_player with
  | none => .error .undefined_behaviour
  | some player => do
    let s ← s.render_los player
    let s ← s.m_objects.foldlM (fun s obj => s.render_object obj) s
    match s.m_render with
    | none => .error .undefined_behaviour
    | some r => pure { s with calls := s.calls ++ [.render r.m_lines s.x s.y] }

/-! ## Instructions, events and the turn (`scene.cpp`) -/

/-- The method `scenario::parse_command`. The method `event::run`, which is
not among the sources, is the parameter `run`; the calls `window_set(BUILD_MAIN)`
and `window_pop()` are recorded in `calls`. -/
def scenario.parse_command (run : scenario → event → Except cpp_error scenario)
    (s : scenario) (comm : Str) : Except cpp_error scenario := do
  let (id, method, _) ← parse_call comm
  if id = [] then pure s
  else
    if id = RESERVED_SCENARIO_ID then
      if method = "exit".toList then pure { s with calls := s.calls ++ [.window_set_main] }
      else pure s
    else if id = RESERVED_DIALOG_ID then
      if method = "close".toList then pure { s with calls := s.calls ++ [.window_pop] }
      else pure s
    else
      match s.find_object id with
      | some _ => pure s
      | none =>
        match s.find_event id with
        | some event => if method = "run".toList then run s event else pure s
        | none => pure s

/-- The method `scenario::parse_instructions`. -/
def scenario.parse_instructions (run : scenario → event → Except cpp_error scenario)
    (s : scenario) (instructions : List Str) : Except cpp_error scenario :=
  instructions.foldlM (fun s f => s.parse_command run f) s

/-- Modelled from the spec: the method `event::run` (the matching `event.cpp`
is not among the sources): "force an event's instructions to execute
immediately, bypassing its own condition check". The first argument is the
number of nested `run` calls the stack has room for. -/
def event.run : Nat → scenario → event → Except cpp_error scenario
  | 0, _, _ => .error .no_return
  | stack + 1, s, e => s.parse_instructions (event.run stack) e.m_instructions

/-- What the code needs from outside to play a turn: the room of the stack for
nested `run` calls, the items the player picks in the dialog of an event (by
their positions in `m_items`, in the order of picking), and the values that the
uninitialised locals of `parse_condition` hold. -/
structure play_env where
  stack : Nat
  choices : event → List Nat
  x0 : Int
  y0 : Int

/-- The event at position `i` of the table is replaced by `f` of it. -/
def scenario.update_event (s : scenario) (i : Nat) (f : event → event) : scenario :=
  match s.m_events.get? i with
  | none => s
  | some e => { s with m_events := s.m_events.set i (f e) }

/-- Modelled from the spec: the method `event::inc` (not among the sources):
"increment an internal occurrence counter". -/
def event.inc (e : event) : event := { e with m_turns := e.m_turns + 1 }

/-- Modelled from the spec: the dialog of an event with a message: the window
is pushed, and the instruction list of every item the player picks is
executed. -/
def scenario.dialog (env : play_env) (s : scenario) (e : event) : Except cpp_error scenario :=
  (env.choices e).foldlM
    (fun s k =>
      match e.m_items.get? k with
      | none => pure s
      | some item => s.parse_instructions (event.run env.stack) item.instructions)
    { s with calls := s.calls ++ [.dialog e.id] }

/-- Modelled from the spec: the method `event::test` for the event at position
`i` of the table (the `event.cpp` among the sources is an older one, from which
the shape is taken): "evaluate the condition tree; if true, and a display
message is present, suspend the turn loop to present the message [...]; if no
message, run the event's default instruction list immediately. After any
firing, [...] mark `happened=true`". -/
def scenario.test_event (env : play_env) (s : scenario) (i : Nat) : Except cpp_error scenario :=
  match s.m_events.get? i with
  | none => .error .undefined_behaviour
  | some e => do
    let fired ← s.parse_conditions env.x0 env.y0 e.m_conditions
    if fired then
      let s ← (if e.m_message = [] then
          s.parse_instructions (event.run env.stack) e.m_instructions
        else s.dialog env e)
      pure (s.update_event i (fun e => { e with m_happened := true }))
    else pure s

/-- The body of the loop of `scenario::turn` for the event at position `i`. -/
def scenario.turn_event (env : play_env) (s : scenario) (i : Nat) : Except cpp_error scenario := do
  let s ← s.test_event env i
  /- Increase event turns if it was happened -/
  match s.m_events.get? i with
  | none => .error .undefined_behaviour
  | some e => if e.happened then pure (s.update_event i event.inc) else pure s

/-- The loop of `scenario::turn` over the events from position `i` on, `n` of
them. -/
def scenario.turn_events (env : play_env) : Nat → Nat → scenario → Except cpp_error scenario
  | 0, _, s => .ok s
  | n + 1, i, s => do
    let s ← s.turn_event env i
    scenario.turn_events env n (i + 1) s

/-- The method `scenario::turn`. -/
def scenario.turn (env : play_env) (s : scenario) : Except cpp_error scenario := do
  /- At first rendered map of the new state, and then later checked events
     and pop-up windows -/
  let s ← s.render
  s.turn_events env s.m_events.length 0

/-! ## The cells of a trace, and what a line-of-sight pass may change -/

/-- The cell of the render copy at `(x, y)`. -/
def scenario.render_at (s : scenario) (x y : Int) : Option tile :=
  s.m_render.bind (fun r => r.at x y)

/-- The cell of the grid at `(x, y)` is detected. -/
def scenario.detected_at (s : scenario) (x y : Int) : Bool :=
  (s.m_source.at x y).any tile.detected

/-- The cell of the render copy at `(x, y)` is visible. -/
def scenario.lit_at (s : scenario) (x y : Int) : Bool :=
  (s.render_at x y).any tile.lit

/-- Every position inside the dimensions has a cell, in the grid and in the
render copy. -/
def scenario.grid_ok (s : scenario) : Prop :=
  ∀ x y, s.abroad x y = false → (s.m_source.at x y).isSome ∧ (s.render_at x y).isSome

/-- The cell `c` is inside the grid and the viewer does not see through it. -/
def scenario.blocks (s : scenario) (viewer : object) (c : Int × Int) : Bool :=
  !s.abroad c.1 c.2 &&
    match s.m_source.at c.1 c.2 with
    | some t => !viewer.visible t.symbol
    | none => false

/-- The positions that the loop `while (px != x)` of `render_los` steps
through when no cell stops it, in order. -/
def los_ray_x (x ix iy delta_x delta_y : Int) : Nat → Int → Int → Int → Option (List (Int × Int))
  | 0, _, _, _ => none
  | fuel + 1, px, py, error =>
    if px = x then some []
    else
      let step := decide (error > 0) || (decide (error = 0) && decide (ix > 0))
      let error := if step then wrap_int (error - delta_x) else error
      let py := if step then wrap_int (py + iy) else py
      let error := wrap_int (error + delta_y)
      let px := wrap_int (px + ix)
      (los_ray_x x ix iy delta_x delta_y fuel px py error).map (fun cs => (px, py) :: cs)

/-- The positions that the loop `while (py != y)` of `render_los` steps
through when no cell stops it, in order. -/
def los_ray_y (y ix iy delta_x delta_y : Int) : Nat → Int → Int → Int → Option (List (Int × Int))
  | 0, _, _, _ => none
  | fuel + 1, px, py, error =>
    if py = y then some []
    else
      let step := decide (error > 0) || (decide (error = 0) && decide (iy > 0))
      let error := if step then wrap_int (error - delta_y) else error
      let px := if step then wrap_int (px + ix) else px
      let error := wrap_int (error + delta_x)
      let py := wrap_int (py + iy)
      (los_ray_y y ix iy delta_x delta_y fuel px py error).map (fun cs => (px, py) :: cs)

/-- The ray from the viewer to the target `(x, y)`: the positions after the
viewer's own that the trace of `render_los` aimed at `(x, y)` steps through
when no cell stops it, in order. -/
def los_ray (viewer : object) (x y : Int) : Option (List (Int × Int)) :=
  let px := viewer.x
  let py := viewer.y
  let delta_x := wrap_int (x - px)
  let ix := los_sign delta_x
  let delta_x := wrap_int (2 * wrap_int (Int.natAbs delta_x))
  let delta_y := wrap_int (y - py)
  let iy := los_sign delta_y
  let delta_y := wrap_int (2 * wrap_int (Int.natAbs delta_y))
  if delta_x ≥ delta_y then
    los_ray_x x ix iy delta_x delta_y 4294967296 px py (wrap_int (delta_y - delta_x / 2))
  else
    los_ray_y y ix iy delta_x delta_y 4294967296 px py (wrap_int (delta_x - delta_y / 2))

/-- The positions of a ray up to and including the first one that blocks. -/
def upto_stop (blocked : Int × Int → Bool) : List (Int × Int) → List (Int × Int)
  | [] => []
  | c :: cs => if blocked c then [c] else c :: upto_stop blocked cs

/-- The target `(x, y)` is one that `render_los` traces: a pair of values of
its two loop variables that passes the distance test. -/
def scenario.los_aims (viewer : object) (x y : Int) : Prop :=
  y ∈ int_range (wrap_int (viewer.y - viewer.vision_range))
        (wrap_int (viewer.y + viewer.vision_range)) ∧
  x ∈ int_range (wrap_int (viewer.x - viewer.vision_range))
        (wrap_int (viewer.x + viewer.vision_range)) ∧
  los_far viewer.vision_range (wrap_int (x - viewer.x)) (wrap_int (y - viewer.y)) = false

/-- The states `s'` that marking cells among those in `D` makes of `s`:
nothing but cells changes, no cell changes its symbol, the cells outside `D`
do not change at all, and a detected or visible cell stays so. -/
structure scenario.los_ext (D : Int → Int → Prop) (s s' : scenario) : Prop where
  lines : s'.m_lines = s.m_lines
  cols : s'.m_cols = s.m_cols
  events : s'.m_events = s.m_events
  objects : s'.m_objects = s.m_objects
  player : s'.m_player = s.m_player
  identifiers : s'.m_identifiers = s.m_identifiers
  calls : s'.calls = s.calls
  view_x : s'.m_source.m_x = s.m_source.m_x
  view_y : s'.m_source.m_y = s.m_source.m_y
  width : s'.m_source.m_width = s.m_source.m_width
  height : s'.m_source.m_height = s.m_source.m_height
  src_symbol : ∀ x y, (s'.m_source.at x y).map (fun t => t.symbol)
    = (s.m_source.at x y).map (fun t => t.symbol)
  rnd_symbol : ∀ x y, (s'.render_at x y).map (fun t => t.symbol)
    = (s.render_at x y).map (fun t => t.symbol)
  src_out : ∀ x y, ¬ D x y → s'.m_source.at x y = s.m_source.at x y
  rnd_out : ∀ x y, ¬ D x y → s'.render_at x y = s.render_at x y
  src_detected : ∀ x y, s.detected_at x y = true → s'.detected_at x y = true
  rnd_lit : ∀ x y, s.lit_at x y = true → s'.lit_at x y = true

/-- What a line-of-sight pass, a rendering and the instructions of an event do
not write: the state without the cells of the grid, the render copy and the
recorded calls. -/
def scenario.stage (s : scenario) : scenario :=
  { s with m_source := { s.m_source with m_lines := [] }, m_render := none, calls := [] }

/-! ## Concrete plays -/

/-- A stack with room for eight nested `run` calls, a player who picks no
item, and zeros in the uninitialised locals. -/
def quiet_env : play_env := { stack := 8, choices := fun _ => [], x0 := 0, y0 := 0 }

/-- An event `ev` that has not fired, with the condition `player.in(1 1)`. -/
def ev_at_centre : event :=
  { id := "ev".toList, m_conditions := .leaf "player.in(1 1)".toList .nil, m_items := [],
    m_instructions := [], m_message := [], m_happened := false, m_turns := 0 }

/-- The scenario `small_view` with the event `ev_at_centre` in place of its
event: the player stands at `(1, 1)` and no event has fired. -/
def fresh_play : scenario :=
  { m_lines := 2, m_cols := 2, m_source := grid3, m_render := none,
    m_events := [ev_at_centre], m_objects := [player11, obj11], m_player := 0,
    m_identifiers := ids3, calls := [] }

/-- The flag and the counter of every event of the table. -/
def scenario.event_marks (s : scenario) : List (Bool × Int) :=
  s.m_events.map (fun e => (e.m_happened, e.m_turns))

/-- What is left of a state when the events and the recorded calls are taken
away. -/
def scenario.without_events (s : scenario) : scenario := { s with m_events := [], calls := [] }

/-- The positions that the trace of `render_los` aimed at `(x, y)` comes to,
`path` being the ray to `(x, y)`: the viewer's own position when the target is
inside the grid, then the positions of the ray, up to and including the first
one that blocks. -/
def scenario.los_trace (s : scenario) (viewer : object) (x y : Int)
    (path : List (Int × Int)) : List (Int × Int) :=
  upto_stop (s.blocks viewer) (if s.abroad x y then path else (viewer.x, viewer.y) :: path)

/-- The cell `(a, b)` of the grid lies on the trace aimed at one of the targets
of a line-of-sight pass. -/
def scenario.los_reached (s : scenario) (viewer : object) (a b : Int) : Prop :=
  ∃ x y path, scenario.los_aims viewer x y ∧ los_ray viewer x y = some path ∧
    (a, b) ∈ s.los_trace viewer x y path ∧ s.abroad a b = false

/-- The invariant of a line-of-sight pass that started in `s` and has come to
`s1` with the targets in `Done` behind it: only cells on traces have changed,
and the traces of the targets in `Done` are marked. -/
def scenario.los_done (s s1 : scenario) (viewer : object) (Done : Int → Int → Prop) : Prop :=
  s.los_ext (s.los_reached viewer) s1 ∧
  ∀ x y path, Done x y → scenario.los_aims viewer x y → los_ray viewer x y = some path →
    ∀ c ∈ s.los_trace viewer x y path, s.abroad c.1 c.2 = false →
      s1.detected_at c.1 c.2 = true ∧ s1.lit_at c.1 c.2 = true

/-- The scenario `fresh_play` at the moment `render()` calls `render_los`: the
render copy is the grid. -/
def open_play : scenario :=
  { m_lines := 2, m_cols := 2, m_source := grid3, m_render := some grid3,
    m_events := [ev_at_centre], m_objects := [player11, obj11], m_player := 0,
    m_identifiers := ids3, calls := [] }

/-- The cells of the grid, row by row: whether each is detected. -/
def scenario.detected_cells (s : scenario) : List (List Bool) :=
  s.m_source.m_lines.map (fun line => line.map tile.detected)

/-- The cells of the render copy, row by row: whether each is visible. -/
def scenario.lit_cells (s : scenario) : List (List Bool) :=
  match s.m_render with
  | none => []
  | some r => r.m_lines.map (fun line => line.map tile.lit)

/-- A 4x2 grid that is open except for the wall at `(1, 0)`, as the
constructor of `character_map` builds it from `".#..\n...."` with no attribute
table. -/
def grid_wall : character_map :=
  { m_x := 0, m_y := 0, m_width := 4, m_height := 2,
    m_lines := [text_of ".#..".toList, text_of "....".toList] }

/-- A viewer in the corner `(0, 0)` with the vision range 4, who does not see
through `#`. -/
def watcher : object :=
  { id := "player".toList, x := 0, y := 0, unpassable := ['#'], symbol := ⟨'@', 0⟩,
    vision_range := 4, unvisible := ['#'] }

/-- A scenario on `grid_wall` at the moment `render()` calls `render_los`. -/
def wall_play : scenario :=
  { m_lines := 2, m_cols := 2, m_source := grid_wall, m_render := some grid_wall,
    m_events := [], m_objects := [watcher], m_player := 0,
    m_identifiers := [RESERVED_DIALOG_ID, RESERVED_SCENARIO_ID, "player".toList], calls := [] }

/-- The positions of the grid at which a cell blocks the viewer, row by row. -/
def scenario.blocking_cells (s : scenario) (viewer : object) : List (List Bool) :=
  s.m_source.m_lines.map (fun line => line.map (fun t => !viewer.visible t.symbol))

/-- What a part of a line-of-sight pass that started in `s` may end with
when every access stays inside the grid: a state that differs from `s` in
cells of the grid only, or the end of the fuel of a loop; not undefined
behaviour. -/
def scenario.los_safe (s : scenario) (r : Except cpp_error scenario) : Prop :=
  match r with
  | .ok s' => s.los_ext (fun a b => s.abroad a b = false) s'
  | .error e => e = .no_return

/-- The scroll offset, the size of the viewport and the positions of the
entities, in the order of the entity table. -/
def scenario.view_and_positions (s : scenario) : List Int × List (Int × Int) :=
  ([s.x, s.y, s.m_cols, s.m_lines], s.m_objects.map (fun o => (o.x, o.y)))

/-- The play that starts at `fresh_play` after the constructor: the player
steps from `(1, 1)` to `(0, 0)`, and the view is then panned by `(1, 1)`. -/
def panned_play : Except cpp_error scenario :=
  (fresh_play.after_load.bind
    (fun s => s.move_player (scenario.turn quiet_env) (-1) (-1))).map
    (fun s => s.move_view 1 1)

/-- The instructions of the items that the player picks in the dialog of the
event `e`, in the order of picking. -/
def event.picked_instructions (env : play_env) (e : event) : List Str :=
  ((env.choices e).map (fun k =>
    match e.m_items.get? k with
    | none => []
    | some item => item.instructions)).flatten

/-- The flag `happened` of the event at position `i` is set. -/
def scenario.mark_happened (s : scenario) (i : Nat) : scenario :=
  s.update_event i (fun e => { e with m_happened := true })

/-- An event `talk` with the condition `player.in(1 1)`, a message, one item
that closes the dialog, and the default instruction `scenario.exit()`. -/
def ev_talk : event :=
  { id := "talk".toList, m_conditions := .leaf "player.in(1 1)".toList .nil,
    m_items := [{ label := "ok".toList, instructions := ["dialog.close()".toList] }],
    m_instructions := ["scenario.exit()".toList], m_message := "Hello".toList,
    m_happened := false, m_turns := 0 }

/-- The scenario `fresh_play` with the event `ev_talk` in place of its event. -/
def talk_play : scenario := { fresh_play with m_events := [ev_talk] }

/-- A player who picks the first item of every dialog. -/
def picking_env : play_env := { stack := 8, choices := fun _ => [0], x0 := 0, y0 := 0 }

/-- A viewer in the corner `(0, 0)` with the vision range `2 ^ 26 + 1`, who sees
through every symbol. -/
def far_watcher : object :=
  { id := "player".toList, x := 0, y := 0, unpassable := [], symbol := ⟨'@', 0⟩,
    vision_range := 67108865, unvisible := [] }

/-- An open grid of 67108865 columns and 8193 rows, none of whose cells is
detected. -/
def grid_far : character_map :=
  { m_x := 0, m_y := 0, m_width := 67108865, m_height := 8193,
    m_lines := List.replicate 8193 (List.replicate 67108865 ⟨'.', 0⟩) }

/-- A scenario on `grid_far` at the moment `render()` calls `render_los`. -/
def far_play : scenario :=
  { m_lines := 2, m_cols := 2, m_source := grid_far, m_render := some grid_far,
    m_events := [], m_objects := [far_watcher], m_player := 0,
    m_identifiers := [RESERVED_DIALOG_ID, RESERVED_SCENARIO_ID, "player".toList], calls := [] }

/-! ## Facts about the string primitives -/

theorem find_of_not_mem {s : Str} {c : Char} (h : c ∉ s) : find s c = npos := by
  simp [find, find_from, h]

theorem find_of_mem {s : Str} {c : Char} (h : c ∈ s) : find s c = s.indexOf c := by
  simp [find, find_from, h]

theorem find_append_cons {pre : Str} {c : Char} (post : Str) (h : c ∉ pre) :
    find (pre ++ c :: post) c = pre.length := by
  rw [find_of_mem (by simp), List.indexOf_append_of_not_mem h]
  simp

theorem rfind_of_not_mem {s : Str} {c : Char} (h : c ∉ s) : rfind s c = npos := by
  simp [rfind, h]

theorem rfind_append_singleton (s : Str) (c : Char) : rfind (s ++ [c]) c = s.length := by
  simp [rfind]

theorem take_indexOf_eq_takeWhile (c : Char) (s : Str) :
    s.take (s.indexOf c) = s.takeWhile (fun d => d != c) := by
  induction s with
  | nil => simp
  | cons d ds ih =>
    by_cases hd : d = c
    · subst hd; simp
    · have hne : (d != c) = true := by simpa using hd
      rw [List.indexOf_cons_ne _ hd, List.take_succ_cons, ih, List.takeWhile_cons, hne]
      simp

theorem takeWhile_ne_of_not_mem {c : Char} {s : Str} (h : c ∉ s) :
    s.takeWhile (fun d => d != c) = s := by
  rw [List.takeWhile_eq_self_iff]
  intro d hd
  have : d ≠ c := fun e => h (e ▸ hd)
  simpa using this

/-! ## Call parsing -/

/-- A well-formed call text is split into its three parts. -/
theorem parse_call_compose (id method args : Str)
    (hid1 : '.' ∉ id) (hid2 : '(' ∉ id) (hm : '(' ∉ method)
    (hlen : (id ++ '.' :: (method ++ '(' :: (args ++ [')']))).length < npos) :
    parse_call (id ++ '.' :: (method ++ '(' :: (args ++ [')']))) = .ok (id, method, args) := by
  have hp : find (id ++ '.' :: (method ++ '(' :: (args ++ [')']))) '.' = id.length :=
    find_append_cons _ hid1
  have ho : find (id ++ '.' :: (method ++ '(' :: (args ++ [')']))) '('
      = id.length + 1 + method.length := by
    have e : id ++ '.' :: (method ++ '(' :: (args ++ [')']))
        = (id ++ '.' :: method) ++ '(' :: (args ++ [')']) := by simp
    rw [e, find_append_cons _ (by simp [hid2, hm])]
    simp; omega
  have hc : rfind (id ++ '.' :: (method ++ '(' :: (args ++ [')']))) ')'
      = id.length + 1 + method.length + 1 + args.length := by
    have e : id ++ '.' :: (method ++ '(' :: (args ++ [')']))
        = (id ++ '.' :: (method ++ '(' :: args)) ++ [')'] := by simp
    rw [e, rfind_append_singleton]
    simp; omega
  simp only [List.length_append, List.length_cons, List.length_nil, npos] at hlen
  have h1 : ¬ (id.length > id.length + 1 + method.length ∨ id.length = npos) := by
    simp only [npos]; omega
  have h2 : ¬ (id.length + 1 + method.length = npos
      ∨ id.length + 1 + method.length + 1 + args.length = npos) := by
    simp only [npos]; omega
  have a1 : size_add id.length 1 = id.length + 1 := by
    simp only [size_add]; omega
  have a2 : size_sub (id.length + 1 + method.length) (id.length + 1) = method.length := by
    simp only [size_sub]; omega
  have a3 : size_add (id.length + 1 + method.length) 1 = id.length + 1 + method.length + 1 := by
    simp only [size_add]; omega
  have a4 : size_sub (id.length + 1 + method.length + 1 + args.length)
      (id.length + 1 + method.length + 1) = args.length := by
    simp only [size_sub]; omega
  have d1 : (id ++ '.' :: (method ++ '(' :: (args ++ [')']))).drop (id.length + 1)
      = method ++ '(' :: (args ++ [')']) := by
    have e : id ++ '.' :: (method ++ '(' :: (args ++ [')']))
        = (id ++ ['.']) ++ (method ++ '(' :: (args ++ [')'])) := by simp
    rw [e]; exact List.drop_left' (by simp)
  have d2 : (id ++ '.' :: (method ++ '(' :: (args ++ [')']))).drop
      (id.length + 1 + method.length + 1) = args ++ [')'] := by
    have e : id ++ '.' :: (method ++ '(' :: (args ++ [')']))
        = (id ++ '.' :: (method ++ ['('])) ++ (args ++ [')']) := by simp
    rw [e]; exact List.drop_left' (by simp; omega)
  have l0 : (id ++ '.' :: (method ++ '(' :: (args ++ [')']))).length
      = id.length + 1 + method.length + 1 + args.length + 1 := by
    simp; omega
  have c1 : ¬ (id.length + 1 > id.length + 1 + method.length + 1 + args.length + 1) := by omega
  have c2 : ¬ (id.length + 1 + method.length + 1
      > id.length + 1 + method.length + 1 + args.length + 1) := by omega
  simp only [parse_call, hp, ho, hc, h1, h2, if_false, substr, a1, a2, a3, a4, d1, d2, l0, c1, c2,
    bind, Except.bind, pure, Except.pure, List.drop_zero, Nat.not_lt_zero, gt_iff_lt,
    List.take_left', List.take_left]

theorem call_shape (i m a : Str) :
    i ++ ['.'] ++ m ++ ['('] ++ a ++ [')'] = i ++ '.' :: (m ++ '(' :: (a ++ [')'])) := by
  simp

/-- A call text without an object part: the id is empty and the method is the
text before the first opening bracket. -/
theorem parse_call_no_object (call : Str) (hlen : call.length < npos)
    (h : '.' ∉ call ∨ List.indexOf '(' call < List.indexOf '.' call) :
    ∃ args, parse_call call = .ok ([], call.takeWhile (fun d => d != '('), args) := by
  simp only [npos] at hlen
  by_cases ho : '(' ∈ call
  · have hob : find call '(' = List.indexOf '(' call := find_of_mem ho
    have hlt : List.indexOf '(' call < call.length := List.indexOf_lt_length.2 ho
    have hcond : List.indexOf '(' call < find call '.' ∨ find call '.' = npos := by
      by_cases hd : '.' ∈ call
      · left
        rw [find_of_mem hd]
        rcases h with h | h
        · exact absurd hd h
        · exact h
      · right; exact find_of_not_mem hd
    have s0 : size_sub (List.indexOf '(' call) 0 = List.indexOf '(' call := by
      simp only [size_sub]; omega
    have s1 : size_add (List.indexOf '(' call) 1 = List.indexOf '(' call + 1 := by
      simp only [size_add]; omega
    have c1 : ¬ (List.indexOf '(' call + 1 > call.length) := by omega
    have hne : List.indexOf '(' call ≠ npos := by simp only [npos]; omega
    by_cases hcb : rfind call ')' = npos
    · refine ⟨[], ?_⟩
      simp only [parse_call, hcond, if_true, hob, hcb, or_true, substr, s0,
        bind, Except.bind, pure, Except.pure, List.drop_zero, Nat.not_lt_zero, gt_iff_lt,
        if_false, take_indexOf_eq_takeWhile]
    · refine ⟨(call.drop (List.indexOf '(' call + 1)).take
        (size_sub (rfind call ')') (List.indexOf '(' call + 1)), ?_⟩
      simp only [parse_call, hcond, if_true, hob, hcb, hne, or_self, substr, s0, s1, c1,
        bind, Except.bind, pure, Except.pure, List.drop_zero, Nat.not_lt_zero, gt_iff_lt,
        if_false, take_indexOf_eq_takeWhile]
  · have hd : '.' ∉ call := by
      rcases h with h | h
      · exact h
      · have : List.indexOf '(' call = call.length := List.indexOf_eq_length.2 ho
        have := @List.indexOf_le_length _ _ '.' call
        omega
    have s0 : size_sub npos 0 = npos := by decide
    have t0 : call.take npos = call := List.take_of_length_le (by simp only [npos]; omega)
    refine ⟨[], ?_⟩
    simp only [parse_call, find_of_not_mem ho, find_of_not_mem hd, or_true, if_true, substr, s0,
      bind, Except.bind, pure, Except.pure, List.drop_zero, Nat.not_lt_zero, gt_iff_lt,
      if_false, true_or, t0, takeWhile_ne_of_not_mem ho]

/-! ## Claims about `parse_call` -/

/-- C2. A call text `id.method(args)`, where `id` has neither `.` nor `(` and
`method` has no `(`, is split by `parse_call` into exactly `(id, method, args)`,
whatever `args` contains; so `parse_call("foo.bar(1, 2)")` is
`("foo", "bar", "1, 2")`. -/
theorem parse_call_well_formed (id method args : Str)
    (hid1 : '.' ∉ id) (hid2 : '(' ∉ id) (hm : '(' ∉ method)
    (hlen : (id ++ ".".toList ++ method ++ "(".toList ++ args ++ ")".toList).length < npos) :
    parse_call (id ++ ".".toList ++ method ++ "(".toList ++ args ++ ")".toList)
        = .ok (id, method, args) ∧
    parse_call "foo.bar(1, 2)".toList = .ok ("foo".toList, "bar".toList, "1, 2".toList) := by
  have e : id ++ ".".toList ++ method ++ "(".toList ++ args ++ ")".toList
      = id ++ '.' :: (method ++ '(' :: (args ++ [')'])) := call_shape id method args
  rw [e] at hlen ⊢
  exact ⟨parse_call_compose id method args hid1 hid2 hm hlen, by decide⟩

/-- Witness of C2 at `id = "obj"`, `method = "in"`, `args = "(1).(2)"`. -/
theorem parse_call_well_formed_witness :
    ('.' ∉ "obj".toList ∧ '(' ∉ "obj".toList ∧ '(' ∉ "in".toList ∧
      ("obj".toList ++ ".".toList ++ "in".toList ++ "(".toList ++ "(1).(2)".toList
        ++ ")".toList).length < npos) ∧
    (parse_call ("obj".toList ++ ".".toList ++ "in".toList ++ "(".toList ++ "(1).(2)".toList
        ++ ")".toList) = .ok ("obj".toList, "in".toList, "(1).(2)".toList) ∧
     parse_call "foo.bar(1, 2)".toList = .ok ("foo".toList, "bar".toList, "1, 2".toList)) :=
  ⟨by decide, parse_call_well_formed "obj".toList "in".toList "(1).(2)".toList
    (by decide) (by decide) (by decide) (by decide)⟩

/-- C3. For a call text with no `.` at all, or whose first `.` comes after
its first `(`, `parse_call` returns an empty id and, as method, the text before
the first `(` (the whole text when there is none); so `parse_call("bar()")` and
`parse_call("bar")` are both `("", "bar", "")`. -/
theorem parse_call_without_id (call : Str) (hlen : call.length < npos)
    (h : '.' ∉ call ∨ List.indexOf '(' call < List.indexOf '.' call) :
    (∃ args, parse_call call = .ok ([], call.takeWhile (fun d => d != '('), args)) ∧
    parse_call "bar()".toList = .ok ([], "bar".toList, []) ∧
    parse_call "bar".toList = .ok ([], "bar".toList, []) :=
  ⟨parse_call_no_object call hlen h, by decide, by decide⟩

/-- Witness of C3 at the text `function(2, 4, '.')` of the comment in
`parse_call`. -/
theorem parse_call_without_id_witness :
    ("function(2, 4, '.')".toList.length < npos ∧
      ('.' ∉ "function(2, 4, '.')".toList ∨
        List.indexOf '(' "function(2, 4, '.')".toList
          < List.indexOf '.' "function(2, 4, '.')".toList)) ∧
    ((∃ args, parse_call "function(2, 4, '.')".toList
        = .ok ([], "function(2, 4, '.')".toList.takeWhile (fun d => d != '('), args)) ∧
      parse_call "bar()".toList = .ok ([], "bar".toList, []) ∧
      parse_call "bar".toList = .ok ([], "bar".toList, [])) :=
  ⟨by decide, parse_call_without_id "function(2, 4, '.')".toList (by decide)
    (Or.inr (by decide))⟩

/-- C4 (failing input). On `)(abc`, whose last `)` comes before its first
`(`, `parse_call` returns the args `abc`, the whole text after the `(`, and not
the empty string: the length `cbracket - (obracket + 1)` wraps around. -/
theorem parse_call_reversed_brackets :
    parse_call ")(abc".toList = .ok ([], ")".toList, "abc".toList) := by decide

/-! ## Claims about the condition interpreter -/

theorem finish_push_term (r a t : Bool) (runs : List (List Bool)) (h : runs ≠ []) :
    finish r a (push_term t runs) = finish r (a && t) runs := by
  cases runs with
  | nil => exact absurd rfl h
  | cons g gs => simp [finish, push_term, Bool.and_assoc]

theorem runs_ne_nil (s : scenario) (x0 y0 : Int) (conds : event_conditions) :
    s.runs x0 y0 conds ≠ [] := by
  cases conds with
  | nil => simp [scenario.runs]
  | leaf cond rest =>
    simp only [scenario.runs]
    split
    · simp
    · cases scenario.runs s x0 y0 rest <;> simp [push_term]
  | nested cond next rest =>
    simp only [scenario.runs]
    cases scenario.runs s x0 y0 rest <;> simp [push_term]

theorem finish_start (runs : List (List Bool)) (h : runs ≠ []) :
    finish false true runs = runs.any (fun r => r.all id) := by
  cases runs with
  | nil => exact absurd rfl h
  | cons g gs => simp [finish]

theorem isOk_elim (r : Except cpp_error Bool) (h : r.isOk = true) : ∃ b, r = .ok b := by
  cases r with
  | error e => simp [Except.isOk, Except.toBool] at h
  | ok b => exact ⟨b, rfl⟩

theorem loop_eq_finish (s : scenario) (x0 y0 : Int) (conds : event_conditions) :
    s.leaves_evaluate x0 y0 conds → ∀ r a,
      s.parse_conditions_loop x0 y0 conds r a = .ok (finish r a (s.runs x0 y0 conds)) := by
  induction conds with
  | nil => intro _ r a; simp [scenario.parse_conditions_loop, scenario.runs, finish, pure, Except.pure]
  | leaf cond rest ih =>
    intro h r a
    by_cases hor : cond = or_separator
    · have hrest : s.leaves_evaluate x0 y0 rest := by
        intro c hc; exact h c (by simp [event_conditions.leaves, hor, hc])
      simp only [scenario.parse_conditions_loop, scenario.runs, hor, if_true, ih hrest]
      have := runs_ne_nil s x0 y0 rest
      cases hr : scenario.runs s x0 y0 rest with
      | nil => exact absurd hr this
      | cons g gs => simp [finish, Bool.or_assoc]
    · have hrest : s.leaves_evaluate x0 y0 rest := by
        intro c hc; exact h c (by simp [event_conditions.leaves, hor, hc])
      obtain ⟨hne, hok⟩ := h cond (by simp [event_conditions.leaves, hor])
      obtain ⟨b, hb⟩ := isOk_elim _ hok
      obtain ⟨last, hlast⟩ : ∃ last, cond.getLast? = some last := by
        cases hg : cond.getLast? with
        | none => exact absurd (List.getLast?_eq_none_iff.1 hg) hne
        | some l => exact ⟨l, rfl⟩
      simp only [scenario.parse_conditions_loop, scenario.runs, hor, if_false, hlast, hb,
        bind, Except.bind, ih hrest]
      rw [finish_push_term _ _ _ _ (runs_ne_nil s x0 y0 rest)]
      simp only [scenario.leaf_term, scenario.leaf_value, hlast, hb]
      cases b <;> by_cases hl : last = '!' <;> simp [hl]
  | nested cond next rest ihn ihr =>
    intro h r a
    have hnext : s.leaves_evaluate x0 y0 next := by
      intro c hc; exact h c (by simp [event_conditions.leaves, hc])
    have hrest : s.leaves_evaluate x0 y0 rest := by
      intro c hc; exact h c (by simp [event_conditions.leaves, hc])
    simp only [scenario.parse_conditions_loop, scenario.runs, bind, Except.bind, ihn hnext,
      ihr hrest]
    rw [finish_push_term _ _ _ _ (runs_ne_nil s x0 y0 rest),
      finish_start _ (runs_ne_nil s x0 y0 next)]

theorem parse_conditions_eq (s : scenario) (x0 y0 : Int) (conds : event_conditions)
    (h : s.leaves_evaluate x0 y0 conds) :
    s.parse_conditions x0 y0 conds = .ok (s.or_of_ands x0 y0 conds) := by
  rw [scenario.parse_conditions, loop_eq_finish s x0 y0 conds h,
    finish_start _ (runs_ne_nil s x0 y0 conds)]
  rfl

theorem leaves_append_or (a b : event_conditions) :
    (a.append (.leaf or_separator b)).leaves = a.leaves ++ b.leaves := by
  induction a with
  | nil => simp [event_conditions.append, event_conditions.leaves]
  | leaf cond rest ih =>
    simp only [event_conditions.append, event_conditions.leaves, ih]
    split <;> simp
  | nested cond next rest _ ih =>
    simp only [event_conditions.append, event_conditions.leaves, ih, List.append_assoc]

theorem push_term_append (t : Bool) (l m : List (List Bool)) (h : l ≠ []) :
    push_term t (l ++ m) = push_term t l ++ m := by
  cases l with
  | nil => exact absurd rfl h
  | cons g gs => simp [push_term]

theorem runs_append_or (s : scenario) (x0 y0 : Int) (a b : event_conditions) :
    s.runs x0 y0 (a.append (.leaf or_separator b)) = s.runs x0 y0 a ++ s.runs x0 y0 b := by
  induction a with
  | nil => simp [event_conditions.append, scenario.runs]
  | leaf cond rest ih =>
    simp only [event_conditions.append, scenario.runs, ih]
    split
    · simp
    · exact push_term_append _ _ _ (runs_ne_nil s x0 y0 rest)
  | nested cond next rest _ ih =>
    simp only [event_conditions.append, scenario.runs, ih]
    exact push_term_append _ _ _ (runs_ne_nil s x0 y0 rest)

theorem or_of_ands_append_or (s : scenario) (x0 y0 : Int) (a b : event_conditions) :
    s.or_of_ands x0 y0 (a.append (.leaf or_separator b))
      = (s.or_of_ands x0 y0 a || s.or_of_ands x0 y0 b) := by
  simp only [scenario.or_of_ands, runs_append_or, List.any_append]

theorem leaves_evaluate_append_or (s : scenario) (x0 y0 : Int) (a b : event_conditions)
    (ha : s.leaves_evaluate x0 y0 a) (hb : s.leaves_evaluate x0 y0 b) :
    s.leaves_evaluate x0 y0 (a.append (.leaf or_separator b)) := by
  intro c hc
  rw [leaves_append_or, List.mem_append] at hc
  rcases hc with hc | hc
  · exact ha c hc
  · exact hb c hc

/-- C1. On every condition list whose leaves evaluate, `parse_conditions`
returns the OR, over the maximal runs of nodes delimited by the `"or"`
separators, of the AND of the terms of each run, a term being the (possibly
negated) value of a leaf or the value of a nested list; in particular a list
`A, "or", B` is true iff `A` is true or `B` is true, and it agrees with
`B, "or", A`. -/
theorem parse_conditions_or_of_ands (s : scenario) (x0 y0 : Int) (A B : event_conditions)
    (hA : s.leaves_evaluate x0 y0 A) (hB : s.leaves_evaluate x0 y0 B) :
    s.parse_conditions x0 y0 A = .ok (s.or_of_ands x0 y0 A) ∧
    s.parse_conditions x0 y0 (A.append (.leaf or_separator B))
      = .ok (s.or_of_ands x0 y0 A || s.or_of_ands x0 y0 B) ∧
    s.parse_conditions x0 y0 (B.append (.leaf or_separator A))
      = .ok (s.or_of_ands x0 y0 A || s.or_of_ands x0 y0 B) := by
  refine ⟨parse_conditions_eq s x0 y0 A hA, ?_, ?_⟩
  · rw [parse_conditions_eq s x0 y0 _ (leaves_evaluate_append_or s x0 y0 A B hA hB),
      or_of_ands_append_or]
  · rw [parse_conditions_eq s x0 y0 _ (leaves_evaluate_append_or s x0 y0 B A hB hA),
      or_of_ands_append_or, Bool.or_comm]

/-- Witness of C1 at `A = ["obj.in(1 1)", "ev.happened(3)"]` and
`B = [["false!", "or", "true"], "true"]` in the state `small_view`. -/
theorem parse_conditions_or_of_ands_witness :
    (small_view.leaves_evaluate 0 0
        (.leaf "obj.in(1 1)".toList (.leaf "ev.happened(3)".toList .nil)) ∧
      small_view.leaves_evaluate 0 0
        (.nested [] (.leaf "false!".toList (.leaf or_separator (.leaf "true".toList .nil)))
          (.leaf "true".toList .nil))) ∧
    (small_view.parse_conditions 0 0
        (.leaf "obj.in(1 1)".toList (.leaf "ev.happened(3)".toList .nil))
      = .ok (small_view.or_of_ands 0 0
          (.leaf "obj.in(1 1)".toList (.leaf "ev.happened(3)".toList .nil))) ∧
    small_view.parse_conditions 0 0
        ((event_conditions.leaf "obj.in(1 1)".toList (.leaf "ev.happened(3)".toList .nil)).append
          (.leaf or_separator
            (.nested [] (.leaf "false!".toList (.leaf or_separator (.leaf "true".toList .nil)))
              (.leaf "true".toList .nil))))
      = .ok (small_view.or_of_ands 0 0
            (.leaf "obj.in(1 1)".toList (.leaf "ev.happened(3)".toList .nil))
          || small_view.or_of_ands 0 0
            (.nested [] (.leaf "false!".toList (.leaf or_separator (.leaf "true".toList .nil)))
              (.leaf "true".toList .nil))) ∧
    small_view.parse_conditions 0 0
        ((event_conditions.nested []
            (.leaf "false!".toList (.leaf or_separator (.leaf "true".toList .nil)))
            (.leaf "true".toList .nil)).append
          (.leaf or_separator
            (.leaf "obj.in(1 1)".toList (.leaf "ev.happened(3)".toList .nil))))
      = .ok (small_view.or_of_ands 0 0
            (.leaf "obj.in(1 1)".toList (.leaf "ev.happened(3)".toList .nil))
          || small_view.or_of_ands 0 0
            (.nested [] (.leaf "false!".toList (.leaf or_separator (.leaf "true".toList .nil)))
              (.leaf "true".toList .nil)))) :=
  ⟨by decide, parse_conditions_or_of_ands small_view 0 0 _ _ (by decide) (by decide)⟩

theorem digit_char_facts (m : Nat) (h : m < 10) :
    isdigit (digit_char m) = true ∧ digit_value (digit_char m) = m := by
  interval_cases m <;> decide

theorem digits_value_append (ds : Str) (d : Char) :
    digits_value (ds ++ [d]) = 10 * digits_value ds + digit_value d := by
  simp [digits_value, List.foldl_append]

theorem to_string_nat_aux_spec (fuel : Nat) : ∀ (n : Nat) (acc : Str), n < fuel →
    ∃ ds : Str, to_string_nat_aux fuel n acc = ds ++ acc ∧ ds ≠ [] ∧
      (∀ c ∈ ds, isdigit c = true) ∧ digits_value ds = n := by
  induction fuel with
  | zero => intro n acc h; omega
  | succ fuel ih =>
    intro n acc h
    by_cases h10 : n < 10
    · refine ⟨[digit_char n], ?_, by simp, ?_, ?_⟩
      · simp [to_string_nat_aux, h10]
      · intro c hc
        simp only [List.mem_singleton] at hc
        rw [hc]; exact (digit_char_facts n h10).1
      · simp [digits_value, (digit_char_facts n h10).2]
    · obtain ⟨ds, e, _, hd, hv⟩ := ih (n / 10) (digit_char (n % 10) :: acc) (by omega)
      refine ⟨ds ++ [digit_char (n % 10)], ?_, by simp, ?_, ?_⟩
      · simp [to_string_nat_aux, h10, e]
      · intro c hc
        rw [List.mem_append] at hc
        rcases hc with hc | hc
        · exact hd c hc
        · simp only [List.mem_singleton] at hc
          rw [hc]; exact (digit_char_facts _ (Nat.mod_lt _ (by decide))).1
      · rw [digits_value_append, hv, (digit_char_facts _ (Nat.mod_lt _ (by decide))).2]
        omega

theorem to_string_nat_spec (n : Nat) :
    to_string_nat n ≠ [] ∧ (∀ c ∈ to_string_nat n, isdigit c = true) ∧
      digits_value (to_string_nat n) = n := by
  obtain ⟨ds, e, h1, h2, h3⟩ := to_string_nat_aux_spec (n + 1) n [] (by omega)
  simp only [List.append_nil] at e
  simp only [to_string_nat, e]
  exact ⟨h1, h2, h3⟩

theorem takeWhile_digits (ds rest : Str) (hd : ∀ c ∈ ds, isdigit c = true)
    (hr : ∀ c ∈ rest.head?, isdigit c = false) :
    (ds ++ rest).takeWhile isdigit = ds ∧ (ds ++ rest).dropWhile isdigit = rest := by
  induction ds with
  | nil =>
    cases rest with
    | nil => simp
    | cons c cs =>
      have : isdigit c = false := hr c (by simp)
      simp [List.takeWhile_cons, List.dropWhile_cons, this]
  | cons d ds ih =>
    have hd' : isdigit d = true := hd d (by simp)
    have := ih (fun c hc => hd c (by simp [hc]))
    simp [List.takeWhile_cons, List.dropWhile_cons, hd', this]

theorem split_sign_digit (c : Char) (cs : Str) (h : isdigit c = true) :
    split_sign (c :: cs) = (false, c :: cs) := by
  have h1 : c ≠ '-' := by rintro rfl; revert h; decide
  have h2 : c ≠ '+' := by rintro rfl; revert h; decide
  unfold split_sign
  split
  · rename_i heq; simp only [List.cons.injEq] at heq; exact absurd heq.1 h1
  · rename_i heq; simp only [List.cons.injEq] at heq; exact absurd heq.1 h2
  · rfl

theorem isspace_of_isdigit (c : Char) (h : isdigit c = true) : isspace c = false := by
  have e : ∀ n : Nat, 48 ≤ n → n ≤ 57 → n ≠ 32 ∧ n ≠ 9 ∧ n ≠ 10 ∧ n ≠ 11 ∧ n ≠ 12 ∧ n ≠ 13 := by
    intro n h1 h2; omega
  simp only [isdigit, Bool.and_eq_true, decide_eq_true_eq] at h
  have := e c.toNat h.1 h.2
  simp only [isspace, Bool.or_eq_false_iff, decide_eq_false_iff_not]
  refine ⟨⟨⟨⟨⟨?_, ?_⟩, ?_⟩, ?_⟩, ?_⟩, ?_⟩ <;> rintro rfl <;> revert this <;> decide

/-- Reading back the decimal text of an `int`. -/
theorem extract_int_to_string (a v : Int) (rest : Str) (ha : is_int a)
    (hr : ∀ c ∈ rest.head?, isdigit c = false) :
    extract_int { buf := to_string a ++ rest, eofbit := false, failbit := false } v
      = ({ buf := rest, eofbit := rest.isEmpty, failbit := false }, a) := by
  obtain ⟨hne, hd, hv⟩ := to_string_nat_spec a.natAbs
  simp only [is_int, INT_MIN, INT_MAX] at ha
  obtain ⟨d, ds, hds⟩ : ∃ d ds, to_string_nat a.natAbs = d :: ds := by
    cases h : to_string_nat a.natAbs with
    | nil => exact absurd h hne
    | cons d ds => exact ⟨d, ds, rfl⟩
  have hdd : isdigit d = true := hd d (by simp [hds])
  have htd := takeWhile_digits (to_string_nat a.natAbs) rest hd hr
  rw [hds] at htd
  by_cases hneg : a < 0
  · have e : to_string a ++ rest = '-' :: (d :: ds ++ rest) := by simp [to_string, hneg, hds]
    have hval : -((digits_value (d :: ds) : Nat) : Int) = a := by rw [← hds, hv]; omega
    simp only [extract_int, e, Bool.or_self, Bool.false_eq_true, if_false,
      List.dropWhile_cons, show isspace '-' = false by decide, split_sign, htd.1, htd.2,
      if_true, hval, reduceCtorEq, INT_MAX, INT_MIN]
    rw [if_neg (by omega), if_neg (by omega)]
  · have e : to_string a ++ rest = d :: (ds ++ rest) := by simp [to_string, hneg, hds]
    have hval : ((digits_value (d :: ds) : Nat) : Int) = a := by rw [← hds, hv]; omega
    have htd' : (d :: (ds ++ rest)).takeWhile isdigit = d :: ds
        ∧ (d :: (ds ++ rest)).dropWhile isdigit = rest := htd
    simp only [extract_int, e, Bool.or_self, Bool.false_eq_true, if_false,
      List.dropWhile_cons, isspace_of_isdigit d hdd, split_sign_digit d _ hdd, htd'.1, htd'.2,
      hval, reduceCtorEq, INT_MAX, INT_MIN]
    rw [if_neg (by omega), if_neg (by omega)]

theorem to_string_head_not_space (b : Int) :
    (to_string b).dropWhile isspace = to_string b := by
  obtain ⟨hne, hd, _⟩ := to_string_nat_spec b.natAbs
  obtain ⟨d, ds, hds⟩ : ∃ d ds, to_string_nat b.natAbs = d :: ds := by
    cases h : to_string_nat b.natAbs with
    | nil => exact absurd h hne
    | cons d ds => exact ⟨d, ds, rfl⟩
  have hdd : isdigit d = true := hd d (by simp [hds])
  by_cases hneg : b < 0
  · simp [to_string, hneg, List.dropWhile_cons, show isspace '-' = false by decide]
  · simp [to_string, hneg, hds, List.dropWhile_cons, isspace_of_isdigit d hdd]

/-- Reading back two decimal texts separated by a blank. -/
theorem extract_two_ints (a b x0 y0 : Int) (ha : is_int a) (hb : is_int b) :
    (extract_int (extract_int (istringstream.mk (to_string a ++ ' ' :: to_string b) false false)
      x0).1 y0).2 = b ∧
    (extract_int (istringstream.mk (to_string a ++ ' ' :: to_string b) false false) x0).2 = a := by
  have h1 := extract_int_to_string a x0 (' ' :: to_string b) ha
    (by intro c hc; simp only [List.head?_cons, Option.mem_def, Option.some.injEq] at hc
        rw [← hc]; decide)
  rw [h1]
  refine ⟨?_, rfl⟩
  have h2 := extract_int_to_string b y0 [] hb (by simp)
  simp only [List.append_nil] at h2
  have e : extract_int (istringstream.mk (' ' :: to_string b) (' ' :: to_string b).isEmpty false) y0
      = extract_int (istringstream.mk (to_string b) false false) y0 := by
    simp only [extract_int, List.isEmpty_cons, Bool.or_self, Bool.false_eq_true, if_false,
      List.dropWhile_cons, show isspace ' ' = true by decide, if_true, to_string_head_not_space]
  rw [e, h2]

theorem in_call_shape (i A B : Str) :
    i ++ ['.', 'i', 'n', '('] ++ A ++ [' '] ++ B ++ [')']
      = i ++ '.' :: (['i', 'n'] ++ '(' :: ((A ++ ' ' :: B) ++ [')'])) := by
  simp

/-- What `in >> x >> y` does read: for an entity `o` of the entity table (the
first with its identifier, which is not empty, has neither `.` nor `(` and is
not the reserved `scenario`) and all `int` values `a` and `b`, the text
`o.in(a b)`, with a blank between the numbers, evaluates to true if and only
if the position of the entity is exactly `(a, b)`. -/
theorem in_condition_blank_separated (s : scenario) (x0 y0 : Int) (o : object) (a b : Int)
    (hfind : s.find_object o.id = some o)
    (hne : o.id ≠ []) (hdot : '.' ∉ o.id) (hpar : '(' ∉ o.id)
    (hres : o.id ≠ RESERVED_SCENARIO_ID)
    (ha : is_int a) (hb : is_int b)
    (hlen : (o.id ++ ".in(".toList ++ to_string a ++ " ".toList ++ to_string b
      ++ ")".toList).length < npos) :
    s.parse_condition x0 y0
        (o.id ++ ".in(".toList ++ to_string a ++ " ".toList ++ to_string b ++ ")".toList)
      = .ok (decide (o.x = a ∧ o.y = b)) := by
  have e : o.id ++ ".in(".toList ++ to_string a ++ " ".toList ++ to_string b ++ ")".toList
      = o.id ++ '.' :: ("in".toList ++ '(' :: ((to_string a ++ ' ' :: to_string b) ++ [')'])) := by
    exact in_call_shape o.id (to_string a) (to_string b)
  rw [e] at hlen ⊢
  have hp := parse_call_compose o.id "in".toList (to_string a ++ ' ' :: to_string b)
    hdot hpar (by decide) hlen
  obtain ⟨hy, hx⟩ := extract_two_ints a b x0 y0 ha hb
  simp only [scenario.parse_condition, hp, bind, Except.bind, hne, if_false, hres, hfind,
    if_true]
  rw [hx, hy]
  by_cases h : o.x = a ∧ o.y = b
  · have h' : a = o.x ∧ b = o.y := ⟨h.1.symm, h.2.symm⟩
    rw [if_pos h', decide_eq_true h]; rfl
  · have h' : ¬ (a = o.x ∧ b = o.y) := fun h' => h ⟨h'.1.symm, h'.2.symm⟩
    rw [if_neg h', decide_eq_false h]; rfl

/-- The text `obj.in(1 1)` at the entity `obj` of `small_view`, which stands
at `(1, 1)`. -/
theorem in_condition_blank_separated_witness :
    (small_view.find_object obj11.id = some obj11 ∧ obj11.id ≠ [] ∧ '.' ∉ obj11.id ∧
      '(' ∉ obj11.id ∧ obj11.id ≠ RESERVED_SCENARIO_ID ∧ is_int 1 ∧ is_int 1 ∧
      (obj11.id ++ ".in(".toList ++ to_string 1 ++ " ".toList ++ to_string 1
        ++ ")".toList).length < npos) ∧
    small_view.parse_condition 5 5
        (obj11.id ++ ".in(".toList ++ to_string 1 ++ " ".toList ++ to_string 1 ++ ")".toList)
      = .ok (decide (obj11.x = 1 ∧ obj11.y = 1)) :=
  ⟨by decide, in_condition_blank_separated small_view 5 5 obj11 1 1
    (by decide) (by decide) (by decide) (by decide) (by decide) (by decide) (by decide)
    (by decide)⟩

/-- C5 (failing input). The entity `obj` of `small_view` stands at `(1, 1)`,
and the conditions `obj.in(1, 1)` and `obj.in(1,1)`, written with a comma as
in the spec, evaluate to false: `in >> x >> y` stops at the comma, the second
extraction fails and stores 0 in `y`, and the stream is not checked. For the
same reason `obj.in(1, 5)` and `obj.in(1,5)` evaluate to true for the entity
`obj` of `top_view`, which stands at `(1, 0)`. -/
theorem in_condition_comma_reads_zero :
    small_view.find_object "obj".toList = some obj11 ∧ obj11.x = 1 ∧ obj11.y = 1 ∧
    small_view.parse_condition 1 1 "obj.in(1, 1)".toList = .ok false ∧
    small_view.parse_condition 1 1 "obj.in(1,1)".toList = .ok false ∧
    top_view.find_object "obj".toList = some obj10 ∧ obj10.x = 1 ∧ obj10.y = 0 ∧
    top_view.parse_condition 1 1 "obj.in(1, 5)".toList = .ok true ∧
    top_view.parse_condition 1 1 "obj.in(1,5)".toList = .ok true := by decide

/-- C6 (failing input). The one-node lists `["true!"]` and `["true"]` both
evaluate to true: the marker `!` is not removed before the leaf is evaluated,
so `parse_condition("true!")` sees the method `true!`, returns false, and the
negation makes it true. -/
theorem negated_true_literal_is_true :
    small_view.parse_conditions 0 0 (.leaf "true!".toList .nil) = .ok true ∧
    small_view.parse_conditions 0 0 (.leaf "true".toList .nil) = .ok true ∧
    small_view.parse_condition 0 0 "true!".toList = .ok false := by decide

/-- C7 (failing input). For the event `ev` of `small_view`, the conditions
`ev.happened(abc)` and `ev.happened(99999999999)` do not return false:
`std::stoi` throws `std::invalid_argument`, respectively `std::out_of_range`,
and `parse_condition` does not catch it. -/
theorem happened_argument_throws :
    small_view.find_event "ev".toList = some ev2 ∧
    small_view.parse_condition 0 0 "ev.happened(abc)".toList = .error .invalid_argument ∧
    small_view.parse_condition 0 0 "ev.happened(99999999999)".toList = .error .out_of_range := by
  decide

/-! ## Claims about the view -/

theorem set_view_frame (s : scenario) (x y : Int) :
    (s.set_view x y).width = s.width ∧ (s.set_view x y).height = s.height ∧
    (s.set_view x y).m_cols = s.m_cols ∧ (s.set_view x y).m_lines = s.m_lines ∧
    (s.set_view x y).m_objects = s.m_objects ∧ (s.set_view x y).m_events = s.m_events ∧
    (s.set_view x y).m_player = s.m_player := by
  simp only [scenario.set_view, scenario.setx, scenario.sety, scenario.width, scenario.height]
  split_ifs <;> simp

theorem set_view_x (s : scenario) (x y : Int) :
    (s.set_view x y).x =
      if 0 ≤ x ∧ x < s.width ∧ 0 ≤ wrap_int (wrap_int (x + s.m_cols) - 1)
          ∧ wrap_int (wrap_int (x + s.m_cols) - 1) < s.width
      then x else s.x := by
  simp only [scenario.set_view, scenario.setx, scenario.sety, scenario.abroadx, scenario.abroady,
    scenario.width, scenario.height, scenario.x]
  split_ifs <;> simp_all

theorem set_view_y (s : scenario) (x y : Int) :
    (s.set_view x y).y =
      if 0 ≤ y ∧ y < s.height ∧ 0 ≤ wrap_int (wrap_int (y + s.m_lines) - 1)
          ∧ wrap_int (wrap_int (y + s.m_lines) - 1) < s.height
      then y else s.y := by
  simp only [scenario.set_view, scenario.setx, scenario.sety, scenario.abroadx, scenario.abroady,
    scenario.width, scenario.height, scenario.y]
  split_ifs <;> simp_all

/-- The bounds test of one axis, in unbounded integers. -/
theorem axis_test_exact (x cols width : Int) (hc : is_int cols) (hw : is_int width) :
    (0 ≤ x ∧ x < width ∧ 0 ≤ wrap_int (wrap_int (x + cols) - 1)
      ∧ wrap_int (wrap_int (x + cols) - 1) < width)
    ↔ (0 ≤ x ∧ x < width ∧ 0 ≤ x + cols - 1 ∧ x + cols - 1 < width) := by
  simp only [is_int, INT_MIN, INT_MAX] at hc hw
  simp only [wrap_int]
  constructor <;> intro h <;> refine ⟨h.1, h.2.1, ?_, ?_⟩ <;> omega

theorem set_view_x_exact (s : scenario) (x y : Int) (hs : s.ints_ok) :
    (s.set_view x y).x =
      if 0 ≤ x ∧ x < s.width ∧ 0 ≤ x + s.m_cols - 1 ∧ x + s.m_cols - 1 < s.width
      then x else s.x := by
  rw [set_view_x]
  exact if_congr (axis_test_exact x s.m_cols s.width hs.1 hs.2.2.1) rfl rfl

theorem set_view_y_exact (s : scenario) (x y : Int) (hs : s.ints_ok) :
    (s.set_view x y).y =
      if 0 ≤ y ∧ y < s.height ∧ 0 ≤ y + s.m_lines - 1 ∧ y + s.m_lines - 1 < s.height
      then y else s.y := by
  rw [set_view_y]
  exact if_congr (axis_test_exact y s.m_lines s.height hs.2.1 hs.2.2.2) rfl rfl

theorem set_view_inside_x (s : scenario) (x y : Int) (hs : s.ints_ok) (h : s.inside_x) :
    (s.set_view x y).inside_x := by
  have hf := set_view_frame s x y
  have hx := set_view_x_exact s x y hs
  simp only [scenario.inside_x] at h ⊢
  rw [hf.1, hf.2.2.1, hx]
  split_ifs <;> omega

theorem set_view_inside_y (s : scenario) (x y : Int) (hs : s.ints_ok) (h : s.inside_y) :
    (s.set_view x y).inside_y := by
  have hf := set_view_frame s x y
  have hy := set_view_y_exact s x y hs
  simp only [scenario.inside_y] at h ⊢
  rw [hf.2.1, hf.2.2.2.1, hy]
  split_ifs <;> omega

/-- C8 (amended). The method `set_view` decides each axis on its own: the
horizontal offset becomes `x` when `0 <= x < width` and
`0 <= x + cols - 1 < width`, and is left unchanged otherwise; the vertical
offset becomes `y` when `0 <= y < height` and `0 <= y + lines - 1 < height`,
and is left unchanged otherwise. For a viewport of at least one column
(one line) the test is `0 <= x` and `x + cols - 1 < width` (`0 <= y` and
`y + lines - 1 < height`). -/
theorem set_view_decides_each_axis (s : scenario) (x y : Int) (hs : s.ints_ok) :
    ((s.set_view x y).x =
        if 0 ≤ x ∧ x < s.width ∧ 0 ≤ x + s.m_cols - 1 ∧ x + s.m_cols - 1 < s.width
        then x else s.x) ∧
    ((s.set_view x y).y =
        if 0 ≤ y ∧ y < s.height ∧ 0 ≤ y + s.m_lines - 1 ∧ y + s.m_lines - 1 < s.height
        then y else s.y) ∧
    (1 ≤ s.m_cols →
      (s.set_view x y).x = if 0 ≤ x ∧ x + s.m_cols - 1 < s.width then x else s.x) ∧
    (1 ≤ s.m_lines →
      (s.set_view x y).y = if 0 ≤ y ∧ y + s.m_lines - 1 < s.height then y else s.y) := by
  refine ⟨set_view_x_exact s x y hs, set_view_y_exact s x y hs, ?_, ?_⟩
  · intro hc
    rw [set_view_x_exact s x y hs]
    exact if_congr (by omega) rfl rfl
  · intro hc
    rw [set_view_y_exact s x y hs]
    exact if_congr (by omega) rfl rfl

/-- Witness of C8 (amended) at `small_view` and the request `(1, 5)`: the
horizontal request is applied although the vertical one is out of range. -/
theorem set_view_decides_each_axis_witness :
    small_view.ints_ok ∧
    (((small_view.set_view 1 5).x =
        if 0 ≤ (1 : Int) ∧ 1 < small_view.width ∧ 0 ≤ 1 + small_view.m_cols - 1
          ∧ 1 + small_view.m_cols - 1 < small_view.width
        then 1 else small_view.x) ∧
    ((small_view.set_view 1 5).y =
        if 0 ≤ (5 : Int) ∧ 5 < small_view.height ∧ 0 ≤ 5 + small_view.m_lines - 1
          ∧ 5 + small_view.m_lines - 1 < small_view.height
        then 5 else small_view.y) ∧
    (1 ≤ small_view.m_cols →
      (small_view.set_view 1 5).x =
        if 0 ≤ (1 : Int) ∧ 1 + small_view.m_cols - 1 < small_view.width
        then 1 else small_view.x) ∧
    (1 ≤ small_view.m_lines →
      (small_view.set_view 1 5).y =
        if 0 ≤ (5 : Int) ∧ 5 + small_view.m_lines - 1 < small_view.height
        then 5 else small_view.y)) :=
  ⟨by decide, set_view_decides_each_axis small_view 1 5 (by decide)⟩

/-- C8 (counterexample). In `zero_cols` the viewport has no column and the
offset is `2`; the request `x = 0` satisfies `0 <= x` and `x + cols - 1 < width`,
and `set_view` leaves the offset at `2`, because `x + cols - 1` is `-1`. -/
theorem set_view_zero_cols_counterexample :
    zero_cols.ints_ok ∧ zero_cols.x = 2 ∧
    (0 ≤ (0 : Int) ∧ (0 : Int) + zero_cols.m_cols - 1 < zero_cols.width) ∧
    (zero_cols.set_view 0 0).x = 2 := by decide

theorem move_view_inside_x (s : scenario) (x y : Int) (hs : s.ints_ok) (h : s.inside_x) :
    (s.move_view x y).inside_x := set_view_inside_x s _ _ hs h

theorem move_view_inside_y (s : scenario) (x y : Int) (hs : s.ints_ok) (h : s.inside_y) :
    (s.move_view x y).inside_y := set_view_inside_y s _ _ hs h

/-- C9. The methods `set_view` and `move_view` preserve, on each axis, that
the viewport is inside the grid (`0 <= offset` and
`offset + viewport size <= grid size`), whatever the request. -/
theorem view_calls_preserve_inside (s : scenario) (x y : Int) (hs : s.ints_ok) :
    (s.inside_x → (s.set_view x y).inside_x ∧ (s.move_view x y).inside_x) ∧
    (s.inside_y → (s.set_view x y).inside_y ∧ (s.move_view x y).inside_y) :=
  ⟨fun h => ⟨set_view_inside_x s x y hs h, move_view_inside_x s x y hs h⟩,
   fun h => ⟨set_view_inside_y s x y hs h, move_view_inside_y s x y hs h⟩⟩

/-- Witness of C9 at `small_view`, whose 2x2 viewport is inside the 3x3 grid,
and the request `(1, 5)`. -/
theorem view_calls_preserve_inside_witness :
    (small_view.ints_ok ∧ small_view.inside_x ∧ small_view.inside_y) ∧
    ((small_view.inside_x →
        (small_view.set_view 1 5).inside_x ∧ (small_view.move_view 1 5).inside_x) ∧
     (small_view.inside_y →
        (small_view.set_view 1 5).inside_y ∧ (small_view.move_view 1 5).inside_y)) :=
  ⟨by decide, view_calls_preserve_inside small_view 1 5 (by decide)⟩

theorem set_view_ints_ok (s : scenario) (x y : Int) (hs : s.ints_ok) : (s.set_view x y).ints_ok := by
  have hf := set_view_frame s x y
  simp only [scenario.ints_ok] at hs ⊢
  rw [hf.1, hf.2.1, hf.2.2.1, hf.2.2.2.1]
  exact hs

theorem set_view_view_ok (s : scenario) (x y : Int) (h : s.view_ok) : (s.set_view x y).view_ok := by
  obtain ⟨hs, h1, h2, h3, h4⟩ := h
  have hf := set_view_frame s x y
  refine ⟨set_view_ints_ok s x y hs, ?_, ?_, ?_, ?_⟩
  · rw [hf.1, hf.2.2.1]; intro hc; exact set_view_inside_x s x y hs (h1 hc)
  · rw [hf.1, hf.2.2.1, set_view_x_exact s x y hs]; intro hc
    rw [if_neg (by omega)]; exact h2 hc
  · rw [hf.2.1, hf.2.2.2.1]; intro hc; exact set_view_inside_y s x y hs (h3 hc)
  · rw [hf.2.1, hf.2.2.2.1, set_view_y_exact s x y hs]; intro hc
    rw [if_neg (by omega)]; exact h4 hc

/-- A state that agrees with a good one on the view members is good. -/
theorem view_ok_of_frame (s s' : scenario) (h : s.view_ok)
    (hf : s'.x = s.x ∧ s'.y = s.y ∧ s'.width = s.width ∧ s'.height = s.height ∧
      s'.m_cols = s.m_cols ∧ s'.m_lines = s.m_lines) : s'.view_ok := by
  obtain ⟨e1, e2, e3, e4, e5, e6⟩ := hf
  simp only [scenario.view_ok, scenario.ints_ok, scenario.inside_x, scenario.inside_y,
    e1, e2, e3, e4, e5, e6] at h ⊢
  exact h

theorem move_player_view_ok (turn : scenario → Except cpp_error scenario) (hturn : keeps_view turn)
    (s s' : scenario) (x y : Int) (h : s.view_ok) (hm : s.move_player turn x y = .ok s') :
    s'.view_ok := by
  unfold scenario.move_player at hm
  split at hm
  · cases hm
  · rename_i player _
    simp only at hm
    split at hm
    · cases hm; exact set_view_view_ok _ _ _ h
    · split at hm
      · cases hm
      · rename_i cell _
        generalize hmv : player.move x y cell.symbol = r at hm
        obtain ⟨moved, player'⟩ := r
        simp only at hm
        have h1 := set_view_view_ok s (wrap_int (player.x - Int.tdiv s.m_cols 2))
          (wrap_int (player.y - Int.tdiv s.m_lines 2)) h
        split at hm
        · refine view_ok_of_frame _ _ (set_view_view_ok _ _ _ (view_ok_of_frame _ _ h1 ?_))
            (hturn _ _ hm)
          simp [scenario.x, scenario.y, scenario.width, scenario.height]
        · cases hm
          exact view_ok_of_frame _ _ h1 (by simp [scenario.x, scenario.y, scenario.width, scenario.height])

theorem is_int_wrap_int (v : Int) : is_int (wrap_int v) := by
  simp only [is_int, wrap_int, INT_MIN, INT_MAX]; omega

theorem push_fresh (m m' : character_map) (s : Str) (h : m.fresh)
    (hp : m.push s = .ok m') : m'.fresh := by
  obtain ⟨h1, h2, h3, h4⟩ := h
  unfold character_map.push at hp
  split at hp
  · cases hp
  · simp only at hp
    split at hp
    · cases hp; exact ⟨h1, h2, is_int_wrap_int _, is_int_wrap_int _⟩
    · split at hp
      · cases hp
      · cases hp; exact ⟨h1, h2, h3, is_int_wrap_int _⟩

theorem read_rows_fresh (map : Str) (n : Nat) : ∀ (pos : Nat) (m m' : character_map),
    m.fresh → character_map.read_rows map n pos m = .ok m' → m'.fresh := by
  induction n with
  | zero => intro pos m m' h hr; simp only [character_map.read_rows] at hr; cases hr; exact h
  | succ n ih =>
    intro pos m m' h hr
    simp only [character_map.read_rows, bind, Except.bind] at hr
    split at hr
    · cases hr
    · rename_i temp _
      split at hr
      · cases hr
      · rename_i m1 hpush
        exact ih _ m1 m' (push_fresh m m1 temp h hpush) hr

theorem create_fresh (map_attrs : List (Char × Nat)) (dflt : Nat) (map : Str) (w h : Int)
    (m : character_map) (hw : is_int w)
    (hc : character_map.create map_attrs dflt map w h = .ok m) : m.fresh := by
  simp only [character_map.create, bind, Except.bind, pure, Except.pure] at hc
  split at hc
  · cases hc
  · rename_i m1 hr
    cases hc
    have := read_rows_fresh map _ 0 _ m1 ⟨rfl, rfl, hw, (by decide : is_int 0)⟩ hr
    exact this

theorem after_load_view_ok (s s' : scenario) (hl : is_int s.m_lines) (hc : is_int s.m_cols)
    (hf : s.m_source.fresh) (h : s.after_load = .ok s') : s'.view_ok := by
  unfold scenario.after_load at h
  split at h
  · cases h
  · cases h
    apply set_view_view_ok
    obtain ⟨h1, h2, h3, h4⟩ := hf
    refine ⟨⟨hc, hl, h3, h4⟩, ?_, ?_, ?_, ?_⟩
    · simp only [scenario.inside_x, scenario.x, scenario.width, h1]; omega
    · intro _; exact h1
    · simp only [scenario.inside_y, scenario.y, scenario.height, h2]; omega
    · intro _; exact h2

theorem reachable_view_ok (turn : scenario → Except cpp_error scenario) (hturn : keeps_view turn)
    (s : scenario) (h : scenario.reachable turn s) : s.view_ok := by
  induction h with
  | construct map_attrs dflt map w h l c src events objects player ids s hw hh hl hc hsrc hs =>
    exact after_load_view_ok _ s hl hc (create_fresh _ _ _ _ _ _ hw hsrc) hs
  | set_view s x y _ ih => exact set_view_view_ok s x y ih
  | move_view s x y _ ih => exact set_view_view_ok s _ _ ih
  | move_player s s' x y _ hm ih => exact move_player_view_ok turn hturn s s' x y ih hm

/-- C10 (amended). In every state reachable from the construction of the
scenario by `set_view`, `move_view` and `move_player` calls (with a `turn()`
that writes no view member), the viewport lies inside the grid on each axis
on which it is not larger than the grid: `0 <= x` and `x + cols <= width`
when `cols <= width`, `0 <= y` and `y + lines <= height` when
`lines <= height`; on an axis on which it is larger than the grid the offset
stays `0`. -/
theorem reachable_viewport_inside_grid (turn : scenario → Except cpp_error scenario)
    (hturn : keeps_view turn) (s : scenario) (h : scenario.reachable turn s) :
    (s.m_cols ≤ s.width → 0 ≤ s.x ∧ s.x + s.m_cols ≤ s.width) ∧
    (s.m_lines ≤ s.height → 0 ≤ s.y ∧ s.y + s.m_lines ≤ s.height) ∧
    (s.width < s.m_cols → s.x = 0) ∧ (s.height < s.m_lines → s.y = 0) := by
  obtain ⟨_, h1, h2, h3, h4⟩ := reachable_view_ok turn hturn s h
  exact ⟨h1, h3, h2, h4⟩

theorem keeps_view_idle_turn : keeps_view idle_turn := by
  intro s s' h; cases h; simp

theorem small_view_reachable : scenario.reachable idle_turn (small_view.set_view 0 0) := by
  refine scenario.reachable.construct [] 0 "...\n...\n...".toList 3 3 2 2 grid3 [ev2]
    [player11, obj11] 0 ids3 _ (by decide) (by decide) (by decide) (by decide) (by decide) (by decide)

theorem after_step_reachable : scenario.reachable idle_turn after_step :=
  scenario.reachable.move_player ((small_view.set_view 0 0).move_view 1 1) after_step 1 0
    (scenario.reachable.move_view _ 1 1 small_view_reachable) (by decide)

theorem large_view_reachable : scenario.reachable idle_turn large_view := by
  refine scenario.reachable.construct [] 0 "...\n...\n...".toList 3 3 24 80 grid3 [ev2]
    [player11, obj11] 0 ids3 _ (by decide) (by decide) (by decide) (by decide) (by decide) (by decide)

/-- Witness of C10 (amended) at `after_step`, the state reached from the
construction of `small_view` by `move_view(1, 1)` and `move_player(1, 0)`. -/
theorem reachable_viewport_inside_grid_witness :
    (keeps_view idle_turn ∧ scenario.reachable idle_turn after_step) ∧
    ((after_step.m_cols ≤ after_step.width →
        0 ≤ after_step.x ∧ after_step.x + after_step.m_cols ≤ after_step.width) ∧
     (after_step.m_lines ≤ after_step.height →
        0 ≤ after_step.y ∧ after_step.y + after_step.m_lines ≤ after_step.height) ∧
     (after_step.width < after_step.m_cols → after_step.x = 0) ∧
     (after_step.height < after_step.m_lines → after_step.y = 0)) :=
  ⟨⟨keeps_view_idle_turn, after_step_reachable⟩,
   reachable_viewport_inside_grid idle_turn keeps_view_idle_turn after_step after_step_reachable⟩

/-- C10 (counterexample). The scenario `large_view`, an 80x24 viewport on the
3x3 grid built from `"...\n...\n..."`, is the state right after construction,
and its viewport is not inside the grid: `0 + 80 <= 3` fails. -/
theorem large_view_counterexample :
    scenario.reachable idle_turn large_view ∧
      ¬ (0 ≤ large_view.x ∧ large_view.x + large_view.m_cols ≤ large_view.width ∧
         0 ≤ large_view.y ∧ large_view.y + large_view.m_lines ≤ large_view.height) :=
  ⟨large_view_reachable, by decide⟩

/-! ## Claims about the loader -/

theorem add_id_ok (ld ld' : loading) (id : Str) (h : ld.add_id id = .ok ld') :
    id ∉ ld.m_identifiers ∧ ld'.m_identifiers = ld.m_identifiers ++ [id] := by
  unfold loading.add_id at h
  split at h
  · cases h
  · rename_i hn
    cases h
    exact ⟨hn, rfl⟩

theorem emplace_object_ids (env : load_env) (ld : loading) (o : object) :
    (ld.emplace_object env o).m_identifiers = ld.m_identifiers := by
  unfold loading.emplace_object
  split <;> rfl

theorem create_entry_ok (env : load_env) (sec : Str) (ld ld' : loading) (key : Str)
    (value : yaml_node) (h : ld.create_entry env sec key value = .ok ld') :
    ld'.m_identifiers = ld.m_identifiers ∧
      (sec = YAML_SECTION_OBJECTS ∨ sec = YAML_SECTION_MAPS ∨ sec = YAML_SECTION_EVENTS) := by
  unfold loading.create_entry at h
  by_cases h1 : sec = YAML_SECTION_OBJECTS
  · rw [if_pos h1] at h
    refine ⟨?_, Or.inl h1⟩
    cases ho : env.object_create_from_yaml key value with
    | error e => simp [ho, bind, Except.bind] at h
    | ok o =>
      simp only [ho, bind, Except.bind, pure, Except.pure] at h
      by_cases hk : key = env.DEFAULT_PLAYER_ID
      · rw [if_pos hk] at h; cases h; simp [emplace_object_ids]
      · rw [if_neg hk] at h; cases h; simp [emplace_object_ids]
  · rw [if_neg h1] at h
    by_cases h2 : sec = YAML_SECTION_MAPS
    · rw [if_pos h2] at h
      refine ⟨?_, Or.inr (Or.inl h2)⟩
      cases hm : character_map.create_from_yaml env value with
      | error e => simp [hm, bind, Except.bind] at h
      | ok m =>
        simp only [hm, bind, Except.bind, pure, Except.pure] at h
        cases h; rfl
    · rw [if_neg h2] at h
      by_cases h3 : sec = YAML_SECTION_EVENTS
      · rw [if_pos h3] at h
        refine ⟨?_, Or.inr (Or.inr h3)⟩
        cases he : env.event_create_from_yaml key value with
        | error e => simp [he, bind, Except.bind] at h
        | ok e =>
          simp only [he, bind, Except.bind, pure, Except.pure] at h
          cases h; rfl
      · rw [if_neg h3] at h; cases h

/-- An entry that is read adds its key, which was not recorded before, and it
stands in one of the three sections. -/
theorem parse_entry_ok (env : load_env) (sec : Str) (ld ld' : loading)
    (pair : yaml_node × yaml_node) (h : ld.parse_entry env sec pair = .ok ld') :
    ∃ key, pair.1 = .scalar key ∧ key ∉ ld.m_identifiers ∧
      ld'.m_identifiers = ld.m_identifiers ++ [key] ∧
      (sec = YAML_SECTION_OBJECTS ∨ sec = YAML_SECTION_MAPS ∨ sec = YAML_SECTION_EVENTS) := by
  unfold loading.parse_entry at h
  split at h
  · rename_i key hkey
    refine ⟨key, hkey, ?_⟩
    cases hc : ld.create_entry env sec key pair.2 with
    | error e => simp [hc, bind, Except.bind] at h
    | ok ld1 =>
      simp only [hc, bind, Except.bind] at h
      obtain ⟨hn, he⟩ := add_id_ok ld1 ld' key h
      obtain ⟨hids, hs⟩ := create_entry_ok env sec ld ld1 key pair.2 hc
      rw [hids] at hn he
      exact ⟨hn, he, hs⟩
  · cases h

theorem foldlM_parse_entry_ok (env : load_env) (sec : Str) (pairs : List (yaml_node × yaml_node)) :
    ∀ (ld ld' : loading), pairs.foldlM (loading.parse_entry env sec) ld = .ok ld' →
      ld'.m_identifiers = ld.m_identifiers ++ section_keys (.mapping pairs) ∧
      (ld.m_identifiers.Nodup → ld'.m_identifiers.Nodup) ∧
      (pairs ≠ [] →
        sec = YAML_SECTION_OBJECTS ∨ sec = YAML_SECTION_MAPS ∨ sec = YAML_SECTION_EVENTS) := by
  induction pairs with
  | nil =>
    intro ld ld' h
    simp only [List.foldlM, pure, Except.pure] at h
    cases h
    simp [section_keys]
  | cons p ps ih =>
    intro ld ld' h
    simp only [List.foldlM, bind, Except.bind] at h
    split at h
    · cases h
    · rename_i ld1 h1
      obtain ⟨key, hk, hn, he, hs⟩ := parse_entry_ok env sec ld ld1 p h1
      obtain ⟨e2, n2, _⟩ := ih ld1 ld' h
      refine ⟨?_, ?_, fun _ => hs⟩
      · rw [e2, he]
        simp only [section_keys, List.filterMap_cons, hk, List.append_assoc, List.singleton_append]
      · intro hnd
        apply n2
        rw [he]
        exact List.Nodup.append hnd (List.nodup_singleton key) (by simpa using hn)

theorem parse_top_ok (env : load_env) (ld ld' : loading) (pair : yaml_node × yaml_node)
    (h : ld.parse_top env pair = .ok ld') :
    ld'.m_identifiers = ld.m_identifiers ++ top_entry_ids pair ∧
      (ld.m_identifiers.Nodup → ld'.m_identifiers.Nodup) := by
  unfold loading.parse_top at h
  split at h
  · rename_i key hkey
    unfold loading.parse_section at h
    split at h
    · rename_i pairs hp
      obtain ⟨e, n, hs⟩ := foldlM_parse_entry_ok env key pairs ld ld' h
      refine ⟨?_, n⟩
      rw [e]
      simp only [top_entry_ids, hkey, hp]
      by_cases hk : key = YAML_SECTION_OBJECTS ∨ key = YAML_SECTION_MAPS ∨ key = YAML_SECTION_EVENTS
      · rw [if_pos hk]
      · rw [if_neg hk]
        have : pairs = [] := by
          by_contra hne
          exact hk (hs hne)
        subst this
        simp [section_keys]
    · cases h
  · cases h

theorem foldlM_parse_top_ok (env : load_env) (pairs : List (yaml_node × yaml_node)) :
    ∀ (ld ld' : loading), pairs.foldlM (loading.parse_top env) ld = .ok ld' →
      ld'.m_identifiers = ld.m_identifiers ++ (pairs.map top_entry_ids).flatten ∧
      (ld.m_identifiers.Nodup → ld'.m_identifiers.Nodup) := by
  induction pairs with
  | nil =>
    intro ld ld' h
    simp only [List.foldlM, pure, Except.pure] at h
    cases h
    simp
  | cons p ps ih =>
    intro ld ld' h
    simp only [List.foldlM, bind, Except.bind] at h
    split at h
    · cases h
    · rename_i ld1 h1
      obtain ⟨e1, n1⟩ := parse_top_ok env ld ld1 p h1
      obtain ⟨e2, n2⟩ := ih ld1 ld' h
      refine ⟨?_, fun hnd => n2 (n1 hnd)⟩
      rw [e2, e1]
      simp

theorem load_ok_identifiers (env : load_env) (root : Option yaml_node) (ld : loading)
    (h : scenario.load env root = .ok ld) :
    ld.m_identifiers = RESERVED_DIALOG_ID :: RESERVED_SCENARIO_ID :: entry_ids root ∧
      ld.m_identifiers.Nodup := by
  unfold scenario.load at h
  split at h
  · rename_i pairs
    simp only [bind, Except.bind] at h
    split at h
    · cases h
    · rename_i ld1 h1
      split at h
      · cases h
      · cases h
        obtain ⟨e, n⟩ := foldlM_parse_top_ok env pairs loading.initial ld h1
        refine ⟨?_, n (by decide)⟩
        rw [e]
        simp [loading.initial, entry_ids]
  · cases h

/-- C18. Loading fails whenever two entries of the sections `objects`, `maps`
and `events` carry the same identifier, or an entry carries one of the
reserved names `dialog` and `scenario`; after a successful load the recorded
identifiers are the two reserved names followed by the identifiers of all
entries, and they are pairwise distinct. -/
theorem load_rejects_duplicate_identifiers (env : load_env) (root : Option yaml_node) :
    (¬ (RESERVED_DIALOG_ID :: RESERVED_SCENARIO_ID :: entry_ids root).Nodup →
      ∃ e, scenario.load env root = .error e) ∧
    (∀ ld, scenario.load env root = .ok ld →
      ld.m_identifiers = RESERVED_DIALOG_ID :: RESERVED_SCENARIO_ID :: entry_ids root ∧
      ld.m_identifiers.Nodup) := by
  refine ⟨fun hdup => ?_, fun ld h => load_ok_identifiers env root ld h⟩
  cases h : scenario.load env root with
  | error e => exact ⟨e, rfl⟩
  | ok ld =>
    obtain ⟨e, n⟩ := load_ok_identifiers env root ld h
    rw [e] at n
    exact absurd n hdup

/-- Witness of C18 at `tree_duplicate`, where an entity and an event are both
called `obj`. -/
theorem load_rejects_duplicate_identifiers_witness :
    ¬ (RESERVED_DIALOG_ID :: RESERVED_SCENARIO_ID :: entry_ids (some tree_duplicate)).Nodup ∧
    ∃ e, scenario.load demo_env (some tree_duplicate) = .error e :=
  ⟨by decide, (load_rejects_duplicate_identifiers demo_env (some tree_duplicate)).1 (by decide)⟩

/-- C19 (failing input). The configuration `tree_unknown_section` has the
top-level section `foo`, an empty mapping, and it loads: the test for an
unknown section name stands inside the loop over the entries of the section,
which an empty section never enters. -/
theorem load_accepts_empty_unknown_section :
    (scenario.load demo_env (some tree_unknown_section)).isOk = true ∧
    (scenario.create demo_env (some tree_unknown_section) 2 2).isOk = true := by decide

/-- C20 (failing input). The configuration `tree_no_player` declares the
entity `obj` and no player, and `load` raises no error: `m_player` still is the
end iterator of the empty vector, which differs from `m_objects.end()` once an
entity is stored. The constructor then dereferences it. With the player
declared first and `obj` after it (`tree_player_first`), the reallocation of
`m_objects` leaves `m_player` pointing into the old buffer. -/
theorem load_accepts_missing_player :
    (scenario.load demo_env (some tree_no_player)).isOk = true ∧
    (scenario.load demo_env (some tree_no_player)).toOption.map (fun ld => ld.m_player)
      = some { buffer := 0, index := 0 } ∧
    scenario.create demo_env (some tree_no_player) 2 2 = .error .undefined_behaviour ∧
    (scenario.load demo_env (some tree_player_first)).isOk = true ∧
    scenario.create demo_env (some tree_player_first) 2 2 = .error .undefined_behaviour := by
  decide

/-! ## Claims about the construction of a grid -/

theorem find_from_le (map : Str) (c : Char) (pos : Nat) (h : find_from map c pos ≠ npos) :
    find_from map c pos < map.length ∧ pos ≤ find_from map c pos := by
  unfold find_from at h ⊢
  split at h
  · rename_i hmem
    rw [if_pos hmem]
    have := List.indexOf_lt_length.2 hmem
    simp only [List.length_drop] at this
    omega
  · exact absurd rfl h

/-- The loop of the constructor pushes the consumed rows in order. -/
theorem read_rows_eq_foldlM (map : Str) (hlen : map.length < npos) (n : Nat) :
    ∀ (pos : Nat) (m : character_map), pos ≤ map.length →
      character_map.read_rows map n pos m
        = (consumed_rows map n pos).foldlM (fun m row => m.push row) m := by
  induction n with
  | zero => intro pos m _; rfl
  | succ n ih =>
    intro pos m hpos
    have hnext : size_add (find_from map '\n' pos) 1 ≤ map.length := by
      by_cases hn : find_from map '\n' pos = npos
      · rw [hn]; simp [size_add, npos]
      · have := find_from_le map '\n' pos hn
        simp only [npos] at hlen
        simp only [size_add]
        omega
    simp only [character_map.read_rows, consumed_rows, substr, List.foldlM, bind, Except.bind,
      if_neg (Nat.not_lt.2 hpos)]
    cases hp : m.push ((map.drop pos).take (size_sub (find_from map '\n' pos) pos)) with
    | error e => rfl
    | ok m1 => exact ih _ m1 hnext

theorem consumed_rows_length (map : Str) (n : Nat) : ∀ pos, (consumed_rows map n pos).length = n := by
  induction n with
  | zero => intro pos; rfl
  | succ n ih => intro pos; simp [consumed_rows, ih]

theorem consumed_rows_row_length (map : Str) (n : Nat) :
    ∀ pos row, row ∈ consumed_rows map n pos → row.length ≤ map.length := by
  induction n with
  | zero => intro pos row h; simp [consumed_rows] at h
  | succ n ih =>
    intro pos row h
    simp only [consumed_rows, List.mem_cons] at h
    rcases h with h | h
    · rw [h]
      simp only [List.length_take, List.length_drop]
      omega
    · exact ih _ row h

theorem wrap_int_of_is_int (v : Int) (h : is_int v) : wrap_int v = v := by
  simp only [is_int, INT_MIN, INT_MAX] at h
  simp only [wrap_int]; omega

/-- Pushing rows onto a grid of width `w`: the first row that is empty or of
another length raises, and the message names its number. -/
theorem foldlM_push_first_bad (w : Int) (hw : w ≠ 0) (rows : List Str) :
    ∀ (m : character_map) (k : Nat) (row : Str), m.m_width = w → 0 ≤ m.m_height →
      m.m_height + rows.length ≤ INT_MAX → (∀ r ∈ rows, (r.length : Int) ≤ INT_MAX) →
      rows.get? k = some row →
      (∀ j r, j < k → rows.get? j = some r → r ≠ [] ∧ (r.length : Int) = w) →
      (row = [] ∨ (row.length : Int) ≠ w) →
      rows.foldlM (fun m row => m.push row) m
        = .error (.game_error (bad_row_message (m.m_height + k + 1) row w)) := by
  induction rows with
  | nil => intro m k row _ _ _ _ hk; simp at hk
  | cons r rs ih =>
    intro m k row hmw hmh hsum hlens hk hgood hbad
    have hrlen : wrap_int (r.length : Int) = r.length :=
      wrap_int_of_is_int _ (by
        have := hlens r (by simp)
        simp only [is_int, INT_MIN, INT_MAX] at this ⊢; omega)
    have hh : wrap_int (m.m_height + 1) = m.m_height + 1 :=
      wrap_int_of_is_int _ (by
        simp only [List.length_cons, Nat.cast_add, Nat.cast_one] at hsum
        simp only [is_int, INT_MIN, INT_MAX] at hsum ⊢; omega)
    cases k with
    | zero =>
      simp only [List.get?_cons_zero, Option.some.injEq] at hk
      subst hk
      simp only [List.foldlM, bind, Except.bind, character_map.push, hh, hrlen, hmw, hw,
        if_false, bad_row_message, Nat.cast_zero, add_zero]
      rcases hbad with hb | hb
      · simp [hb]
      · have hne : r ≠ [] ∨ r = [] := by by_cases h : r = [] <;> simp [h]
        rcases hne with hne | hne
        · have hb' : ¬ (w = (r.length : Int)) := fun e => hb e.symm
          simp [hne, hb']
        · simp [hne]
    | succ k =>
      obtain ⟨hrne, hrw⟩ := hgood 0 r (Nat.succ_pos k) (by simp)
      have hpush : m.push r
          = .ok { m with m_height := m.m_height + 1, m_lines := m.m_lines ++ [text_of r] } := by
        simp only [character_map.push, hrne, if_false, hh, hrlen, hmw, hw]
        simp [hrw]
      simp only [List.foldlM, bind, Except.bind, hpush]
      simp only [List.get?_cons_succ] at hk
      have := ih { m with m_height := m.m_height + 1, m_lines := m.m_lines ++ [text_of r] }
        k row hmw (by simp only; omega)
        (by simp only [List.length_cons, Nat.cast_add, Nat.cast_one] at hsum; simp only; omega)
        (fun r' hr' => hlens r' (by simp [hr'])) hk
        (fun j r' hj hr' => hgood (j + 1) r' (by omega) (by simpa using hr')) hbad
      rw [this]
      simp only [Nat.cast_add, Nat.cast_one]
      rw [show m.m_height + 1 + (k : Int) + 1 = m.m_height + ((k : Int) + 1) + 1 by omega]

/-- C14. Building a grid from a text with a declared non-zero width `w` and a
height `h` fails whenever one of the `h` consumed rows is empty or has a length
different from `w`: when the row number `k + 1` (counting from one) is the
first such row, the rows before it are pushed without an error and the
construction throws the message of `character_map::push` that names the number
`k + 1`, which is "Line k+1 is empty." for an empty row and "The lenght of line
number k+1 (length) does not match the specified length (w)." otherwise. -/
theorem create_names_first_bad_row (map_attrs : List (Char × Nat)) (dflt : Nat) (map : Str)
    (w h : Int) (k : Nat) (row : Str)
    (hw : w ≠ 0) (hh : 0 ≤ h ∧ h ≤ INT_MAX) (hlen : (map.length : Int) ≤ INT_MAX)
    (hk : (consumed_rows map h.toNat 0).get? k = some row)
    (hgood : ∀ j r, j < k → (consumed_rows map h.toNat 0).get? j = some r →
      r ≠ [] ∧ (r.length : Int) = w)
    (hbad : row = [] ∨ (row.length : Int) ≠ w) :
    character_map.create map_attrs dflt map w h
      = .error (.game_error (bad_row_message (k + 1) row w)) := by
  have hnpos : map.length < npos := by
    simp only [INT_MAX] at hlen; simp only [npos]; omega
  have hcount : (h % 4294967296).toNat = h.toNat := by
    simp only [INT_MAX] at hh; omega
  have hfold := foldlM_push_first_bad w hw (consumed_rows map h.toNat 0)
    { m_x := 0, m_y := 0, m_height := 0, m_width := w, m_lines := [] } k row rfl (le_refl _)
    (by rw [consumed_rows_length]; simp only [INT_MAX] at hh ⊢; omega)
    (fun r hr => by
      have := consumed_rows_row_length map _ _ r hr
      omega) hk hgood hbad
  simp only [character_map.create, hcount, read_rows_eq_foldlM map hnpos _ 0 _ (Nat.zero_le _),
    hfold, bind, Except.bind]
  simp

theorem create_names_first_bad_row_witness :
    character_map.create [] 0 "abc\nab\nabc".toList 3 3
      = .error (.game_error (bad_row_message 2 "ab".toList 3)) :=
  create_names_first_bad_row [] 0 "abc\nab\nabc".toList 3 3 1 "ab".toList
    (by decide) (by decide) (by decide) (by decide)
    (by
      intro j r hj hr
      have hj0 : j = 0 := by omega
      subst hj0
      have : r = "abc".toList := by
        have h0 : (consumed_rows "abc\nab\nabc".toList (3 : Int).toNat 0).get? 0
            = some "abc".toList := by decide
        rw [h0] at hr
        exact (Option.some.inj hr).symm
      subst this
      decide)
    (by decide)

theorem join_rows_cons_cons (r r2 : Str) (rest : List Str) :
    join_rows (r :: r2 :: rest) = r ++ '\n' :: join_rows (r2 :: rest) := rfl

theorem row_length_le_join (rows : List Str) :
    ∀ r ∈ rows, r.length ≤ (join_rows rows).length := by
  induction rows with
  | nil => intro r h; simp at h
  | cons r0 rs ih =>
    intro r h
    cases rs with
    | nil =>
      simp only [List.mem_singleton] at h
      rw [h]; simp [join_rows]
    | cons r2 rest =>
      rw [join_rows_cons_cons]
      simp only [List.mem_cons] at h
      rcases h with h | h
      · rw [h]; simp
      · have := ih r (by simpa using h)
        simp only [List.length_append, List.length_cons]
        omega

/-- The rows consumed from a text block are its rows. -/
theorem consumed_rows_join (rows : List Str) :
    ∀ (pre : Str), (∀ r ∈ rows, '\n' ∉ r) → (pre ++ join_rows rows).length < npos →
      consumed_rows (pre ++ join_rows rows) rows.length pre.length = rows := by
  induction rows with
  | nil => intro pre _ _; rfl
  | cons r rs ih =>
    intro pre hnl hlen
    have hr : '\n' ∉ r := hnl r (by simp)
    cases rs with
    | nil =>
      simp only [join_rows] at hlen ⊢
      have hd : (pre ++ r).drop pre.length = r := List.drop_left' rfl
      have hf : find_from (pre ++ r) '\n' pre.length = npos := by
        simp [find_from, hd, hr]
      have ht : r.take (size_sub npos pre.length) = r := by
        apply List.take_of_length_le
        simp only [List.length_append, npos] at hlen
        simp only [size_sub, npos]
        omega
      simp only [List.length_singleton, consumed_rows, hf, hd, ht]
    | cons r2 rest =>
      rw [join_rows_cons_cons] at hlen ⊢
      have hd : (pre ++ (r ++ '\n' :: join_rows (r2 :: rest))).drop pre.length
          = r ++ '\n' :: join_rows (r2 :: rest) := List.drop_left' rfl
      have hf : find_from (pre ++ (r ++ '\n' :: join_rows (r2 :: rest))) '\n' pre.length
          = pre.length + r.length := by
        simp only [find_from, hd]
        rw [if_pos (by simp), List.indexOf_append_of_not_mem hr]
        simp
      have hlen' := hlen
      simp only [List.length_append, List.length_cons, npos] at hlen'
      have hs : size_sub (pre.length + r.length) pre.length = r.length := by
        simp only [size_sub]; omega
      have ha : size_add (pre.length + r.length) 1 = (pre ++ r ++ ['\n']).length := by
        simp only [size_add, List.length_append, List.length_singleton]; omega
      have e : pre ++ (r ++ '\n' :: join_rows (r2 :: rest))
          = (pre ++ r ++ ['\n']) ++ join_rows (r2 :: rest) := by simp
      have := ih (pre ++ r ++ ['\n']) (fun r' hr' => hnl r' (by simp [List.mem_cons] at hr' ⊢; tauto))
        (by rw [← e]; exact hlen)
      rw [List.length_cons, consumed_rows, hf, hd, hs, ha, List.take_left', e]
      · congr 1
      · rfl

/-- Pushing non-empty rows onto a grid of non-zero width `w` succeeds exactly
when every row has the length `w`. -/
theorem foldlM_push_isOk (w : Int) (hw : w ≠ 0) (rows : List Str) :
    ∀ (m : character_map), m.m_width = w → (∀ r ∈ rows, r ≠ [] ∧ (r.length : Int) ≤ INT_MAX) →
      ((rows.foldlM (fun (m : character_map) row => m.push row) m).isOk = true
        ↔ ∀ r ∈ rows, (r.length : Int) = w) := by
  induction rows with
  | nil => intro m _ _; simp [List.foldlM, pure, Except.pure, Except.isOk, Except.toBool]
  | cons r rs ih =>
    intro m hmw hrows
    obtain ⟨hrne, hrmax⟩ := hrows r (by simp)
    have hrlen : wrap_int (r.length : Int) = r.length :=
      wrap_int_of_is_int _ (by simp only [is_int, INT_MIN, INT_MAX] at hrmax ⊢; omega)
    by_cases hrw : (r.length : Int) = w
    · have hpush : ∃ m1, m.push r = .ok m1 ∧ m1.m_width = w := by
        refine ⟨{ m with m_height := wrap_int (m.m_height + 1), m_lines := m.m_lines ++ [text_of r] }, ?_, hmw⟩
        have hww : wrap_int w = w := hrw ▸ hrlen
        simp [character_map.push, hrne, hrlen, hmw, hw, hrw, hww]
      obtain ⟨m1, hp, hm1⟩ := hpush
      simp only [List.foldlM, bind, Except.bind, hp]
      rw [ih m1 hm1 (fun r' hr' => hrows r' (by simp [hr']))]
      simp [hrw]
    · have hpush : ∃ e, m.push r = .error e := by
        have hrw2 : ¬ w = (r.length : Int) := fun e => hrw e.symm
        simp [character_map.push, hrne, hrlen, hmw, hw, hrw2]
      obtain ⟨e, hp⟩ := hpush
      simp only [List.foldlM, bind, Except.bind, hp]
      simp [Except.isOk, Except.toBool, hrw]

theorem create_isOk (map_attrs : List (Char × Nat)) (dflt : Nat) (map : Str) (w h : Int) :
    (character_map.create map_attrs dflt map w h).isOk
      = (character_map.read_rows map (h % 4294967296).toNat 0
          { m_x := 0, m_y := 0, m_height := 0, m_width := w, m_lines := [] }).isOk := by
  simp only [character_map.create, bind, Except.bind]
  split <;> simp_all [Except.isOk, Except.toBool, pure, Except.pure]

/-- C15 (amended). For a text block made of non-empty rows (none holding a
newline), a declared height equal to the number of its rows, and a declared
width that is zero or the length of its first row, the construction of the grid
succeeds if and only if all rows of the block have the same length. -/
theorem create_succeeds_iff_rows_equal (map_attrs : List (Char × Nat)) (dflt : Nat)
    (rows : List Str) (w : Int)
    (hrows : ∀ r ∈ rows, r ≠ [] ∧ '\n' ∉ r)
    (hlen : ((join_rows rows).length : Int) ≤ INT_MAX)
    (hw : w = 0 ∨ ∀ r ∈ rows.head?, (r.length : Int) = w) :
    (character_map.create map_attrs dflt (join_rows rows) w rows.length).isOk = true
      ↔ ∀ r ∈ rows, ∀ r' ∈ rows, r.length = r'.length := by
  have hnpos : (join_rows rows).length < npos := by
    simp only [INT_MAX] at hlen; simp only [npos]; omega
  have hrmax : ∀ r ∈ rows, r ≠ [] ∧ (r.length : Int) ≤ INT_MAX := fun r hr =>
    ⟨(hrows r hr).1, by have := row_length_le_join rows r hr; omega⟩
  have hcount_le : rows.length ≤ (join_rows rows).length ∨ rows = [] := by
    clear hlen hnpos hw hrmax
    induction rows with
    | nil => right; rfl
    | cons r rs ih =>
      left
      have hr := (hrows r (by simp)).1
      have hrl : 0 < r.length := List.length_pos.2 hr
      cases rs with
      | nil => simp [join_rows]; omega
      | cons r2 rest =>
        rw [join_rows_cons_cons]
        rcases ih (fun r' hr' => hrows r' (by simp [hr'])) with ih | ih
        · simp only [List.length_append, List.length_cons] at ih ⊢; omega
        · cases ih
  have hcount : ((rows.length : Int) % 4294967296).toNat = rows.length := by
    simp only [INT_MAX] at hlen
    rcases hcount_le with h | h
    · omega
    · subst h; rfl
  have hcons := consumed_rows_join rows [] (fun r hr => (hrows r hr).2) (by simpa using hnpos)
  simp only [List.nil_append, List.length_nil] at hcons
  rw [create_isOk, hcount, read_rows_eq_foldlM _ hnpos _ 0 _ (Nat.zero_le _), hcons]
  cases rows with
  | nil => simp [List.foldlM, pure, Except.pure, Except.isOk, Except.toBool]
  | cons r rs =>
    obtain ⟨hrne, hrm⟩ := hrmax r (by simp)
    have hrlen : wrap_int (r.length : Int) = r.length :=
      wrap_int_of_is_int _ (by simp only [is_int, INT_MIN, INT_MAX] at hrm ⊢; omega)
    have hr0 : (r.length : Int) ≠ 0 := by
      have := List.length_pos.2 hrne; omega
    have hpush : ∃ m1, character_map.push
        { m_x := 0, m_y := 0, m_height := 0, m_width := w, m_lines := [] } r = .ok m1
        ∧ m1.m_width = r.length := by
      by_cases h0 : w = 0
      · refine ⟨character_map.mk 0 0 (r.length : Int) (wrap_int (0 + 1)) ([] ++ [text_of r]), ?_, rfl⟩
        simp [character_map.push, hrne, hrlen, h0]
      · have hw' : (r.length : Int) = w := by
          rcases hw with hw | hw
          · exact absurd hw h0
          · exact hw r (by simp)
        refine ⟨character_map.mk 0 0 w (wrap_int (0 + 1)) ([] ++ [text_of r]), ?_, hw'.symm⟩
        have hww : wrap_int w = w := hw' ▸ hrlen
        simp [character_map.push, hrne, hrlen, h0, hw', hww]
    obtain ⟨m1, hp, hm1⟩ := hpush
    simp only [List.foldlM, bind, Except.bind, hp]
    rw [foldlM_push_isOk _ hr0 rs m1 hm1 (fun r' hr' => hrmax r' (by simp [hr']))]
    constructor
    · intro h a ha b hb
      have key : ∀ c ∈ r :: rs, c.length = r.length := by
        intro c hc
        simp only [List.mem_cons] at hc
        rcases hc with hc | hc
        · rw [hc]
        · have := h c hc; omega
      rw [key a ha, key b hb]
    · intro h c hc
      have := h c (by simp [hc]) r (by simp)
      omega

theorem create_succeeds_iff_rows_equal_witness :
    (character_map.create [] 0 (join_rows ["ab".toList, "cd".toList]) 2
        (["ab".toList, "cd".toList].length : Nat)).isOk = true
      ↔ ∀ r ∈ ["ab".toList, "cd".toList], ∀ r' ∈ ["ab".toList, "cd".toList],
          r.length = r'.length :=
  create_succeeds_iff_rows_equal [] 0 ["ab".toList, "cd".toList] 2
    (by decide) (by decide) (by decide)

/-- C15 (counterexample). With a declared width or height that does not fit
the text, success and equal row lengths come apart: the block of the two rows
"ab" and "ab" with the declared width 3 is rejected although its rows have the
same length, and the block of the rows "ab" and "abc" with the declared width 2
and the declared height 1 is accepted although its rows differ in length. -/
theorem create_declared_size_counterexample :
    (character_map.create [] 0 (join_rows ["ab".toList, "ab".toList]) 3 2).isOk = false ∧
    (∀ r ∈ ["ab".toList, "ab".toList], ∀ r' ∈ ["ab".toList, "ab".toList],
      r.length = r'.length) ∧
    (character_map.create [] 0 (join_rows ["ab".toList, "abc".toList]) 2 1).isOk = true ∧
    ¬ (∀ r ∈ ["ab".toList, "abc".toList], ∀ r' ∈ ["ab".toList, "abc".toList],
      r.length = r'.length) := by
  decide

/-! ## Facts about cells and marks -/

theorem modify_eq_none (m : character_map) (x y : Int) (f : tile → tile) :
    m.modify x y f = none ↔ m.at x y = none := by
  unfold character_map.modify character_map.at
  by_cases h : x < 0 ∨ y < 0
  · simp only [h, if_true]
  · simp only [h, if_false]
    cases h1 : m.m_lines.get? y.toNat with
    | none => simp only [Option.bind]
    | some line =>
      cases h2 : line.get? x.toNat with
      | none => simp only [Option.bind, h2]
      | some t => simp only [Option.bind, h2]; simp

theorem at_modify (m m' : character_map) (x y : Int) (f : tile → tile)
    (h : m.modify x y f = some m') (a b : Int) :
    m'.at a b = if a = x ∧ b = y then (m.at x y).map f else m.at a b := by
  unfold character_map.modify at h
  by_cases hxy : x < 0 ∨ y < 0
  · simp only [hxy, if_true] at h; cases h
  · simp only [hxy, if_false] at h
    cases h1 : m.m_lines.get? y.toNat with
    | none => simp only [h1] at h; cases h
    | some line =>
      cases h2 : line.get? x.toNat with
      | none => simp only [h1, h2] at h; cases h
      | some t =>
        simp only [h1, h2, Option.some.injEq] at h
        subst h
        have hx0 : 0 ≤ x := by omega
        have hy0 : 0 ≤ y := by omega
        unfold character_map.at
        by_cases hab : a < 0 ∨ b < 0
        · have : ¬ (a = x ∧ b = y) := by omega
          simp only [hab, this, if_true, if_false]
        · simp only [hab, hxy, if_false, h1, Option.bind, h2, Option.map]
          rw [List.get?_eq_getElem?] at h1 h2
          have hl := (List.getElem?_eq_some.1 h1).1
          have hl2 := (List.getElem?_eq_some.1 h2).1
          simp only [List.get?_eq_getElem?]
          by_cases hb : b = y
          · subst hb
            rw [List.getElem?_set_self hl]
            by_cases ha : a = x
            · subst ha
              simp [List.getElem?_set_self hl2]
            · have hne : x.toNat ≠ a.toNat := by omega
              simp [List.getElem?_set_ne hne, ha, h1]
          · have hne : y.toNat ≠ b.toNat := by omega
            have : ¬ (a = x ∧ b = y) := fun h => hb h.2
            simp [List.getElem?_set_ne hne, this]

theorem modify_fields (m m' : character_map) (x y : Int) (f : tile → tile)
    (h : m.modify x y f = some m') :
    m'.m_x = m.m_x ∧ m'.m_y = m.m_y ∧ m'.m_width = m.m_width ∧ m'.m_height = m.m_height := by
  unfold character_map.modify at h
  split at h
  · cases h
  · split at h
    · cases h
    · split at h
      · cases h
      · simp only [Option.some.injEq] at h
        subst h
        exact ⟨rfl, rfl, rfl, rfl⟩

theorem and_two_pow_eq_zero (a k : Nat) : a &&& 2 ^ k = 0 ↔ a.testBit k = false := by
  constructor
  · intro h
    have := Nat.testBit_and a (2 ^ k) k
    rw [h, Nat.testBit_two_pow_self] at this
    simpa using this.symm
  · intro h
    apply Nat.eq_of_testBit_eq
    intro i
    rw [Nat.testBit_and, Nat.testBit_two_pow]
    by_cases hk : k = i
    · subst hk; simp [h]
    · simp [hk]

theorem tile.detected_iff (t : tile) :
    t.detected = true ↔ t.attr.testBit 23 = false ∧ t.attr.testBit 20 = true := by
  have h1 : A_INVIS = 2 ^ 23 := by decide
  have h2 : A_DIM = 2 ^ 20 := by decide
  simp only [tile.detected, h1, h2, Bool.and_eq_true, decide_eq_true_eq, ne_eq,
    and_two_pow_eq_zero, Bool.not_eq_false]

theorem tile.lit_iff (t : tile) :
    t.lit = true ↔
      t.attr.testBit 23 = false ∧ t.attr.testBit 20 = false ∧ t.attr.testBit 21 = true := by
  have h1 : A_INVIS = 2 ^ 23 := by decide
  have h2 : A_DIM = 2 ^ 20 := by decide
  have h3 : A_BOLD = 2 ^ 21 := by decide
  simp only [tile.lit, h1, h2, h3, Bool.and_eq_true, decide_eq_true_eq, ne_eq,
    and_two_pow_eq_zero, Bool.not_eq_false, and_assoc]

theorem tile.detected_set_detected (t : tile) : t.set_detected.detected = true := by
  rw [tile.detected_iff]
  simp only [tile.set_detected, clear_bits, A_INVIS, A_DIM, Nat.testBit_or, Nat.testBit_xor,
    Nat.testBit_and]
  have e1 : Nat.testBit 8388608 23 = true := by decide
  have e2 : Nat.testBit 1048576 23 = false := by decide
  have e3 : Nat.testBit 1048576 20 = true := by decide
  simp [e1, e2, e3]

theorem tile.lit_set_visible (t : tile) : t.set_visible.lit = true := by
  rw [tile.lit_iff]
  simp only [tile.set_visible, clear_bits, A_INVIS, A_DIM, A_BOLD, Nat.testBit_or,
    Nat.testBit_xor, Nat.testBit_and]
  have e1 : Nat.testBit 8388608 23 = true := by decide
  have e2 : Nat.testBit 2097152 23 = false := by decide
  have e3 : Nat.testBit 1048576 20 = true := by decide
  have e4 : Nat.testBit 2097152 20 = false := by decide
  have e5 : Nat.testBit 2097152 21 = true := by decide
  simp [e1, e2, e3, e4, e5]

theorem scenario.los_ext.refl (D : Int → Int → Prop) (s : scenario) : s.los_ext D s :=
  ⟨rfl, rfl, rfl, rfl, rfl, rfl, rfl, rfl, rfl, rfl, rfl, fun _ _ => rfl, fun _ _ => rfl,
    fun _ _ _ => rfl, fun _ _ _ => rfl, fun _ _ h => h, fun _ _ h => h⟩

theorem scenario.los_ext.trans {D : Int → Int → Prop} {s s1 s2 : scenario}
    (h1 : s.los_ext D s1) (h2 : s1.los_ext D s2) : s.los_ext D s2 :=
  ⟨h2.lines.trans h1.lines, h2.cols.trans h1.cols, h2.events.trans h1.events,
    h2.objects.trans h1.objects, h2.player.trans h1.player,
    h2.identifiers.trans h1.identifiers, h2.calls.trans h1.calls,
    h2.view_x.trans h1.view_x, h2.view_y.trans h1.view_y, h2.width.trans h1.width,
    h2.height.trans h1.height,
    fun x y => (h2.src_symbol x y).trans (h1.src_symbol x y),
    fun x y => (h2.rnd_symbol x y).trans (h1.rnd_symbol x y),
    fun x y hd => (h2.src_out x y hd).trans (h1.src_out x y hd),
    fun x y hd => (h2.rnd_out x y hd).trans (h1.rnd_out x y hd),
    fun x y h => h2.src_detected x y (h1.src_detected x y h),
    fun x y h => h2.rnd_lit x y (h1.rnd_lit x y h)⟩

theorem scenario.los_ext.mono {D D' : Int → Int → Prop} {s s1 : scenario}
    (h : s.los_ext D s1) (hD : ∀ x y, D x y → D' x y) : s.los_ext D' s1 :=
  { h with
    src_out := fun x y hd => h.src_out x y (fun hd' => hd (hD x y hd'))
    rnd_out := fun x y hd => h.rnd_out x y (fun hd' => hd (hD x y hd')) }

theorem scenario.los_ext.abroad {D : Int → Int → Prop} {s s1 : scenario}
    (h : s.los_ext D s1) (x y : Int) : s1.abroad x y = s.abroad x y := by
  simp only [scenario.abroad, scenario.width, scenario.height, h.width, h.height]

theorem scenario.los_ext.grid_ok {D : Int → Int → Prop} {s s1 : scenario}
    (h : s.los_ext D s1) (hg : s.grid_ok) : s1.grid_ok := by
  intro x y hin
  rw [h.abroad] at hin
  have := hg x y hin
  have e1 := congrArg Option.isSome (h.src_symbol x y)
  have e2 := congrArg Option.isSome (h.rnd_symbol x y)
  simp only [Option.isSome_map'] at e1 e2
  rw [e1, e2]
  exact this

theorem scenario.los_ext.blocks {D : Int → Int → Prop} {s s1 : scenario}
    (h : s.los_ext D s1) (viewer : object) (c : Int × Int) :
    s1.blocks viewer c = s.blocks viewer c := by
  have e := h.src_symbol c.1 c.2
  simp only [scenario.blocks, h.abroad]
  cases h1 : s1.m_source.at c.1 c.2 <;> cases h2 : s.m_source.at c.1 c.2 <;>
    simp_all

theorem los_mark_spec (s : scenario) (viewer : object) (x y : Int) (hg : s.grid_ok)
    (hin : s.abroad x y = false) :
    ∃ s', s.los_mark viewer x y = .ok (s', s.blocks viewer (x, y)) ∧
      s.los_ext (fun a b => a = x ∧ b = y) s' ∧
      s'.detected_at x y = true ∧ s'.lit_at x y = true := by
  obtain ⟨h1, h2⟩ := hg x y hin
  obtain ⟨t, ht⟩ := Option.isSome_iff_exists.1 h1
  obtain ⟨u, hu⟩ := Option.isSome_iff_exists.1 h2
  cases hr : s.m_render with
  | none => simp [scenario.render_at, hr] at hu
  | some r =>
    have hu' : r.at x y = some u := by simpa [scenario.render_at, hr] using hu
    cases hm : s.m_source.modify x y tile.set_detected with
    | none => rw [modify_eq_none, ht] at hm; cases hm
    | some m' =>
      cases hm2 : r.modify x y tile.set_visible with
      | none => rw [modify_eq_none, hu'] at hm2; cases hm2
      | some r' =>
        have hat := at_modify _ _ _ _ _ hm
        have hat2 := at_modify _ _ _ _ _ hm2
        obtain ⟨f1, f2, f3, f4⟩ := modify_fields _ _ _ _ _ hm
        have hxy : m'.at x y = some t.set_detected := by
          rw [hat, if_pos ⟨rfl, rfl⟩, ht]; rfl
        have hxy2 : r'.at x y = some u.set_visible := by
          rw [hat2, if_pos ⟨rfl, rfl⟩, hu']; rfl
        refine ⟨{ s with m_source := m', m_render := some r' }, ?_, ?_, ?_, ?_⟩
        · simp only [scenario.los_mark, scenario.source_set_detected, hm,
            scenario.render_set_visible, hr, hm2, bind, Except.bind, hxy, pure, Except.pure,
            scenario.blocks, hin, ht, tile.set_detected, Bool.not_false, Bool.true_and]
        · refine ⟨rfl, rfl, rfl, rfl, rfl, rfl, rfl, f1, f2, f3, f4, ?_, ?_, ?_, ?_, ?_, ?_⟩
          · intro a b
            show (m'.at a b).map _ = _
            rw [hat]
            by_cases hab : a = x ∧ b = y
            · rw [if_pos hab, hab.1, hab.2, ht]; rfl
            · rw [if_neg hab]
          · intro a b
            show ((some r').bind fun r => r.at a b).map _ = (s.m_render.bind fun r => r.at a b).map _
            rw [hr]
            show (r'.at a b).map _ = (r.at a b).map _
            rw [hat2]
            by_cases hab : a = x ∧ b = y
            · rw [if_pos hab, hab.1, hab.2, hu']; rfl
            · rw [if_neg hab]
          · intro a b hab
            show m'.at a b = _
            rw [hat, if_neg hab]
          · intro a b hab
            show (some r').bind (fun r => r.at a b) = s.m_render.bind fun r => r.at a b
            rw [hr]
            show r'.at a b = r.at a b
            rw [hat2, if_neg hab]
          · intro a b hd
            show (m'.at a b).any tile.detected = true
            rw [hat]
            by_cases hab : a = x ∧ b = y
            · rw [if_pos hab, ht]
              simp [tile.detected_set_detected]
            · rw [if_neg hab]; exact hd
          · intro a b hd
            show ((some r').bind fun r => r.at a b).any tile.lit = true
            show (r'.at a b).any tile.lit = true
            rw [hat2]
            by_cases hab : a = x ∧ b = y
            · rw [if_pos hab, hu']
              simp [tile.lit_set_visible]
            · rw [if_neg hab]
              simpa [scenario.lit_at, scenario.render_at, hr] using hd
        · show (m'.at x y).any tile.detected = true
          rw [hxy]; simp [tile.detected_set_detected]
        · show (r'.at x y).any tile.lit = true
          rw [hxy2]; simp [tile.lit_set_visible]


/-! ## Facts about the traces of a line-of-sight pass -/

theorem upto_stop_subset (blocked : Int × Int → Bool) (cs : List (Int × Int)) :
    ∀ c ∈ upto_stop blocked cs, c ∈ cs := by
  induction cs with
  | nil => intro c h; simp [upto_stop] at h
  | cons d ds ih =>
    intro c h
    simp only [upto_stop] at h
    split at h
    · simp only [List.mem_singleton] at h; simp [h]
    · simp only [List.mem_cons] at h ⊢
      rcases h with h | h
      · exact Or.inl h
      · exact Or.inr (ih c h)

theorem los_walk_x_spec (viewer : object) (x ix iy delta_x delta_y : Int) :
    ∀ (fuel : Nat) (s : scenario) (px py error : Int) (path : List (Int × Int)),
      s.grid_ok → los_ray_x x ix iy delta_x delta_y fuel px py error = some path →
      ∃ s', scenario.los_walk_x viewer x ix iy delta_x delta_y fuel s px py error = .ok s' ∧
        s.los_ext (fun a b => (a, b) ∈ upto_stop (s.blocks viewer) path ∧ s.abroad a b = false) s' ∧
        ∀ c ∈ upto_stop (s.blocks viewer) path, s.abroad c.1 c.2 = false →
          s'.detected_at c.1 c.2 = true ∧ s'.lit_at c.1 c.2 = true := by
  intro fuel
  induction fuel with
  | zero => intro s px py error path _ h; simp [los_ray_x] at h
  | succ fuel ih =>
    intro s px py error path hg hray
    by_cases hpx : px = x
    · simp only [los_ray_x, hpx, if_true, Option.some.injEq] at hray
      subst hray
      refine ⟨s, by simp only [scenario.los_walk_x, hpx, if_true], scenario.los_ext.refl _ _, ?_⟩
      intro c hc; simp [upto_stop] at hc
    · simp only [los_ray_x, hpx, if_false] at hray
      simp only [scenario.los_walk_x, hpx, if_false]
      generalize wrap_int (px + ix) = px' at hray ⊢
      generalize (if (decide (error > 0) || decide (error = 0) && decide (ix > 0)) = true
        then wrap_int (py + iy) else py) = py' at hray ⊢
      generalize wrap_int ((if (decide (error > 0) || decide (error = 0) && decide (ix > 0)) = true
        then wrap_int (error - delta_x) else error) + delta_y) = error' at hray ⊢
      cases hr : los_ray_x x ix iy delta_x delta_y fuel px' py' error' with
      | none => rw [hr] at hray; cases hray
      | some path' =>
        rw [hr] at hray
        simp only [Option.map, Option.some.injEq] at hray
        subst hray
        by_cases hab : s.abroad px' py' = false
        · obtain ⟨s1, hm, hext1, hd1, hl1⟩ := los_mark_spec s viewer px' py' hg hab
          simp only [hab, Bool.not_false, if_true, hm]
          by_cases hb : s.blocks viewer (px', py') = true
          · refine ⟨s1, by simp only [hb, if_true], ?_, ?_⟩
            · apply hext1.mono
              intro a b h
              simp only [upto_stop, hb, if_true, List.mem_singleton, Prod.mk.injEq]
              exact ⟨h, by rw [h.1, h.2]; exact hab⟩
            · intro c hc _
              simp only [upto_stop, hb, if_true, List.mem_singleton] at hc
              subst hc
              exact ⟨hd1, hl1⟩
          · have hb' : s.blocks viewer (px', py') = false := by simpa using hb
            have hbl : s1.blocks viewer = s.blocks viewer := funext (hext1.blocks viewer)
            obtain ⟨s2, hw, hext2, hmark2⟩ := ih s1 px' py' error' path' (hext1.grid_ok hg) hr
            rw [hbl] at hext2 hmark2
            refine ⟨s2, by simp only [hb', Bool.false_eq_true, if_false, hw], ?_, ?_⟩
            · apply @scenario.los_ext.trans _ s s1
              · apply hext1.mono
                intro a b h
                simp only [upto_stop, hb', Bool.false_eq_true, if_false, List.mem_cons, Prod.mk.injEq]
                exact ⟨Or.inl h, by rw [h.1, h.2]; exact hab⟩
              · apply hext2.mono
                intro a b h
                simp only [upto_stop, hb', Bool.false_eq_true, if_false, List.mem_cons]
                exact ⟨Or.inr h.1, by rw [← hext1.abroad]; exact h.2⟩
            · intro c hc hin
              simp only [upto_stop, hb', Bool.false_eq_true, if_false, List.mem_cons] at hc
              rcases hc with hc | hc
              · subst hc
                exact ⟨hext2.src_detected _ _ hd1, hext2.rnd_lit _ _ hl1⟩
              · exact hmark2 c hc (by rw [hext1.abroad]; exact hin)
        · have hb : s.blocks viewer (px', py') = false := by
            simp only [scenario.blocks]
            cases h : s.abroad px' py'
            · exact absurd h hab
            · rfl
          obtain ⟨s2, hw, hext2, hmark2⟩ := ih s px' py' error' path' hg hr
          have hab' : s.abroad px' py' = true := by
            cases h : s.abroad px' py'
            · exact absurd h hab
            · rfl
          refine ⟨s2, by simp only [hab', Bool.not_true, Bool.false_eq_true, if_false, hw], ?_, ?_⟩
          · apply hext2.mono
            intro a b h
            simp only [upto_stop, hb, Bool.false_eq_true, if_false, List.mem_cons]
            exact ⟨Or.inr h.1, h.2⟩
          · intro c hc hin
            simp only [upto_stop, hb, Bool.false_eq_true, if_false, List.mem_cons] at hc
            rcases hc with hc | hc
            · subst hc
              rw [hab'] at hin; cases hin
            · exact hmark2 c hc hin

theorem los_walk_y_spec (viewer : object) (y ix iy delta_x delta_y : Int) :
    ∀ (fuel : Nat) (s : scenario) (px py error : Int) (path : List (Int × Int)),
      s.grid_ok → los_ray_y y ix iy delta_x delta_y fuel px py error = some path →
      ∃ s', scenario.los_walk_y viewer y ix iy delta_x delta_y fuel s px py error = .ok s' ∧
        s.los_ext (fun a b => (a, b) ∈ upto_stop (s.blocks viewer) path ∧ s.abroad a b = false) s' ∧
        ∀ c ∈ upto_stop (s.blocks viewer) path, s.abroad c.1 c.2 = false →
          s'.detected_at c.1 c.2 = true ∧ s'.lit_at c.1 c.2 = true := by
  intro fuel
  induction fuel with
  | zero => intro s px py error path _ h; simp [los_ray_y] at h
  | succ fuel ih =>
    intro s px py error path hg hray
    by_cases hpx : py = y
    · simp only [los_ray_y, hpx, if_true, Option.some.injEq] at hray
      subst hray
      refine ⟨s, by simp only [scenario.los_walk_y, hpx, if_true], scenario.los_ext.refl _ _, ?_⟩
      intro c hc; simp [upto_stop] at hc
    · simp only [los_ray_y, hpx, if_false] at hray
      simp only [scenario.los_walk_y, hpx, if_false]
      generalize wrap_int (py + iy) = py' at hray ⊢
      generalize (if (decide (error > 0) || decide (error = 0) && decide (iy > 0)) = true
        then wrap_int (px + ix) else px) = px' at hray ⊢
      generalize wrap_int ((if (decide (error > 0) || decide (error = 0) && decide (iy > 0)) = true
        then wrap_int (error - delta_y) else error) + delta_x) = error' at hray ⊢
      cases hr : los_ray_y y ix iy delta_x delta_y fuel px' py' error' with
      | none => rw [hr] at hray; cases hray
      | some path' =>
        rw [hr] at hray
        simp only [Option.map, Option.some.injEq] at hray
        subst hray
        by_cases hab : s.abroad px' py' = false
        · obtain ⟨s1, hm, hext1, hd1, hl1⟩ := los_mark_spec s viewer px' py' hg hab
          simp only [hab, Bool.not_false, if_true, hm]
          by_cases hb : s.blocks viewer (px', py') = true
          · refine ⟨s1, by simp only [hb, if_true], ?_, ?_⟩
            · apply hext1.mono
              intro a b h
              simp only [upto_stop, hb, if_true, List.mem_singleton, Prod.mk.injEq]
              exact ⟨h, by rw [h.1, h.2]; exact hab⟩
            · intro c hc _
              simp only [upto_stop, hb, if_true, List.mem_singleton] at hc
              subst hc
              exact ⟨hd1, hl1⟩
          · have hb' : s.blocks viewer (px', py') = false := by simpa using hb
            have hbl : s1.blocks viewer = s.blocks viewer := funext (hext1.blocks viewer)
            obtain ⟨s2, hw, hext2, hmark2⟩ := ih s1 px' py' error' path' (hext1.grid_ok hg) hr
            rw [hbl] at hext2 hmark2
            refine ⟨s2, by simp only [hb', Bool.false_eq_true, if_false, hw], ?_, ?_⟩
            · apply @scenario.los_ext.trans _ s s1
              · apply hext1.mono
                intro a b h
                simp only [upto_stop, hb', Bool.false_eq_true, if_false, List.mem_cons, Prod.mk.injEq]
                exact ⟨Or.inl h, by rw [h.1, h.2]; exact hab⟩
              · apply hext2.mono
                intro a b h
                simp only [upto_stop, hb', Bool.false_eq_true, if_false, List.mem_cons]
                exact ⟨Or.inr h.1, by rw [← hext1.abroad]; exact h.2⟩
            · intro c hc hin
              simp only [upto_stop, hb', Bool.false_eq_true, if_false, List.mem_cons] at hc
              rcases hc with hc | hc
              · subst hc
                exact ⟨hext2.src_detected _ _ hd1, hext2.rnd_lit _ _ hl1⟩
              · exact hmark2 c hc (by rw [hext1.abroad]; exact hin)
        · have hb : s.blocks viewer (px', py') = false := by
            simp only [scenario.blocks]
            cases h : s.abroad px' py'
            · exact absurd h hab
            · rfl
          obtain ⟨s2, hw, hext2, hmark2⟩ := ih s px' py' error' path' hg hr
          have hab' : s.abroad px' py' = true := by
            cases h : s.abroad px' py'
            · exact absurd h hab
            · rfl
          refine ⟨s2, by simp only [hab', Bool.not_true, Bool.false_eq_true, if_false, hw], ?_, ?_⟩
          · apply hext2.mono
            intro a b h
            simp only [upto_stop, hb, Bool.false_eq_true, if_false, List.mem_cons]
            exact ⟨Or.inr h.1, h.2⟩
          · intro c hc hin
            simp only [upto_stop, hb, Bool.false_eq_true, if_false, List.mem_cons] at hc
            rcases hc with hc | hc
            · subst hc
              rw [hab'] at hin; cases hin
            · exact hmark2 c hc hin

/-! ## Facts about instructions, events and the turn -/

theorem parse_command_calls (run : scenario → event → Except cpp_error scenario)
    (hrun : ∀ s e s', run s e = .ok s' → s' = { s with calls := s'.calls })
    (s s' : scenario) (comm : Str) (h : s.parse_command run comm = .ok s') :
    s' = { s with calls := s'.calls } := by
  unfold scenario.parse_command at h
  cases hc : parse_call comm with
  | error e => simp only [hc, bind, Except.bind] at h; cases h
  | ok r =>
    obtain ⟨id, method, args⟩ := r
    simp only [hc, bind, Except.bind, pure, Except.pure] at h
    by_cases h1 : id = []
    · rw [if_pos h1] at h; cases h; rfl
    · rw [if_neg h1] at h
      by_cases h2 : id = RESERVED_SCENARIO_ID
      · rw [if_pos h2] at h
        split at h <;> (cases h; rfl)
      · rw [if_neg h2] at h
        by_cases h3 : id = RESERVED_DIALOG_ID
        · rw [if_pos h3] at h
          split at h <;> (cases h; rfl)
        · rw [if_neg h3] at h
          cases ho : s.find_object id with
          | some o => simp only [ho] at h; cases h; rfl
          | none =>
            simp only [ho] at h
            cases he : s.find_event id with
            | none => simp only [he] at h; cases h; rfl
            | some e =>
              simp only [he] at h
              split at h
              · exact hrun _ _ _ h
              · cases h; rfl

theorem foldlM_calls {α : Type} (f : scenario → α → Except cpp_error scenario)
    (hf : ∀ s a s', f s a = .ok s' → s' = { s with calls := s'.calls }) (l : List α) :
    ∀ s s', l.foldlM f s = .ok s' → s' = { s with calls := s'.calls } := by
  induction l with
  | nil => intro s s' h; simp only [List.foldlM, pure, Except.pure] at h; cases h; rfl
  | cons a l ih =>
    intro s s' h
    simp only [List.foldlM, bind, Except.bind] at h
    cases h1 : f s a with
    | error e => simp only [h1] at h; cases h
    | ok s1 =>
      simp only [h1] at h
      have e1 := hf _ _ _ h1
      have e2 := ih _ _ h
      rw [e2, e1]

theorem event_run_calls (stack : Nat) :
    ∀ s e s', event.run stack s e = .ok s' → s' = { s with calls := s'.calls } := by
  induction stack with
  | zero => intro s e s' h; simp [event.run] at h
  | succ stack ih =>
    intro s e s' h
    simp only [event.run, scenario.parse_instructions] at h
    exact foldlM_calls _ (fun s a s' => parse_command_calls _ ih s s' a) _ _ _ h

theorem parse_instructions_calls (stack : Nat) (s s' : scenario) (l : List Str)
    (h : s.parse_instructions (event.run stack) l = .ok s') :
    s' = { s with calls := s'.calls } :=
  foldlM_calls _ (fun s a s' => parse_command_calls _ (event_run_calls stack) s s' a) _ _ _ h

theorem dialog_calls (env : play_env) (s s' : scenario) (e : event)
    (h : s.dialog env e = .ok s') : s' = { s with calls := s'.calls } := by
  unfold scenario.dialog at h
  have := foldlM_calls (fun (s : scenario) (k : Nat) =>
      match e.m_items.get? k with
      | none => pure s
      | some item => s.parse_instructions (event.run env.stack) item.instructions)
    (by
      intro s k s' h
      cases hk : e.m_items.get? k with
      | none => simp only [hk, pure, Except.pure] at h; cases h; rfl
      | some item =>
        simp only [hk] at h
        exact parse_instructions_calls _ _ _ _ h) _ _ _ h
  rw [this]

theorem list_set_get_self {α : Type} (l : List α) (i : Nat) (a : α) (h : l.get? i = some a) :
    l.set i a = l := by
  rw [List.get?_eq_getElem?] at h
  apply List.ext_getElem?
  intro j
  by_cases hij : i = j
  · subst hij
    rw [List.getElem?_set_self (List.getElem?_eq_some.1 h).1, h]
  · rw [List.getElem?_set_ne hij]

theorem test_event_spec (env : play_env) (s s' : scenario) (i : Nat)
    (h : s.test_event env i = .ok s') :
    ∃ e fired, s.m_events.get? i = some e ∧
      s.parse_conditions env.x0 env.y0 e.m_conditions = .ok fired ∧
      s' = { s with calls := s'.calls,
                    m_events := s.m_events.set i { e with m_happened := e.m_happened || fired } } ∧
      (fired = false → s'.calls = s.calls) := by
  unfold scenario.test_event at h
  cases he : s.m_events.get? i with
  | none => simp only [he] at h; cases h
  | some e =>
    simp only [he] at h
    cases hc : s.parse_conditions env.x0 env.y0 e.m_conditions with
    | error err => simp only [hc, bind, Except.bind] at h; cases h
    | ok fired =>
      simp only [hc, bind, Except.bind] at h
      refine ⟨e, fired, rfl, hc, ?_⟩
      cases fired with
      | false =>
        simp only [Bool.false_eq_true, if_false, pure, Except.pure, Except.ok.injEq] at h
        subst h
        have : ({ e with m_happened := e.m_happened || false } : event) = e := by simp
        rw [this, list_set_get_self _ _ _ he]
        exact ⟨rfl, fun _ => rfl⟩
      | true =>
        simp only [if_true] at h
        have key : ∀ s1, s1 = { s with calls := s1.calls } →
            s1.update_event i (fun e => { e with m_happened := true }) = s' →
            s' = { s with calls := s'.calls,
                          m_events := s.m_events.set i { e with m_happened := e.m_happened || true } } := by
          intro s1 h1 h2
          have he1 : s1.m_events.get? i = some e := by rw [h1]; exact he
          simp only [scenario.update_event, he1] at h2
          subst h2
          rw [h1]
          simp
        refine ⟨?_, fun hf => by cases hf⟩
        by_cases hm : e.m_message = []
        · rw [if_pos hm] at h
          cases h1 : s.parse_instructions (event.run env.stack) e.m_instructions with
          | error err => simp only [h1] at h; cases h
          | ok s1 =>
            simp only [h1, pure, Except.pure, Except.ok.injEq] at h
            exact key s1 (parse_instructions_calls _ _ _ _ h1) h
        · rw [if_neg hm] at h
          cases h1 : s.dialog env e with
          | error err => simp only [h1] at h; cases h
          | ok s1 =>
            simp only [h1, pure, Except.pure, Except.ok.injEq] at h
            exact key s1 (dialog_calls _ _ _ _ h1) h

theorem turn_event_spec (env : play_env) (s s' : scenario) (i : Nat)
    (h : s.turn_event env i = .ok s') :
    ∃ e fired, s.m_events.get? i = some e ∧
      s.parse_conditions env.x0 env.y0 e.m_conditions = .ok fired ∧
      s' = { s with calls := s'.calls,
                    m_events := s.m_events.set i
                      { e with m_happened := e.m_happened || fired,
                               m_turns := if (e.m_happened || fired) = true then e.m_turns + 1
                                          else e.m_turns } } := by
  unfold scenario.turn_event at h
  cases h1 : s.test_event env i with
  | error err => simp only [h1, bind, Except.bind] at h; cases h
  | ok s1 =>
    simp only [h1, bind, Except.bind] at h
    obtain ⟨e, fired, he, hc, hs1, -⟩ := test_event_spec env s s1 i h1
    refine ⟨e, fired, he, hc, ?_⟩
    have hlen : i < s.m_events.length := by
      rw [List.get?_eq_getElem?] at he
      exact (List.getElem?_eq_some.1 he).1
    have he1 : s1.m_events.get? i = some { e with m_happened := e.m_happened || fired } := by
      rw [hs1]
      simp only [List.get?_eq_getElem?]
      rw [List.getElem?_set_self hlen]
    simp only [he1, event.happened] at h
    by_cases hf : (e.m_happened || fired) = true
    · simp only [hf, if_true, pure, Except.pure, Except.ok.injEq] at h
      subst h
      simp only [scenario.update_event, he1]
      rw [hs1]
      simp [event.inc, hf]
    · simp only [hf, Bool.false_eq_true, if_false, pure, Except.pure, Except.ok.injEq] at h
      subst h
      rw [hs1]
      simp [hf]

theorem foldlM_stage {α β : Type} (g : scenario → β) (f : scenario → α → Except cpp_error scenario)
    (hf : ∀ s a s', f s a = .ok s' → g s' = g s) (l : List α) :
    ∀ s s', l.foldlM f s = .ok s' → g s' = g s := by
  induction l with
  | nil => intro s s' h; simp only [List.foldlM, pure, Except.pure] at h; cases h; rfl
  | cons a l ih =>
    intro s s' h
    simp only [List.foldlM, bind, Except.bind] at h
    cases h1 : f s a with
    | error e => simp only [h1] at h; cases h
    | ok s1 =>
      simp only [h1] at h
      exact (ih _ _ h).trans (hf _ _ _ h1)

theorem source_set_detected_stage (s s' : scenario) (x y : Int)
    (h : s.source_set_detected x y = .ok s') : s'.stage = s.stage := by
  unfold scenario.source_set_detected at h
  cases hm : s.m_source.modify x y tile.set_detected with
  | none => simp only [hm] at h; cases h
  | some m =>
    simp only [hm, Except.ok.injEq] at h
    subst h
    obtain ⟨f1, f2, f3, f4⟩ := modify_fields _ _ _ _ _ hm
    simp only [scenario.stage, f1, f2, f3, f4]

theorem render_set_visible_stage (s s' : scenario) (x y : Int)
    (h : s.render_set_visible x y = .ok s') : s'.stage = s.stage ∧ s'.m_source = s.m_source := by
  unfold scenario.render_set_visible at h
  cases hr : s.m_render with
  | none => simp only [hr] at h; cases h
  | some r =>
    simp only [hr] at h
    cases hm : r.modify x y tile.set_visible with
    | none => simp only [hm] at h; cases h
    | some m =>
      simp only [hm, Except.ok.injEq] at h
      subst h
      exact ⟨rfl, rfl⟩

theorem los_mark_stage (s s' : scenario) (viewer : object) (x y : Int) (b : Bool)
    (h : s.los_mark viewer x y = .ok (s', b)) : s'.stage = s.stage := by
  unfold scenario.los_mark at h
  cases h1 : s.source_set_detected x y with
  | error e => simp only [h1, bind, Except.bind] at h; cases h
  | ok s1 =>
    simp only [h1, bind, Except.bind] at h
    cases h2 : s1.render_set_visible x y with
    | error e => simp only [h2] at h; cases h
    | ok s2 =>
      simp only [h2] at h
      cases h3 : s2.m_source.at x y with
      | none => simp only [h3] at h; cases h
      | some cell =>
        simp only [h3, pure, Except.pure, Except.ok.injEq, Prod.mk.injEq] at h
        obtain ⟨h, -⟩ := h
        subst h
        exact (render_set_visible_stage _ _ _ _ h2).1.trans (source_set_detected_stage _ _ _ _ h1)

theorem los_walk_x_stage (viewer : object) (x ix iy delta_x delta_y : Int) :
    ∀ (fuel : Nat) (s s' : scenario) (px py error : Int),
      scenario.los_walk_x viewer x ix iy delta_x delta_y fuel s px py error = .ok s' →
      s'.stage = s.stage := by
  intro fuel
  induction fuel with
  | zero => intro s s' px py error h; simp [scenario.los_walk_x] at h
  | succ fuel ih =>
    intro s s' px py error h
    by_cases hpx : px = x
    · simp only [scenario.los_walk_x, hpx, if_true, Except.ok.injEq] at h
      subst h; rfl
    · simp only [scenario.los_walk_x, hpx, if_false] at h
      generalize wrap_int (px + ix) = px' at h
      generalize (if (decide (error > 0) || decide (error = 0) && decide (ix > 0)) = true
        then wrap_int (py + iy) else py) = py' at h
      generalize wrap_int ((if (decide (error > 0) || decide (error = 0) && decide (ix > 0)) = true
        then wrap_int (error - delta_x) else error) + delta_y) = error' at h
      by_cases hab : (!s.abroad px' py') = true
      · rw [if_pos hab] at h
        cases hm : s.los_mark viewer px' py' with
        | error e => simp only [hm] at h; cases h
        | ok r =>
          obtain ⟨s1, stop⟩ := r
          simp only [hm] at h
          by_cases hs : stop = true
          · rw [if_pos hs] at h
            cases h
            exact los_mark_stage _ _ _ _ _ _ hm
          · rw [if_neg hs] at h
            exact (ih _ _ _ _ _ h).trans (los_mark_stage _ _ _ _ _ _ hm)
      · rw [if_neg hab] at h
        exact ih _ _ _ _ _ h

theorem los_walk_y_stage (viewer : object) (y ix iy delta_x delta_y : Int) :
    ∀ (fuel : Nat) (s s' : scenario) (px py error : Int),
      scenario.los_walk_y viewer y ix iy delta_x delta_y fuel s px py error = .ok s' →
      s'.stage = s.stage := by
  intro fuel
  induction fuel with
  | zero => intro s s' px py error h; simp [scenario.los_walk_y] at h
  | succ fuel ih =>
    intro s s' px py error h
    by_cases hpy : py = y
    · simp only [scenario.los_walk_y, hpy, if_true, Except.ok.injEq] at h
      subst h; rfl
    · simp only [scenario.los_walk_y, hpy, if_false] at h
      generalize wrap_int (py + iy) = py' at h
      generalize (if (decide (error > 0) || decide (error = 0) && decide (iy > 0)) = true
        then wrap_int (px + ix) else px) = px' at h
      generalize wrap_int ((if (decide (error > 0) || decide (error = 0) && decide (iy > 0)) = true
        then wrap_int (error - delta_y) else error) + delta_x) = error' at h
      by_cases hab : (!s.abroad px' py') = true
      · rw [if_pos hab] at h
        cases hm : s.los_mark viewer px' py' with
        | error e => simp only [hm] at h; cases h
        | ok r =>
          obtain ⟨s1, stop⟩ := r
          simp only [hm] at h
          by_cases hs : stop = true
          · rw [if_pos hs] at h
            cases h
            exact los_mark_stage _ _ _ _ _ _ hm
          · rw [if_neg hs] at h
            exact (ih _ _ _ _ _ h).trans (los_mark_stage _ _ _ _ _ _ hm)
      · rw [if_neg hab] at h
        exact ih _ _ _ _ _ h

theorem los_target_stage (s s' : scenario) (viewer : object) (x y : Int)
    (h : s.los_target viewer x y = .ok s') : s'.stage = s.stage := by
  unfold scenario.los_target at h
  simp only at h
  split at h
  · cases h; rfl
  · split at h
    · cases h
    · rename_i s1 stop hm
      have h1 : s1.stage = s.stage := by
        split at hm
        · exact los_mark_stage _ _ _ _ _ _ hm
        · cases hm; rfl
      split at h
      · cases h; exact h1
      · split at h
        · exact (los_walk_x_stage _ _ _ _ _ _ _ _ _ _ _ _ h).trans h1
        · exact (los_walk_y_stage _ _ _ _ _ _ _ _ _ _ _ _ h).trans h1

theorem render_los_stage (s s' : scenario) (viewer : object)
    (h : s.render_los viewer = .ok s') : s'.stage = s.stage := by
  unfold scenario.render_los at h
  exact foldlM_stage scenario.stage _
    (fun s y s' h => foldlM_stage scenario.stage _
      (fun s x s' h => los_target_stage _ _ _ _ _ h) _ _ _ h) _ _ _ h

theorem render_object_stage (s s' : scenario) (obj : object)
    (h : s.render_object obj = .ok s') : s'.stage = s.stage ∧ s'.m_source = s.m_source := by
  unfold scenario.render_object at h
  cases hr : s.m_render with
  | none => simp only [hr] at h; cases h
  | some r =>
    simp only [hr] at h
    split at h
    · cases h
    · cases h
      exact ⟨rfl, rfl⟩

theorem render_stage (s s' : scenario) (h : s.render = .ok s') : s'.stage = s.stage := by
  unfold scenario.render at h
  simp only at h
  split at h
  · cases h
  · rename_i player hp
    cases h1 : scenario.render_los { s with m_render := some s.m_source } player with
    | error e => simp only [h1, bind, Except.bind] at h; cases h
    | ok s1 =>
      simp only [h1, bind, Except.bind] at h
      have e1 := render_los_stage _ _ _ h1
      cases h2 : s1.m_objects.foldlM (fun s obj => s.render_object obj) s1 with
      | error e => simp only [h2] at h; cases h
      | ok s2 =>
        simp only [h2] at h
        have e2 := foldlM_stage scenario.stage _
          (fun s o s' h => (render_object_stage _ _ _ h).1) _ _ _ h2
        split at h
        · cases h
        · simp only [pure, Except.pure, Except.ok.injEq] at h
          subst h
          exact (e2.trans e1)

theorem stage_events (s s' : scenario) (h : s'.stage = s.stage) :
    s'.m_events = s.m_events ∧ s'.m_objects = s.m_objects ∧ s'.m_player = s.m_player ∧
    s'.width = s.width ∧ s'.height = s.height ∧ s'.x = s.x ∧ s'.y = s.y ∧
    s'.m_cols = s.m_cols ∧ s'.m_lines = s.m_lines ∧ s'.m_identifiers = s.m_identifiers := by
  have e1 := congrArg scenario.m_events h
  have e2 := congrArg scenario.m_objects h
  have e3 := congrArg scenario.m_player h
  have e4 := congrArg (fun t => t.m_source.m_width) h
  have e5 := congrArg (fun t => t.m_source.m_height) h
  have e6 := congrArg (fun t => t.m_source.m_x) h
  have e7 := congrArg (fun t => t.m_source.m_y) h
  have e8 := congrArg scenario.m_cols h
  have e9 := congrArg scenario.m_lines h
  have e10 := congrArg scenario.m_identifiers h
  exact ⟨e1, e2, e3, e4, e5, e6, e7, e8, e9, e10⟩

/-- The value of a condition depends on the entities and the events only. -/
theorem parse_condition_congr (s t : scenario) (ho : t.m_objects = s.m_objects)
    (he : t.m_events = s.m_events) (x0 y0 : Int) (cond : Str) :
    t.parse_condition x0 y0 cond = s.parse_condition x0 y0 cond := by
  simp only [scenario.parse_condition, scenario.find_object, scenario.find_event, ho, he]

theorem parse_conditions_loop_congr (s t : scenario) (ho : t.m_objects = s.m_objects)
    (he : t.m_events = s.m_events) (x0 y0 : Int) (conds : event_conditions) :
    ∀ r a, t.parse_conditions_loop x0 y0 conds r a = s.parse_conditions_loop x0 y0 conds r a := by
  induction conds with
  | nil => intro r a; rfl
  | leaf cond rest ih =>
    intro r a
    simp only [scenario.parse_conditions_loop, ih, parse_condition_congr s t ho he]
  | nested cond next rest ih1 ih2 =>
    intro r a
    simp only [scenario.parse_conditions_loop, ih1, ih2]

theorem parse_conditions_congr (s t : scenario) (ho : t.m_objects = s.m_objects)
    (he : t.m_events = s.m_events) (x0 y0 : Int) (conds : event_conditions) :
    t.parse_conditions x0 y0 conds = s.parse_conditions x0 y0 conds :=
  parse_conditions_loop_congr s t ho he x0 y0 conds _ _

theorem turn_events_spec (env : play_env) (n : Nat) :
    ∀ (i : Nat) (s s' : scenario), scenario.turn_events env n i s = .ok s' →
      s'.without_events = s.without_events ∧
      (∀ j, j < i ∨ i + n ≤ j → s'.m_events.get? j = s.m_events.get? j) ∧
      ∀ k e, i ≤ k → k < i + n → s.m_events.get? k = some e →
        ∃ (t : scenario) (fired : Bool), t.m_objects = s.m_objects ∧
          (∀ j, k ≤ j → t.m_events.get? j = s.m_events.get? j) ∧
          (∀ j, j < k → t.m_events.get? j = s'.m_events.get? j) ∧
          t.parse_conditions env.x0 env.y0 e.m_conditions = .ok fired ∧
          s'.m_events.get? k = some
            { e with m_happened := e.m_happened || fired,
                     m_turns := if (e.m_happened || fired) = true then e.m_turns + 1
                                else e.m_turns } := by
  induction n with
  | zero =>
    intro i s s' h
    simp only [scenario.turn_events, Except.ok.injEq] at h
    subst h
    exact ⟨rfl, fun _ _ => rfl, fun k e h1 h2 => by omega⟩
  | succ n ih =>
    intro i s s' h
    simp only [scenario.turn_events, bind, Except.bind] at h
    cases h1 : s.turn_event env i with
    | error err => simp only [h1] at h; cases h
    | ok s1 =>
      simp only [h1] at h
      obtain ⟨ei, fi, hei, hci, hs1⟩ := turn_event_spec env s s1 i h1
      obtain ⟨hw, hframe, hmain⟩ := ih (i + 1) s1 s' h
      have hlen : i < s.m_events.length := by
        rw [List.get?_eq_getElem?] at hei
        exact (List.getElem?_eq_some.1 hei).1
      have hev1 : s1.m_events = s.m_events.set i
          { ei with m_happened := ei.m_happened || fi,
                    m_turns := if (ei.m_happened || fi) = true then ei.m_turns + 1
                               else ei.m_turns } := by rw [hs1]
      have hne : ∀ j, j ≠ i → s1.m_events.get? j = s.m_events.get? j := by
        intro j hj
        rw [hev1]
        simp only [List.get?_eq_getElem?]
        exact List.getElem?_set_ne (Ne.symm hj)
      have hi1 : s1.m_events.get? i = some
          { ei with m_happened := ei.m_happened || fi,
                    m_turns := if (ei.m_happened || fi) = true then ei.m_turns + 1
                               else ei.m_turns } := by
        rw [hev1]
        simp only [List.get?_eq_getElem?]
        exact List.getElem?_set_self hlen
      have hobj : s1.m_objects = s.m_objects := by rw [hs1]
      have hw1 : s1.without_events = s.without_events := by rw [hs1]; rfl
      have hfr : ∀ j, j < i ∨ i + (n + 1) ≤ j → s'.m_events.get? j = s.m_events.get? j := by
        intro j hj
        rw [hframe j (by omega), hne j (by omega)]
      refine ⟨hw.trans hw1, hfr, ?_⟩
      intro k e hk1 hk2 hek
      by_cases hki : k = i
      · subst hki
        rw [hei] at hek
        cases hek
        refine ⟨s, fi, rfl, fun _ _ => rfl, fun j hj => (hfr j (Or.inl hj)).symm, hci, ?_⟩
        rw [hframe k (by omega), hi1]
      · obtain ⟨t, fired, ht1, ht2, ht3, ht4, ht5⟩ :=
          hmain k e (by omega) (by omega) (by rw [hne k hki]; exact hek)
        refine ⟨t, fired, ht1.trans hobj, ?_, ht3, ht4, ht5⟩
        intro j hj
        rw [ht2 j hj, hne j (by omega)]

theorem isOk_exists {α : Type} (r : Except cpp_error α) (h : r.isOk = true) :
    ∃ a, r = .ok a := by
  cases r with
  | error e => simp [Except.isOk, Except.toBool] at h
  | ok a => exact ⟨a, rfl⟩

/-- What a turn that comes back makes of the events of the table. -/
theorem turn_spec (env : play_env) (s s' : scenario)
    (h : s.turn env = .ok s') :
    s'.m_events.length = s.m_events.length ∧
    ∀ i e, s.m_events.get? i = some e →
      ∃ (t : scenario) (fired : Bool), t.m_objects = s.m_objects ∧
        (∀ j, i ≤ j → t.m_events.get? j = s.m_events.get? j) ∧
        (∀ j, j < i → t.m_events.get? j = s'.m_events.get? j) ∧
        t.parse_conditions env.x0 env.y0 e.m_conditions = .ok fired ∧
        s'.m_events.get? i = some
          { e with m_happened := e.m_happened || fired,
                   m_turns := if (e.m_happened || fired) = true then e.m_turns + 1
                              else e.m_turns } := by
  unfold scenario.turn at h
  cases hr : s.render with
  | error err => simp only [hr, bind, Except.bind] at h; cases h
  | ok s1 =>
    simp only [hr, bind, Except.bind] at h
    obtain ⟨he, ho, -⟩ := stage_events _ _ (render_stage _ _ hr)
    obtain ⟨hw, hframe, hmain⟩ := turn_events_spec env _ 0 s1 s' h
    have hle : s'.m_events.length ≤ s1.m_events.length := by
      have := hframe s1.m_events.length (Or.inr (by omega))
      simp only [List.get?_eq_getElem?] at this
      rw [List.getElem?_eq_none (l := s1.m_events) (le_refl _)] at this
      exact List.getElem?_eq_none_iff.1 this
    have hge : s1.m_events.length ≤ s'.m_events.length := by
      by_contra hlt
      have hk : s'.m_events.length < s1.m_events.length := by omega
      obtain ⟨t, fired, -, -, -, -, ht5⟩ :=
        hmain s'.m_events.length (s1.m_events.get ⟨_, hk⟩) (Nat.zero_le _) (by omega)
          (by simp [List.get?_eq_getElem?, List.getElem?_eq_getElem hk])
      simp only [List.get?_eq_getElem?] at ht5
      have := (List.getElem?_eq_some.1 ht5).1
      omega
    have hlen : s'.m_events.length = s1.m_events.length := by omega
    refine ⟨by rw [hlen, he], ?_⟩
    intro i e hie
    have hi : i < s1.m_events.length := by
      rw [he]
      rw [List.get?_eq_getElem?] at hie
      exact (List.getElem?_eq_some.1 hie).1
    obtain ⟨t, fired, ht1, ht2, ht3, ht4, ht5⟩ :=
      hmain i e (Nat.zero_le _) (by omega) (by rw [he]; exact hie)
    exact ⟨t, fired, ht1.trans ho, fun j hj => by rw [ht2 j hj, he], ht3, ht4, ht5⟩

/-- C16 (amended). In a turn that comes back, every event of the table is
tested once, in a state `t` in which the events before it have been through
their iteration and the others not; when `fired` is the value of its condition
tree in that test, its happened flag afterwards is the flag before or `fired`,
and its occurrence counter is advanced by exactly one when that flag is set
afterwards, and is not advanced when it is not: the counter goes up on the turn
of the first firing and on every later turn, whether the event fires in it or
not, and stays where it is on the turns before the first firing. -/
theorem turn_advances_counter_once_happened (env : play_env) (s s' : scenario)
    (h : s.turn env = .ok s') :
    s'.m_events.length = s.m_events.length ∧
    ∀ i e, s.m_events.get? i = some e →
      ∃ (t : scenario) (fired : Bool), t.m_objects = s.m_objects ∧
        (∀ j, i ≤ j → t.m_events.get? j = s.m_events.get? j) ∧
        (∀ j, j < i → t.m_events.get? j = s'.m_events.get? j) ∧
        t.parse_conditions env.x0 env.y0 e.m_conditions = .ok fired ∧
        s'.m_events.get? i = some
          { e with m_happened := e.m_happened || fired,
                   m_turns := if (e.m_happened || fired) = true then e.m_turns + 1
                              else e.m_turns } :=
  turn_spec env s s' h

/-- Witness of C16 (amended) at the turn of `fresh_play`, in which the event
`ev` fires for the first time. -/
theorem turn_advances_counter_once_happened_witness :
    ∃ s', fresh_play.turn quiet_env = .ok s' ∧
      s'.m_events.length = fresh_play.m_events.length ∧
      ∀ i e, fresh_play.m_events.get? i = some e →
        ∃ (t : scenario) (fired : Bool), t.m_objects = fresh_play.m_objects ∧
          (∀ j, i ≤ j → t.m_events.get? j = fresh_play.m_events.get? j) ∧
          (∀ j, j < i → t.m_events.get? j = s'.m_events.get? j) ∧
          t.parse_conditions quiet_env.x0 quiet_env.y0 e.m_conditions = .ok fired ∧
          s'.m_events.get? i = some
            { e with m_happened := e.m_happened || fired,
                     m_turns := if (e.m_happened || fired) = true then e.m_turns + 1
                                else e.m_turns } := by
  obtain ⟨s', hs'⟩ := isOk_exists (fresh_play.turn quiet_env) (by decide)
  exact ⟨s', hs', turn_advances_counter_once_happened quiet_env fresh_play s' hs'⟩

/-- C16 (counterexample). The event `ev` of `fresh_play` has the condition
`player.in(1 1)` and the player stands at `(1, 1)`: in the first turn the event
fires and its counter becomes 1. The player then steps to `(2, 1)`, which plays
a second turn, in which the condition is false, so the event does not fire; its
counter is 2 all the same, while it has fired in one turn. -/
theorem counter_advances_without_firing :
    fresh_play.parse_conditions 0 0 ev_at_centre.m_conditions = .ok true ∧
    (fresh_play.turn quiet_env).map scenario.event_marks = .ok [(true, 1)] ∧
    ((fresh_play.turn quiet_env).bind
        (fun s => s.move_player (scenario.turn quiet_env) 1 0)).map
      (fun s => (s.m_objects.map (fun o => (o.x, o.y)),
        s.parse_conditions 0 0 ev_at_centre.m_conditions, s.event_marks))
      = .ok ([(2, 1), (1, 1)], .ok false, [(true, 2)]) := by
  decide

/-! ## Claims about the conditions on events -/

theorem without_events_fields (s s' : scenario) (h : s'.without_events = s.without_events) :
    s'.m_objects = s.m_objects ∧ s'.m_player = s.m_player ∧ s'.m_source = s.m_source ∧
    s'.m_cols = s.m_cols ∧ s'.m_lines = s.m_lines ∧ s'.m_render = s.m_render := by
  have e1 := congrArg scenario.m_objects h
  have e2 := congrArg scenario.m_player h
  have e3 := congrArg scenario.m_source h
  have e4 := congrArg scenario.m_cols h
  have e5 := congrArg scenario.m_lines h
  have e6 := congrArg scenario.m_render h
  exact ⟨e1, e2, e3, e4, e5, e6⟩

/-- The frame of `turn()`: it moves no entity and changes neither the
dimensions of the grid nor the view. -/
theorem turn_frame (env : play_env) (s s' : scenario) (h : s.turn env = .ok s') :
    s'.m_objects = s.m_objects ∧ s'.m_player = s.m_player ∧
    s'.width = s.width ∧ s'.height = s.height ∧ s'.x = s.x ∧ s'.y = s.y ∧
    s'.m_cols = s.m_cols ∧ s'.m_lines = s.m_lines := by
  unfold scenario.turn at h
  cases hr : s.render with
  | error err => simp only [hr, bind, Except.bind] at h; cases h
  | ok s1 =>
    simp only [hr, bind, Except.bind] at h
    obtain ⟨-, ho, hp, hw, hh, hx, hy, hc, hl, -⟩ := stage_events _ _ (render_stage _ _ hr)
    obtain ⟨f1, f2, f3, f4, f5, -⟩ :=
      without_events_fields _ _ (turn_events_spec env _ 0 s1 s' h).1
    simp only [scenario.width, scenario.height, scenario.x, scenario.y] at hw hh hx hy ⊢
    rw [f1, f2, f3, f4, f5]
    exact ⟨ho, hp, hw, hh, hx, hy, hc, hl⟩

theorem set_view_cells (s : scenario) (x y : Int) :
    (s.set_view x y).m_source.m_lines = s.m_source.m_lines ∧
    (s.set_view x y).m_render = s.m_render ∧ (s.set_view x y).calls = s.calls := by
  simp only [scenario.set_view, scenario.setx, scenario.sety]
  split_ifs <;> simp

theorem abroad_eq_false (s : scenario) (x y : Int) :
    s.abroad x y = false ↔ 0 ≤ x ∧ x < s.width ∧ 0 ≤ y ∧ y < s.height := by
  simp only [scenario.abroad, Bool.or_eq_false_iff, decide_eq_false_iff_not]
  omega

theorem set_view_abroad (s : scenario) (a b x y : Int) :
    (s.set_view a b).abroad x y = s.abroad x y := by
  obtain ⟨hw, hh, -⟩ := set_view_frame s a b
  simp only [scenario.abroad, hw, hh]

/-- The destination of a step from inside the grid is outside the grid exactly
when the `int` sum is. -/
theorem wrapped_step_inside (p d w : Int) (hp : 0 ≤ p ∧ p < w) (hw : is_int w) (hd : is_int d) :
    (0 ≤ wrap_int (p + d) ∧ wrap_int (p + d) < w) ↔ (0 ≤ p + d ∧ p + d < w) := by
  simp only [is_int, INT_MIN, INT_MAX] at hw hd
  simp only [wrap_int]
  omega
/-- A `move_player` call that comes back, with the `turn()` of the model,
leaves the player inside the grid. -/
theorem move_player_stays_inside (env : play_env) (s s' : scenario) (player : object)
    (dx dy : Int) (hp : s.m_objects.get? s.m_player = some player)
    (hin : s.abroad player.x player.y = false)
    (h : s.move_player (scenario.turn env) dx dy = .ok s') :
    ∃ player', s'.m_objects.get? s'.m_player = some player' ∧
      s'.abroad player'.x player'.y = false := by
  unfold scenario.move_player at h
  simp only [hp] at h
  generalize hv : s.set_view (wrap_int (player.x - Int.tdiv s.m_cols 2))
    (wrap_int (player.y - Int.tdiv s.m_lines 2)) = sv at h
  have hfr := set_view_frame s (wrap_int (player.x - Int.tdiv s.m_cols 2))
    (wrap_int (player.y - Int.tdiv s.m_lines 2))
  rw [hv] at hfr
  obtain ⟨hw, hh, hc, hl, ho, -, hpl⟩ := hfr
  have hab : ∀ a b, sv.abroad a b = s.abroad a b := by
    intro a b; simp only [scenario.abroad, hw, hh]
  have hlen : s.m_player < s.m_objects.length := by
    rw [List.get?_eq_getElem?] at hp
    exact (List.getElem?_eq_some.1 hp).1
  by_cases hout : sv.abroad (wrap_int (player.x + dx)) (wrap_int (player.y + dy)) = true
  · rw [if_pos hout] at h
    cases h
    exact ⟨player, by rw [ho, hpl]; exact hp, by rw [hab]; exact hin⟩
  · rw [if_neg hout] at h
    have hout' : s.abroad (wrap_int (player.x + dx)) (wrap_int (player.y + dy)) = false := by
      rw [← hab]; simpa using hout
    cases hcell : sv.m_source.at (wrap_int (player.x + dx)) (wrap_int (player.y + dy)) with
    | none => simp only [hcell] at h; cases h
    | some cell =>
      simp only [hcell] at h
      by_cases hmv : cell.symbol ∈ player.unpassable
      · simp only [object.move, hmv, if_true, Bool.false_eq_true, if_false, Except.ok.injEq] at h
        subst h
        refine ⟨player, ?_, ?_⟩
        · show (sv.m_objects.set sv.m_player player).get? sv.m_player = some player
          rw [ho, hpl, List.get?_eq_getElem?, List.getElem?_set_self hlen]
        · show sv.abroad player.x player.y = false
          rw [hab]; exact hin
      · simp only [object.move, hmv, if_false, if_true] at h
        obtain ⟨f1, f2, f3, f4, -⟩ := turn_frame env _ _ h
        refine ⟨{ player with x := wrap_int (player.x + dx), y := wrap_int (player.y + dy) },
          ?_, ?_⟩
        · rw [f1, f2, (set_view_frame _ _ _).2.2.2.2.1, (set_view_frame _ _ _).2.2.2.2.2.2]
          show (sv.m_objects.set sv.m_player _).get? sv.m_player = some _
          rw [ho, hpl, List.get?_eq_getElem?, List.getElem?_set_self hlen]
        · simp only [scenario.abroad, f3, f4, (set_view_frame _ _ _).1,
            (set_view_frame _ _ _).2.1]
          have := hout'
          simp only [scenario.abroad, ← hw, ← hh] at this
          exact this

/-- C11. For a player inside the grid and every step `(dx, dy)` of `int`
values whose destination `(px + dx, py + dy)` lies outside the grid,
`move_player` rejects the move: whatever `turn()` is, the call returns the
state in which the view has been brought back to the player and nothing else
has changed, so the position of the player and of every other entity is the
same, no cell is read (reading the destination would be undefined behaviour,
and the call returns), and no turn is played: nothing is rendered, no call goes
out, and no event changes its flag or its occurrence counter. Hence, with the
`turn()` of the model, the player is inside the grid after every `move_player`
call that returns. -/
theorem move_player_rejects_outside (s : scenario) (player : object)
    (hp : s.m_objects.get? s.m_player = some player)
    (hin : 0 ≤ player.x ∧ player.x < s.width ∧ 0 ≤ player.y ∧ player.y < s.height)
    (hw : is_int s.width) (hh : is_int s.height) :
    (∀ (turn : scenario → Except cpp_error scenario) (dx dy : Int), is_int dx → is_int dy →
      ¬ (0 ≤ player.x + dx ∧ player.x + dx < s.width ∧
          0 ≤ player.y + dy ∧ player.y + dy < s.height) →
      ∃ s', s.move_player turn dx dy = .ok s' ∧
        s' = s.set_view (wrap_int (player.x - Int.tdiv s.m_cols 2))
          (wrap_int (player.y - Int.tdiv s.m_lines 2)) ∧
        s'.m_objects = s.m_objects ∧ s'.m_player = s.m_player ∧ s'.m_events = s.m_events ∧
        s'.m_source.m_lines = s.m_source.m_lines ∧ s'.m_render = s.m_render ∧
        s'.calls = s.calls) ∧
    (∀ (env : play_env) (dx dy : Int) (s' : scenario),
      s.move_player (scenario.turn env) dx dy = .ok s' →
      ∃ player', s'.m_objects.get? s'.m_player = some player' ∧
        0 ≤ player'.x ∧ player'.x < s'.width ∧ 0 ≤ player'.y ∧ player'.y < s'.height) := by
  constructor
  · intro turn dx dy hdx hdy hout
    obtain ⟨f1, f2, f3, f4, f5, f6, f7⟩ := set_view_frame s
      (wrap_int (player.x - Int.tdiv s.m_cols 2)) (wrap_int (player.y - Int.tdiv s.m_lines 2))
    obtain ⟨g1, g2, g3⟩ := set_view_cells s
      (wrap_int (player.x - Int.tdiv s.m_cols 2)) (wrap_int (player.y - Int.tdiv s.m_lines 2))
    refine ⟨_, ?_, rfl, f5, f7, f6, g1, g2, g3⟩
    have hab : (s.set_view (wrap_int (player.x - Int.tdiv s.m_cols 2))
        (wrap_int (player.y - Int.tdiv s.m_lines 2))).abroad
        (wrap_int (player.x + dx)) (wrap_int (player.y + dy)) = true := by
      rw [set_view_abroad]
      cases hc : s.abroad (wrap_int (player.x + dx)) (wrap_int (player.y + dy))
      · rw [abroad_eq_false] at hc
        have h1 := (wrapped_step_inside player.x dx s.width ⟨hin.1, hin.2.1⟩ hw hdx).1
          ⟨hc.1, hc.2.1⟩
        have h2 := (wrapped_step_inside player.y dy s.height ⟨hin.2.2.1, hin.2.2.2⟩ hh hdy).1
          ⟨hc.2.2.1, hc.2.2.2⟩
        exact absurd ⟨h1.1, h1.2, h2.1, h2.2⟩ hout
      · rfl
    simp only [scenario.move_player, hp, hab, if_true]
  · intro env dx dy s' h
    obtain ⟨player', h1, h2⟩ := move_player_stays_inside env s s' player dx dy hp
      ((abroad_eq_false s _ _).2 hin) h
    exact ⟨player', h1, (abroad_eq_false s' _ _).1 h2⟩

/-- Witness of C11 at `fresh_play`, whose player stands at `(1, 1)` of the
3x3 grid. -/
theorem move_player_rejects_outside_witness :
    (∀ (turn : scenario → Except cpp_error scenario) (dx dy : Int), is_int dx → is_int dy →
      ¬ (0 ≤ player11.x + dx ∧ player11.x + dx < fresh_play.width ∧
          0 ≤ player11.y + dy ∧ player11.y + dy < fresh_play.height) →
      ∃ s', fresh_play.move_player turn dx dy = .ok s' ∧
        s' = fresh_play.set_view (wrap_int (player11.x - Int.tdiv fresh_play.m_cols 2))
          (wrap_int (player11.y - Int.tdiv fresh_play.m_lines 2)) ∧
        s'.m_objects = fresh_play.m_objects ∧ s'.m_player = fresh_play.m_player ∧
        s'.m_events = fresh_play.m_events ∧
        s'.m_source.m_lines = fresh_play.m_source.m_lines ∧
        s'.m_render = fresh_play.m_render ∧ s'.calls = fresh_play.calls) ∧
    (∀ (env : play_env) (dx dy : Int) (s' : scenario),
      fresh_play.move_player (scenario.turn env) dx dy = .ok s' →
      ∃ player', s'.m_objects.get? s'.m_player = some player' ∧
        0 ≤ player'.x ∧ player'.x < s'.width ∧ 0 ≤ player'.y ∧ player'.y < s'.height) :=
  move_player_rejects_outside fresh_play player11 (by decide) (by decide) (by decide)
    (by decide)

/-! ## Facts about the rays -/

theorem los_ray_x_spec (vx vy A B ix iy : Int) (hB : 0 ≤ B) (hBA : B ≤ A)
    (hA29 : A ≤ 536870912)
    (hix : ix = 1 ∨ ix = -1 ∨ (ix = 0 ∧ A = 0)) (hiy : iy = 1 ∨ iy = -1 ∨ iy = 0)
    (hvx : is_int (vx - A) ∧ is_int (vx + A)) (hvy : is_int (vy - B) ∧ is_int (vy + B)) :
    ∀ (fuel : Nat) (k m error : Int), 0 ≤ k → k ≤ A → 0 ≤ m → m ≤ B →
      error = 2 * B * (k + 1) - A * (2 * m + 1) → -2 * A ≤ error → error ≤ 2 * B →
      (A - k).toNat < fuel →
      ∃ path, los_ray_x (vx + ix * A) ix iy (2 * A) (2 * B) fuel (vx + ix * k) (vy + iy * m)
          error = some path ∧
        path.length = (A - k).toNat ∧
        ∀ (j : Nat) (c : Int × Int), path[j]? = some c →
          c.1 = vx + ix * (k + j + 1) ∧
          ∃ m', 0 ≤ m' ∧ m' ≤ B ∧ c.2 = vy + iy * m' ∧ (k + j + 1 = A → m' = B) := by
  simp only [is_int, INT_MIN, INT_MAX] at hvx hvy
  intro fuel
  induction fuel with
  | zero => intro k m error _ _ _ _ _ _ _ h; omega
  | succ fuel ih =>
    intro k m error hk0 hkA hm0 hmB herr hlo hhi hfuel
    by_cases hk : k = A
    · subst hk
      refine ⟨[], by simp only [los_ray_x, if_true], by simp, ?_⟩
      intro j c h; simp at h
    · have hkA' : k < A := by omega
      have hne : ¬ (vx + ix * k = vx + ix * A) := by
        rcases hix with h | h | h
        · subst h; omega
        · subst h; omega
        · omega
      simp only [los_ray_x, hne, if_false]
      have hpx : wrap_int (vx + ix * k + ix) = vx + ix * (k + 1) := by
        simp only [wrap_int]
        rcases hix with h | h | h
        · subst h; omega
        · subst h; omega
        · omega
      have key : ∃ m1 E1,
          (if (decide (error > 0) || decide (error = 0) && decide (ix > 0)) = true then
              wrap_int (vy + iy * m + iy) else vy + iy * m) = vy + iy * m1 ∧
          wrap_int ((if (decide (error > 0) || decide (error = 0) && decide (ix > 0)) = true
              then wrap_int (error - 2 * A) else error) + 2 * B) = E1 ∧
          0 ≤ m1 ∧ m1 ≤ B ∧ E1 = 2 * B * (k + 1 + 1) - A * (2 * m1 + 1) ∧
          -2 * A ≤ E1 ∧ E1 ≤ 2 * B := by
        by_cases hstep : error > 0 ∨ (error = 0 ∧ ix > 0)
        · have hb : (decide (error > 0) || decide (error = 0) && decide (ix > 0)) = true := by
            simpa using hstep
          have he0 : 0 ≤ error := by omega
          have hmlt : m < B := by
            by_contra hcon
            have hmB' : m = B := by omega
            subst hmB'
            have h1 : 0 ≤ m * (A - k - 1) := mul_nonneg hm0 (by omega)
            nlinarith
          refine ⟨m + 1, error - 2 * A + 2 * B, ?_, ?_, by omega, by omega, ?_, by omega,
            by omega⟩
          · rw [if_pos hb]
            simp only [wrap_int]
            rcases hiy with h | h | h
            · subst h; omega
            · subst h; omega
            · subst h; omega
          · rw [if_pos hb]
            simp only [wrap_int]
            omega
          · rw [herr]; ring
        · have hb : ¬ (decide (error > 0) || decide (error = 0) && decide (ix > 0)) = true := by
            simpa using hstep
          have he0 : error ≤ 0 := by
            by_contra hcon
            exact hstep (Or.inl (by omega))
          refine ⟨m, error + 2 * B, ?_, ?_, hm0, hmB, ?_, by omega, by omega⟩
          · rw [if_neg hb]
          · rw [if_neg hb]
            simp only [wrap_int]
            omega
          · rw [herr]; ring
      obtain ⟨m1, E1, hpy, hE, hm10, hm1B, hE1, hE1lo, hE1hi⟩ := key
      rw [hpx, hpy, hE]
      obtain ⟨path', hray, hlen, hcells⟩ :=
        ih (k + 1) m1 E1 (by omega) (by omega) hm10 hm1B hE1 hE1lo hE1hi (by omega)
      refine ⟨(vx + ix * (k + 1), vy + iy * m1) :: path', by rw [hray]; rfl, ?_, ?_⟩
      · simp only [List.length_cons, hlen]; omega
      · intro j c hc
        cases j with
        | zero =>
          simp only [List.getElem?_cons_zero, Option.some.injEq] at hc
          subst hc
          refine ⟨by simp, m1, hm10, hm1B, rfl, ?_⟩
          intro hkA1
          simp only [Nat.cast_zero, add_zero] at hkA1
          by_contra hcon
          have hlt : m1 ≤ B - 1 := by omega
          have h1 : 0 ≤ A * (B - 1 - m1) := mul_nonneg (by omega) (by omega)
          have hk1 : k + 1 = A := hkA1
          rw [hk1] at hE1
          nlinarith
        | succ j =>
          simp only [List.getElem?_cons_succ] at hc
          obtain ⟨h1, m', h2, h3, h4, h5⟩ := hcells j c hc
          refine ⟨?_, m', h2, h3, h4, ?_⟩
          · rw [h1]; push_cast; ring
          · intro h; apply h5; push_cast at h ⊢; omega

theorem los_ray_y_spec (vx vy A B ix iy : Int) (hB : 0 ≤ B) (hBA : B ≤ A)
    (hA29 : A ≤ 536870912)
    (hiy : iy = 1 ∨ iy = -1 ∨ (iy = 0 ∧ A = 0)) (hix : ix = 1 ∨ ix = -1 ∨ ix = 0)
    (hvy : is_int (vy - A) ∧ is_int (vy + A)) (hvx : is_int (vx - B) ∧ is_int (vx + B)) :
    ∀ (fuel : Nat) (k m error : Int), 0 ≤ k → k ≤ A → 0 ≤ m → m ≤ B →
      error = 2 * B * (k + 1) - A * (2 * m + 1) → -2 * A ≤ error → error ≤ 2 * B →
      (A - k).toNat < fuel →
      ∃ path, los_ray_y (vy + iy * A) ix iy (2 * B) (2 * A) fuel (vx + ix * m) (vy + iy * k)
          error = some path ∧
        path.length = (A - k).toNat ∧
        ∀ (j : Nat) (c : Int × Int), path[j]? = some c →
          c.2 = vy + iy * (k + j + 1) ∧
          ∃ m', 0 ≤ m' ∧ m' ≤ B ∧ c.1 = vx + ix * m' ∧ (k + j + 1 = A → m' = B) := by
  simp only [is_int, INT_MIN, INT_MAX] at hvy hvx
  intro fuel
  induction fuel with
  | zero => intro k m error _ _ _ _ _ _ _ h; omega
  | succ fuel ih =>
    intro k m error hk0 hkA hm0 hmB herr hlo hhi hfuel
    by_cases hk : k = A
    · subst hk
      refine ⟨[], by simp only [los_ray_y, if_true], by simp, ?_⟩
      intro j c h; simp at h
    · have hkA' : k < A := by omega
      have hne : ¬ (vy + iy * k = vy + iy * A) := by
        rcases hiy with h | h | h
        · subst h; omega
        · subst h; omega
        · omega
      simp only [los_ray_y, hne, if_false]
      have hpy : wrap_int (vy + iy * k + iy) = vy + iy * (k + 1) := by
        simp only [wrap_int]
        rcases hiy with h | h | h
        · subst h; omega
        · subst h; omega
        · omega
      have key : ∃ m1 E1,
          (if (decide (error > 0) || decide (error = 0) && decide (iy > 0)) = true then
              wrap_int (vx + ix * m + ix) else vx + ix * m) = vx + ix * m1 ∧
          wrap_int ((if (decide (error > 0) || decide (error = 0) && decide (iy > 0)) = true
              then wrap_int (error - 2 * A) else error) + 2 * B) = E1 ∧
          0 ≤ m1 ∧ m1 ≤ B ∧ E1 = 2 * B * (k + 1 + 1) - A * (2 * m1 + 1) ∧
          -2 * A ≤ E1 ∧ E1 ≤ 2 * B := by
        by_cases hstep : error > 0 ∨ (error = 0 ∧ iy > 0)
        · have hb : (decide (error > 0) || decide (error = 0) && decide (iy > 0)) = true := by
            simpa using hstep
          have he0 : 0 ≤ error := by omega
          have hmlt : m < B := by
            by_contra hcon
            have hmB' : m = B := by omega
            subst hmB'
            have h1 : 0 ≤ m * (A - k - 1) := mul_nonneg hm0 (by omega)
            nlinarith
          refine ⟨m + 1, error - 2 * A + 2 * B, ?_, ?_, by omega, by omega, ?_, by omega,
            by omega⟩
          · rw [if_pos hb]
            simp only [wrap_int]
            rcases hix with h | h | h
            · subst h; omega
            · subst h; omega
            · subst h; omega
          · rw [if_pos hb]
            simp only [wrap_int]
            omega
          · rw [herr]; ring
        · have hb : ¬ (decide (error > 0) || decide (error = 0) && decide (iy > 0)) = true := by
            simpa using hstep
          have he0 : error ≤ 0 := by
            by_contra hcon
            exact hstep (Or.inl (by omega))
          refine ⟨m, error + 2 * B, ?_, ?_, hm0, hmB, ?_, by omega, by omega⟩
          · rw [if_neg hb]
          · rw [if_neg hb]
            simp only [wrap_int]
            omega
          · rw [herr]; ring
      obtain ⟨m1, E1, hpx, hE, hm10, hm1B, hE1, hE1lo, hE1hi⟩ := key
      rw [hpy, hpx, hE]
      obtain ⟨path', hray, hlen, hcells⟩ :=
        ih (k + 1) m1 E1 (by omega) (by omega) hm10 hm1B hE1 hE1lo hE1hi (by omega)
      refine ⟨(vx + ix * m1, vy + iy * (k + 1)) :: path', by rw [hray]; rfl, ?_, ?_⟩
      · simp only [List.length_cons, hlen]; omega
      · intro j c hc
        cases j with
        | zero =>
          simp only [List.getElem?_cons_zero, Option.some.injEq] at hc
          subst hc
          refine ⟨by simp, m1, hm10, hm1B, rfl, ?_⟩
          intro hkA1
          simp only [Nat.cast_zero, add_zero] at hkA1
          by_contra hcon
          have hlt : m1 ≤ B - 1 := by omega
          have h1 : 0 ≤ A * (B - 1 - m1) := mul_nonneg (by omega) (by omega)
          have hk1 : k + 1 = A := hkA1
          rw [hk1] at hE1
          nlinarith
        | succ j =>
          simp only [List.getElem?_cons_succ] at hc
          obtain ⟨h1, m', h2, h3, h4, h5⟩ := hcells j c hc
          refine ⟨?_, m', h2, h3, h4, ?_⟩
          · rw [h1]; push_cast; ring
          · intro h; apply h5; push_cast at h ⊢; omega

theorem los_sign_mul_natAbs (d : Int) : d = los_sign d * (d.natAbs : Int) := by
  simp only [los_sign]
  split_ifs <;> omega

theorem los_sign_cases (d : Int) :
    los_sign d = 1 ∨ los_sign d = -1 ∨ (los_sign d = 0 ∧ (d.natAbs : Int) = 0) := by
  simp only [los_sign]
  split_ifs <;> omega

theorem step_square_le (i k A : Int) (hi : i = 1 ∨ i = -1 ∨ i = 0) (hk0 : 0 ≤ k)
    (hkA : k ≤ A) : (i * k) * (i * k) ≤ (i * A) * (i * A) := by
  have h : k * k ≤ A * A := mul_le_mul hkA hkA hk0 (by omega)
  rcases hi with h1 | h1 | h1
  · subst h1; simpa using h
  · subst h1; simpa using h
  · subst h1; simp

theorem natAbs_bounds (d R : Int) (h : -R ≤ d ∧ d ≤ R) :
    0 ≤ (d.natAbs : Int) ∧ (d.natAbs : Int) ≤ R := by omega

theorem wrap_int_small (d : Int) (h : -536870912 ≤ d ∧ d ≤ 536870912) : wrap_int d = d := by
  simp only [wrap_int]; omega

theorem wrap_int_double (A : Int) (h0 : 0 ≤ A) (h1 : A ≤ 536870912) :
    wrap_int (2 * wrap_int A) = 2 * A := by
  simp only [wrap_int]; omega

theorem wrap_int_first_error (A B : Int) (hA : 0 ≤ A ∧ A ≤ 536870912)
    (hB : 0 ≤ B ∧ B ≤ 536870912) :
    wrap_int (2 * B - 2 * A / 2) = 2 * B * (0 + 1) - A * (2 * 0 + 1) := by
  simp only [wrap_int]; omega

theorem is_int_between (v R A : Int) (h1 : is_int (v - R)) (h2 : is_int (v + R))
    (hA : 0 ≤ A ∧ A ≤ R) : is_int (v - A) ∧ is_int (v + A) := by
  simp only [is_int, INT_MIN, INT_MAX] at h1 h2 ⊢
  omega

/-- The ray to a target near the viewer: it exists, it stays in the box that
the viewer and the target span, it ends at the target, and its positions move
away from the viewer by one step each along one of the axes. -/
theorem los_ray_spec (viewer : object) (x y R : Int) (hR : R ≤ 536870912)
    (hx : -R ≤ x - viewer.x ∧ x - viewer.x ≤ R) (hy : -R ≤ y - viewer.y ∧ y - viewer.y ≤ R)
    (hvx : is_int (viewer.x - R) ∧ is_int (viewer.x + R))
    (hvy : is_int (viewer.y - R) ∧ is_int (viewer.y + R)) :
    ∃ path, los_ray viewer x y = some path ∧
      (∀ (j : Nat) (c : Int × Int), path[j]? = some c →
        (c.1 - viewer.x) * (c.1 - viewer.x) ≤ (x - viewer.x) * (x - viewer.x) ∧
        (c.2 - viewer.y) * (c.2 - viewer.y) ≤ (y - viewer.y) * (y - viewer.y)) ∧
      (¬ (x = viewer.x ∧ y = viewer.y) → (x, y) ∈ path) ∧
      ((∀ (j : Nat) (c : Int × Int), path[j]? = some c → (c.1 - viewer.x).natAbs = j + 1) ∨
       (∀ (j : Nat) (c : Int × Int), path[j]? = some c → (c.2 - viewer.y).natAbs = j + 1)) := by
  obtain ⟨hA0, hAR⟩ := natAbs_bounds (x - viewer.x) R hx
  obtain ⟨hB0, hBR⟩ := natAbs_bounds (y - viewer.y) R hy
  have hwx : wrap_int (x - viewer.x) = x - viewer.x := wrap_int_small _ (by omega)
  have hwy : wrap_int (y - viewer.y) = y - viewer.y := wrap_int_small _ (by omega)
  simp only [los_ray, hwx, hwy]
  have hAx := wrap_int_double ((x - viewer.x).natAbs : Int) hA0 (by omega)
  have hAy := wrap_int_double ((y - viewer.y).natAbs : Int) hB0 (by omega)
  have hxe := los_sign_mul_natAbs (x - viewer.x)
  have hye := los_sign_mul_natAbs (y - viewer.y)
  have hix := los_sign_cases (x - viewer.x)
  have hiy := los_sign_cases (y - viewer.y)
  have hvxA := is_int_between viewer.x R _ hvx.1 hvx.2 ⟨hA0, hAR⟩
  have hvyB := is_int_between viewer.y R _ hvy.1 hvy.2 ⟨hB0, hBR⟩
  clear hvx hvy hx hy
  generalize ((x - viewer.x).natAbs : Int) = A at *
  generalize ((y - viewer.y).natAbs : Int) = B at *
  generalize los_sign (x - viewer.x) = ix at *
  generalize los_sign (y - viewer.y) = iy at *
  have hxx : x = viewer.x + ix * A := by linarith
  have hyy : y = viewer.y + iy * B := by linarith
  have hA29 : A ≤ 536870912 := le_trans hAR hR
  have hB29 : B ≤ 536870912 := le_trans hBR hR
  simp only [hAx, hAy]
  by_cases hmaj : 2 * A ≥ 2 * B
  · rw [if_pos hmaj]
    have he := wrap_int_first_error A B ⟨hA0, hA29⟩ ⟨hB0, hB29⟩
    obtain ⟨path, hray, hlen, hcells⟩ := los_ray_x_spec viewer.x viewer.y A B ix iy hB0
      (by omega) hA29 hix
      (by rcases hiy with h | h | h; exact Or.inl h; exact Or.inr (Or.inl h); exact Or.inr (Or.inr h.1))
      hvxA hvyB
      4294967296 0 0 (2 * B * (0 + 1) - A * (2 * 0 + 1)) (le_refl _) hA0 (le_refl _) hB0 rfl
      (by omega) (by omega) (by omega)
    simp only [mul_zero, add_zero] at hray he
    rw [← hxx] at hray
    rw [he]
    refine ⟨path, hray, ?_, ?_, Or.inl ?_⟩
    · intro j c hc
      obtain ⟨h1, m', h2, h3, h4, -⟩ := hcells j c hc
      have hjl : j < path.length := (List.getElem?_eq_some.1 hc).1
      have hjA : (j : Int) + 1 ≤ A := by omega
      have e1 : c.1 - viewer.x = ix * ((j : Int) + 1) := by rw [h1]; ring
      have e2 : c.2 - viewer.y = iy * m' := by rw [h4]; ring
      rw [e1, e2, hxe, hye]
      exact ⟨step_square_le ix _ A (by omega) (by omega) hjA,
        step_square_le iy m' B (by omega) h2 h3⟩
    · intro hne
      have hA1 : 1 ≤ A := by
        by_contra hcon
        have hA' : A = 0 := by omega
        have hB' : B = 0 := by omega
        apply hne
        rw [hxx, hyy, hA', hB']
        simp
      have hlt : (A - 1).toNat < path.length := by omega
      obtain ⟨h1, m', h2, h3, h4, h5⟩ := hcells (A - 1).toNat (path[(A - 1).toNat])
        (List.getElem?_eq_getElem hlt)
      have hcast : (((A - 1).toNat : Nat) : Int) = A - 1 := by omega
      have hm' := h5 (by rw [hcast]; ring)
      have hcx : (path[(A - 1).toNat]).1 = viewer.x + ix * A := by
        rw [h1, hcast]; ring_nf
      have hcy : (path[(A - 1).toNat]).2 = viewer.y + iy * B := by rw [h4, hm']
      have : path[(A - 1).toNat] = (viewer.x + ix * A, viewer.y + iy * B) :=
        Prod.ext hcx hcy
      rw [hxx, hyy, ← this]
      exact List.getElem_mem hlt
    · intro j c hc
      obtain ⟨h1, -⟩ := hcells j c hc
      have hjl : j < path.length := (List.getElem?_eq_some.1 hc).1
      rw [h1]
      rcases hix with h | h | h
      · subst h; omega
      · subst h; omega
      · omega
  · rw [if_neg hmaj]
    have he := wrap_int_first_error B A ⟨hB0, hB29⟩ ⟨hA0, hA29⟩
    obtain ⟨path, hray, hlen, hcells⟩ := los_ray_y_spec viewer.x viewer.y B A ix iy hA0
      (by omega) hB29 hiy
      (by rcases hix with h | h | h; exact Or.inl h; exact Or.inr (Or.inl h); exact Or.inr (Or.inr h.1))
      hvyB hvxA
      4294967296 0 0 (2 * A * (0 + 1) - B * (2 * 0 + 1)) (le_refl _) hB0 (le_refl _) hA0 rfl
      (by omega) (by omega) (by omega)
    simp only [mul_zero, add_zero] at hray he
    rw [← hyy] at hray
    rw [he]
    refine ⟨path, hray, ?_, ?_, Or.inr ?_⟩
    · intro j c hc
      obtain ⟨h1, m', h2, h3, h4, -⟩ := hcells j c hc
      have hjl : j < path.length := (List.getElem?_eq_some.1 hc).1
      have hjA : (j : Int) + 1 ≤ B := by omega
      have e1 : c.2 - viewer.y = iy * ((j : Int) + 1) := by rw [h1]; ring
      have e2 : c.1 - viewer.x = ix * m' := by rw [h4]; ring
      rw [e1, e2, hxe, hye]
      exact ⟨step_square_le ix m' A (by omega) h2 h3,
        step_square_le iy _ B (by omega) (by omega) hjA⟩
    · intro hne
      have hB1 : 1 ≤ B := by omega
      have hlt : (B - 1).toNat < path.length := by omega
      obtain ⟨h1, m', h2, h3, h4, h5⟩ := hcells (B - 1).toNat (path[(B - 1).toNat])
        (List.getElem?_eq_getElem hlt)
      have hcast : (((B - 1).toNat : Nat) : Int) = B - 1 := by omega
      have hm' := h5 (by rw [hcast]; ring)
      have hcy : (path[(B - 1).toNat]).2 = viewer.y + iy * B := by
        rw [h1, hcast]; ring_nf
      have hcx : (path[(B - 1).toNat]).1 = viewer.x + ix * A := by rw [h4, hm']
      have : path[(B - 1).toNat] = (viewer.x + ix * A, viewer.y + iy * B) :=
        Prod.ext hcx hcy
      rw [hxx, hyy, ← this]
      exact List.getElem_mem hlt
    · intro j c hc
      obtain ⟨h1, -⟩ := hcells j c hc
      have hjl : j < path.length := (List.getElem?_eq_some.1 hc).1
      rw [h1]
      rcases hiy with h | h | h
      · subst h; omega
      · subst h; omega
      · omega

theorem los_target_spec (s : scenario) (viewer : object) (x y : Int) (path : List (Int × Int))
    (hg : s.grid_ok) (hv : s.abroad viewer.x viewer.y = false)
    (hfar : los_far viewer.vision_range (wrap_int (x - viewer.x)) (wrap_int (y - viewer.y))
      = false)
    (hray : los_ray viewer x y = some path) :
    ∃ s', s.los_target viewer x y = .ok s' ∧
      s.los_ext (fun a b => (a, b) ∈ s.los_trace viewer x y path ∧ s.abroad a b = false) s' ∧
      ∀ c ∈ s.los_trace viewer x y path, s.abroad c.1 c.2 = false →
        s'.detected_at c.1 c.2 = true ∧ s'.lit_at c.1 c.2 = true := by
  simp only [scenario.los_target, hfar, Bool.false_eq_true, if_false]
  simp only [los_ray] at hray
  generalize wrap_int (2 * wrap_int ((wrap_int (x - viewer.x)).natAbs : Int)) = dX at hray ⊢
  generalize wrap_int (2 * wrap_int ((wrap_int (y - viewer.y)).natAbs : Int)) = dY at hray ⊢
  generalize los_sign (wrap_int (x - viewer.x)) = ix at hray ⊢
  generalize los_sign (wrap_int (y - viewer.y)) = iy at hray ⊢
  have hwalk : ∀ s1 : scenario, s1.grid_ok →
      ∃ s', (if dX ≥ dY then
            scenario.los_walk_x viewer x ix iy dX dY 4294967296 s1 viewer.x viewer.y
              (wrap_int (dY - dX / 2))
          else
            scenario.los_walk_y viewer y ix iy dX dY 4294967296 s1 viewer.x viewer.y
              (wrap_int (dX - dY / 2))) = .ok s' ∧
        s1.los_ext (fun a b => (a, b) ∈ upto_stop (s1.blocks viewer) path ∧ s1.abroad a b = false)
          s' ∧
        ∀ c ∈ upto_stop (s1.blocks viewer) path, s1.abroad c.1 c.2 = false →
          s'.detected_at c.1 c.2 = true ∧ s'.lit_at c.1 c.2 = true := by
    intro s1 hg1
    by_cases hmaj : dX ≥ dY
    · rw [if_pos hmaj] at hray ⊢
      exact los_walk_x_spec viewer x ix iy dX dY _ s1 _ _ _ path hg1 hray
    · rw [if_neg hmaj] at hray ⊢
      exact los_walk_y_spec viewer y ix iy dX dY _ s1 _ _ _ path hg1 hray
  by_cases hab : s.abroad x y = true
  · obtain ⟨s', hw, hext, hmark⟩ := hwalk s hg
    simp only [hab, Bool.not_true, Bool.false_eq_true, if_false]
    refine ⟨s', hw, ?_, ?_⟩
    · simpa only [scenario.los_trace, hab, if_true] using hext
    · simpa only [scenario.los_trace, hab, if_true] using hmark
  · have hab' : s.abroad x y = false := by simpa using hab
    obtain ⟨s1, hm, hext1, hd1, hl1⟩ := los_mark_spec s viewer viewer.x viewer.y hg hv
    simp only [hab', Bool.not_false, if_true, hm]
    by_cases hb : s.blocks viewer (viewer.x, viewer.y) = true
    · refine ⟨s1, by simp only [hb, if_true], ?_, ?_⟩
      · apply hext1.mono
        intro a b h
        simp only [scenario.los_trace, hab', Bool.false_eq_true, if_false, upto_stop, hb,
          if_true, List.mem_singleton, Prod.mk.injEq]
        exact ⟨h, by rw [h.1, h.2]; exact hv⟩
      · intro c hc _
        simp only [scenario.los_trace, hab', Bool.false_eq_true, if_false, upto_stop, hb,
          if_true, List.mem_singleton] at hc
        subst hc
        exact ⟨hd1, hl1⟩
    · have hb' : s.blocks viewer (viewer.x, viewer.y) = false := by simpa using hb
      have hbl : s1.blocks viewer = s.blocks viewer := funext (hext1.blocks viewer)
      obtain ⟨s2, hw, hext2, hmark2⟩ := hwalk s1 (hext1.grid_ok hg)
      rw [hbl] at hext2 hmark2
      refine ⟨s2, by simp only [hb', Bool.false_eq_true, if_false, hw], ?_, ?_⟩
      · apply @scenario.los_ext.trans _ s s1
        · apply hext1.mono
          intro a b h
          simp only [scenario.los_trace, hab', Bool.false_eq_true, if_false, upto_stop, hb',
            List.mem_cons, Prod.mk.injEq]
          exact ⟨Or.inl h, by rw [h.1, h.2]; exact hv⟩
        · apply hext2.mono
          intro a b h
          simp only [scenario.los_trace, hab', Bool.false_eq_true, if_false, upto_stop, hb',
            List.mem_cons]
          exact ⟨Or.inr h.1, by rw [← hext1.abroad]; exact h.2⟩
      · intro c hc hin
        simp only [scenario.los_trace, hab', Bool.false_eq_true, if_false, upto_stop, hb',
          List.mem_cons] at hc
        rcases hc with hc | hc
        · subst hc
          exact ⟨hext2.src_detected _ _ hd1, hext2.rnd_lit _ _ hl1⟩
        · exact hmark2 c hc (by rw [hext1.abroad]; exact hin)

theorem los_target_far (s : scenario) (viewer : object) (x y : Int)
    (hfar : los_far viewer.vision_range (wrap_int (x - viewer.x)) (wrap_int (y - viewer.y))
      = true) : s.los_target viewer x y = .ok s := by
  simp only [scenario.los_target, hfar, if_true]

theorem los_trace_congr {D : Int → Int → Prop} {s s1 : scenario} (h : s.los_ext D s1)
    (viewer : object) (x y : Int) (path : List (Int × Int)) :
    s1.los_trace viewer x y path = s.los_trace viewer x y path := by
  simp only [scenario.los_trace, h.abroad, funext (h.blocks viewer)]

theorem los_done_weaken (s s1 : scenario) (viewer : object) (D D' : Int → Int → Prop)
    (hD : ∀ a b, D' a b → D a b) (h : s.los_done s1 viewer D) : s.los_done s1 viewer D' :=
  ⟨h.1, fun x y path hd => h.2 x y path (hD x y hd)⟩

theorem los_done_step (s s1 : scenario) (viewer : object) (Done : Int → Int → Prop)
    (x y : Int) (hg : s.grid_ok) (hv : s.abroad viewer.x viewer.y = false)
    (hrays : ∀ x y, scenario.los_aims viewer x y → ∃ path, los_ray viewer x y = some path)
    (hinv : s.los_done s1 viewer Done)
    (hy : y ∈ int_range (wrap_int (viewer.y - viewer.vision_range))
      (wrap_int (viewer.y + viewer.vision_range)))
    (hx : x ∈ int_range (wrap_int (viewer.x - viewer.vision_range))
      (wrap_int (viewer.x + viewer.vision_range))) :
    ∃ s2, s1.los_target viewer x y = .ok s2 ∧
      s.los_done s2 viewer (fun a b => Done a b ∨ (a = x ∧ b = y)) := by
  obtain ⟨hext, hmarks⟩ := hinv
  cases hfar : los_far viewer.vision_range (wrap_int (x - viewer.x)) (wrap_int (y - viewer.y))
  · have haims : scenario.los_aims viewer x y := ⟨hy, hx, hfar⟩
    obtain ⟨path, hray⟩ := hrays x y haims
    obtain ⟨s2, ht, hext2, hmark2⟩ := los_target_spec s1 viewer x y path (hext.grid_ok hg)
      (by rw [hext.abroad]; exact hv) hfar hray
    rw [los_trace_congr hext] at hext2 hmark2
    refine ⟨s2, ht, ?_, ?_⟩
    · apply @scenario.los_ext.trans _ s s1 _ hext
      apply hext2.mono
      intro a b h
      exact ⟨x, y, path, haims, hray, h.1, by rw [← hext.abroad]; exact h.2⟩
    · intro x' y' path' hd haims' hray' c hc hin
      rcases hd with hd | hd
      · obtain ⟨h1, h2⟩ := hmarks x' y' path' hd haims' hray' c hc hin
        exact ⟨hext2.src_detected _ _ h1, hext2.rnd_lit _ _ h2⟩
      · obtain ⟨rfl, rfl⟩ := hd
        rw [hray] at hray'
        cases hray'
        exact hmark2 c hc (by rw [hext.abroad]; exact hin)
  · refine ⟨s1, los_target_far s1 viewer x y hfar, hext, ?_⟩
    intro x' y' path' hd haims' hray' c hc hin
    rcases hd with hd | hd
    · exact hmarks x' y' path' hd haims' hray' c hc hin
    · obtain ⟨rfl, rfl⟩ := hd
      rw [haims'.2.2] at hfar
      cases hfar

theorem los_done_row (s : scenario) (viewer : object) (y : Int) (hg : s.grid_ok)
    (hv : s.abroad viewer.x viewer.y = false)
    (hrays : ∀ x y, scenario.los_aims viewer x y → ∃ path, los_ray viewer x y = some path)
    (hy : y ∈ int_range (wrap_int (viewer.y - viewer.vision_range))
      (wrap_int (viewer.y + viewer.vision_range))) :
    ∀ (xs : List Int),
      (∀ x ∈ xs, x ∈ int_range (wrap_int (viewer.x - viewer.vision_range))
        (wrap_int (viewer.x + viewer.vision_range))) →
      ∀ (s1 : scenario) (Done : Int → Int → Prop), s.los_done s1 viewer Done →
      ∃ s2, xs.foldlM (fun s x => s.los_target viewer x y) s1 = .ok s2 ∧
        s.los_done s2 viewer (fun a b => Done a b ∨ (a ∈ xs ∧ b = y)) := by
  intro xs
  induction xs with
  | nil =>
    intro _ s1 Done hinv
    exact ⟨s1, rfl, los_done_weaken _ _ _ _ _ (fun a b h => by simpa using h) hinv⟩
  | cons x xs ih =>
    intro hxs s1 Done hinv
    obtain ⟨s2, ht, hinv2⟩ := los_done_step s s1 viewer Done x y hg hv hrays hinv hy
      (hxs x (by simp))
    obtain ⟨s3, hf, hinv3⟩ := ih (fun x' hx' => hxs x' (by simp [hx'])) s2 _ hinv2
    refine ⟨s3, by simp only [List.foldlM, bind, Except.bind, ht]; exact hf, ?_⟩
    apply los_done_weaken _ _ _ _ _ _ hinv3
    intro a b h
    simp only [List.mem_cons] at h
    tauto

theorem los_done_rows (s : scenario) (viewer : object) (hg : s.grid_ok)
    (hv : s.abroad viewer.x viewer.y = false)
    (hrays : ∀ x y, scenario.los_aims viewer x y → ∃ path, los_ray viewer x y = some path)
    (xs : List Int)
    (hxs : ∀ x ∈ xs, x ∈ int_range (wrap_int (viewer.x - viewer.vision_range))
        (wrap_int (viewer.x + viewer.vision_range))) :
    ∀ (ys : List Int),
      (∀ y ∈ ys, y ∈ int_range (wrap_int (viewer.y - viewer.vision_range))
        (wrap_int (viewer.y + viewer.vision_range))) →
      ∀ (s1 : scenario) (Done : Int → Int → Prop), s.los_done s1 viewer Done →
      ∃ s2, ys.foldlM (fun s y => xs.foldlM (fun s x => s.los_target viewer x y) s) s1 = .ok s2 ∧
        s.los_done s2 viewer (fun a b => Done a b ∨ (a ∈ xs ∧ b ∈ ys)) := by
  intro ys
  induction ys with
  | nil =>
    intro _ s1 Done hinv
    exact ⟨s1, rfl, los_done_weaken _ _ _ _ _ (fun a b h => by simpa using h) hinv⟩
  | cons y ys ih =>
    intro hys s1 Done hinv
    obtain ⟨s2, ht, hinv2⟩ := los_done_row s viewer y hg hv hrays (hys y (by simp)) xs hxs
      s1 Done hinv
    obtain ⟨s3, hf, hinv3⟩ := ih (fun y' hy' => hys y' (by simp [hy'])) s2 _ hinv2
    refine ⟨s3, by simp only [List.foldlM, bind, Except.bind, ht]; exact hf, ?_⟩
    apply los_done_weaken _ _ _ _ _ _ hinv3
    intro a b h
    simp only [List.mem_cons] at h
    tauto

/-- A line-of-sight pass for a viewer inside a well-formed grid, all of whose
rays exist: it comes back, it changes only cells on the traces, and it marks
every cell of the grid on a trace. -/
theorem render_los_spec (s : scenario) (viewer : object) (hg : s.grid_ok)
    (hv : s.abroad viewer.x viewer.y = false)
    (hrays : ∀ x y, scenario.los_aims viewer x y → ∃ path, los_ray viewer x y = some path) :
    ∃ s', s.render_los viewer = .ok s' ∧ s.los_ext (s.los_reached viewer) s' ∧
      ∀ a b, s.los_reached viewer a b → s'.detected_at a b = true ∧ s'.lit_at a b = true := by
  obtain ⟨s', hf, hext, hmarks⟩ := los_done_rows s viewer hg hv hrays _ (fun _ h => h) _
    (fun _ h => h) s (fun _ _ => False)
    ⟨scenario.los_ext.refl _ s, fun _ _ _ h => h.elim⟩
  refine ⟨s', hf, hext, ?_⟩
  rintro a b ⟨x, y, path, haims, hray, hmem, hin⟩
  exact hmarks x y path (Or.inr ⟨haims.2.1, haims.1⟩) haims hray (a, b) hmem hin

/-! ## Claims about the line of sight -/

theorem at_mem (m : character_map) (x y : Int) (t : tile) (h : m.at x y = some t) :
    ∃ line ∈ m.m_lines, t ∈ line := by
  unfold character_map.at at h
  split at h
  · cases h
  · cases hl : m.m_lines.get? y.toNat with
    | none => rw [hl] at h; cases h
    | some line =>
      rw [hl] at h
      exact ⟨line, List.get?_mem hl, List.get?_mem h⟩

theorem at_isSome_of_inside (s : scenario)
    (hrows : (s.m_source.m_lines.length : Int) = s.height)
    (hcols : ∀ line ∈ s.m_source.m_lines, (line.length : Int) = s.width)
    (x y : Int) (hin : s.abroad x y = false) : (s.m_source.at x y).isSome = true := by
  rw [abroad_eq_false] at hin
  have hy : y.toNat < s.m_source.m_lines.length := by omega
  have hl := hcols _ (List.getElem_mem hy)
  have hx : x.toNat < (s.m_source.m_lines[y.toNat]).length := by omega
  unfold character_map.at
  rw [if_neg (by omega)]
  simp only [List.get?_eq_getElem?, List.getElem?_eq_getElem hy, Option.bind,
    List.getElem?_eq_getElem hx, Option.isSome_some]

theorem upto_stop_of_open (blocked : Int × Int → Bool) (cs : List (Int × Int))
    (h : ∀ c ∈ cs, blocked c = false) : upto_stop blocked cs = cs := by
  induction cs with
  | nil => rfl
  | cons c cs ih =>
    simp only [upto_stop, h c (by simp), Bool.false_eq_true, if_false]
    rw [ih (fun c' hc' => h c' (by simp [hc']))]

theorem mem_int_range (lo hi v : Int) : v ∈ int_range lo hi ↔ lo ≤ v ∧ v < hi := by
  simp only [int_range, List.mem_map, List.mem_range]
  constructor
  · rintro ⟨i, hi', rfl⟩; omega
  · intro h
    exact ⟨(v - lo).toNat, by omega, by omega⟩

/-! ## The distance test of `render_los` in `double` values -/

theorem sqrt_bits_spec (n : Nat) :
    ∀ (k acc : Nat), acc * acc ≤ n → n < (acc + 2 ^ k) * (acc + 2 ^ k) →
      sqrt_bits n k acc * sqrt_bits n k acc ≤ n ∧
        n < (sqrt_bits n k acc + 1) * (sqrt_bits n k acc + 1) := by
  intro k
  induction k with
  | zero => intro acc h1 h2; simpa [sqrt_bits] using ⟨h1, h2⟩
  | succ k ih =>
    intro acc h1 h2
    rw [sqrt_bits]
    split
    · next h =>
      apply ih _ h
      rw [show acc + 2 ^ k + 2 ^ k = acc + 2 ^ (k + 1) by rw [pow_succ]; omega]
      exact h2
    · next h => exact ih _ h1 (by omega)

theorem sqrt_nearest_spec (n P : Nat) (hn : n < 2 ^ 106) (hP : 1 ≤ P) :
    P ≤ sqrt_nearest n ↔ P * P < n + P := by
  obtain ⟨h1, h2⟩ := sqrt_bits_spec n 53 0 (by simp) (by
    rw [Nat.zero_add, ← pow_add]; exact hn)
  obtain ⟨p, rfl⟩ : ∃ p, P = p + 1 := ⟨P - 1, by omega⟩
  simp only [sqrt_nearest]
  generalize sqrt_bits n 53 0 = f at h1 h2
  split
  · next h =>
    constructor
    · intro hle
      obtain ⟨t, rfl⟩ : ∃ t, f = p + t := ⟨f - p, by omega⟩
      nlinarith
    · intro hlt
      by_contra hcon
      obtain ⟨t, rfl⟩ : ∃ t, p = f + 1 + t := ⟨p - (f + 1), by omega⟩
      nlinarith
  · next h =>
    constructor
    · intro hle
      obtain ⟨t, rfl⟩ : ∃ t, f = p + 1 + t := ⟨f - (p + 1), by omega⟩
      nlinarith
    · intro hlt
      by_contra hcon
      obtain ⟨t, rfl⟩ : ∃ t, p = f + t := ⟨p - f, by omega⟩
      nlinarith

theorem double_places_le (d : Nat) : ∀ n, double_places d n ≤ n := by
  intro n
  induction n with
  | zero => simp [double_places]
  | succ n ih => rw [double_places]; split <;> omega

theorem double_places_small (d : Nat) (hd : d < 2 ^ 106) :
    ∀ n, d * 4 ^ double_places d n < 2 ^ 106 := by
  intro n
  induction n with
  | zero => simpa [double_places] using hd
  | succ n ih => rw [double_places]; split <;> assumption

theorem double_places_ge (d j : Nat) (hj : d * 4 ^ j < 2 ^ 106) :
    ∀ n, j ≤ n → j ≤ double_places d n := by
  intro n
  induction n with
  | zero => intro h; simpa [double_places] using h
  | succ n ih =>
    intro h
    rw [double_places]
    split
    · exact h
    · next hlt =>
      apply ih
      by_contra hcon
      have : j = n + 1 := by omega
      subst this
      exact hlt hj

theorem std_round_nonneg (v : Nat × Nat) : 0 ≤ std_round v := by
  simp only [std_round]; exact Int.ofNat_nonneg _

theorem los_far_of_nonpos (r dx dy : Int) (hr : r ≤ 0) : los_far r dx dy = true := by
  simp only [los_far, decide_eq_true_eq, ge_iff_le]
  exact le_trans hr (std_round_nonneg _)

/-- The arithmetic behind the test in `double` values: with `X = 2 ^ j` at
least `Q`, the nearest integer to the square root of `d * (2 X) ^ 2` reaches
`Q * X` exactly when `Q * Q ≤ 4 * d`. -/
theorem scaled_square_test (d Q X : Nat) (hQ : 1 ≤ Q) (hX : 1 ≤ X)
    (hbig : 4 * d < Q * Q → Q ≤ X) :
    (Q * X) * (Q * X) < d * (4 * (X * X)) + Q * X ↔ Q * Q ≤ 4 * d := by
  constructor
  · intro h
    by_contra hcon
    have hlt : 4 * d < Q * Q := by omega
    have hQX := hbig hlt
    have h1 : (4 * d + 1) * (X * X) ≤ (Q * Q) * (X * X) := Nat.mul_le_mul_right _ (by omega)
    have h2 : Q * X ≤ X * X := Nat.mul_le_mul_right _ hQX
    have e1 : (Q * X) * (Q * X) = (Q * Q) * (X * X) := by ring
    have e2 : (4 * d + 1) * (X * X) = d * (4 * (X * X)) + X * X := by ring
    omega
  · intro h
    have h1 : (Q * Q) * (X * X) ≤ (4 * d) * (X * X) := Nat.mul_le_mul_right _ h
    have e1 : (Q * X) * (Q * X) = (Q * Q) * (X * X) := by ring
    have e2 : (4 * d) * (X * X) = d * (4 * (X * X)) := by ring
    have h3 : 1 ≤ Q * X := Nat.mul_pos hQ hX
    omega

/-- For a vision range from 1 to `2 ^ 25` the test in `double` values is the
exact one: `round(hypot(dx, dy)) >= r` holds exactly when
`(2 r - 1) ^ 2 ≤ 4 (dx ^ 2 + dy ^ 2)`. -/
theorem los_far_exact (r dx dy : Int) (hr1 : 1 ≤ r) (hr25 : r ≤ 33554432)
    (hdx : dx.natAbs ≤ 2147483648) (hdy : dy.natAbs ≤ 2147483648) :
    los_far r dx dy = true ↔ (2 * r - 1) * (2 * r - 1) ≤ 4 * (dx * dx + dy * dy) := by
  obtain ⟨R, rfl⟩ : ∃ R : Nat, r = ((R + 1 : Nat) : Int) := ⟨(r - 1).toNat, by omega⟩
  have hR : R + 1 ≤ 33554432 := by exact_mod_cast hr25
  have hxx : dx * dx = ((dx.natAbs * dx.natAbs : Nat) : Int) := by
    rw [Nat.cast_mul]; exact (Int.natAbs_mul_self' dx).symm
  have hyy : dy * dy = ((dy.natAbs * dy.natAbs : Nat) : Int) := by
    rw [Nat.cast_mul]; exact (Int.natAbs_mul_self' dy).symm
  have hsum : dx * dx + dy * dy
      = ((dx.natAbs * dx.natAbs + dy.natAbs * dy.natAbs : Nat) : Int) := by
    rw [Nat.cast_add, ← hxx, ← hyy]
  rw [hsum]
  simp only [los_far, std_hypot, std_round, decide_eq_true_eq, ge_iff_le]
  have hA : dx.natAbs * dx.natAbs ≤ 2147483648 * 2147483648 := Nat.mul_le_mul hdx hdx
  have hB : dy.natAbs * dy.natAbs ≤ 2147483648 * 2147483648 := Nat.mul_le_mul hdy hdy
  clear hsum hxx hyy hdx hdy hr1 hr25
  generalize dx.natAbs * dx.natAbs = A at *
  generalize dy.natAbs * dy.natAbs = B at *
  have hd : A + B ≤ 9223372036854775808 := by norm_num at hA hB; omega
  clear hA hB
  generalize A + B = d at *
  have hd106 : d < 2 ^ 106 := lt_of_le_of_lt hd (by norm_num)
  have hk21 : 21 ≤ double_places d 52 := by
    apply double_places_ge d 21 _ 52 (by norm_num)
    calc d * 4 ^ 21 ≤ 9223372036854775808 * 4 ^ 21 := Nat.mul_le_mul_right _ hd
      _ < 2 ^ 106 := by norm_num
  have hsmall := double_places_small d hd106 52
  have hbig : 4 * d < (2 * R + 1) * (2 * R + 1) → 28 ≤ double_places d 52 := by
    intro h
    have hQ : 2 * R + 1 ≤ 67108863 := by omega
    have hQQ : (2 * R + 1) * (2 * R + 1) ≤ 67108863 * 67108863 := Nat.mul_le_mul hQ hQ
    have hd50 : d ≤ 1125899906842623 := by norm_num at hQQ; omega
    apply double_places_ge d 28 _ 52 (by norm_num)
    calc d * 4 ^ 28 ≤ 1125899906842623 * 4 ^ 28 := Nat.mul_le_mul_right _ hd50
      _ < 2 ^ 106 := by norm_num
  generalize double_places d 52 = k at *
  obtain ⟨j, rfl⟩ : ∃ j, k = j + 1 := ⟨k - 1, by omega⟩
  have hX : 1 ≤ 2 ^ j := Nat.one_le_two_pow
  have e4 : 4 ^ (j + 1) = 4 * (2 ^ j * 2 ^ j) := by
    rw [pow_succ, show (4 : Nat) = 2 * 2 by rfl, mul_pow]; ring
  have e2 : 2 ^ (j + 1) = 2 * 2 ^ j := by rw [pow_succ]; ring
  have e22 : 2 ^ (j + 1 + 1) = 4 * 2 ^ j := by rw [pow_succ, pow_succ]; ring
  have hspec := sqrt_nearest_spec (d * 4 ^ (j + 1)) ((2 * R + 1) * 2 ^ j) hsmall
    (Nat.mul_pos (by omega) hX)
  have htest := scaled_square_test d (2 * R + 1) (2 ^ j) (by omega) hX (by
    intro h
    have h28 := hbig h
    have h27 : 27 ≤ j := by omega
    have : 2 ^ 27 ≤ 2 ^ j := Nat.pow_le_pow_right (by norm_num) h27
    norm_num at this
    omega)
  rw [e4] at hspec hsmall ⊢
  have htest := hspec.trans htest
  clear hspec hsmall hbig hk21 e4
  generalize sqrt_nearest (d * (4 * (2 ^ j * 2 ^ j))) = m at *
  rw [e2, e22, Int.ofNat_le, Nat.le_div_iff_mul_le (by omega)]
  have e5 : (R + 1) * (4 * 2 ^ j) ≤ 2 * m + 2 * 2 ^ j ↔ (2 * R + 1) * 2 ^ j ≤ m := by
    have : (R + 1) * (4 * 2 ^ j) = 2 * ((2 * R + 1) * 2 ^ j) + 2 * 2 ^ j := by ring
    omega
  rw [e5, htest]
  constructor
  · intro h
    have : (((2 * R + 1) * (2 * R + 1) : Nat) : Int) ≤ ((4 * d : Nat) : Int) := by
      exact_mod_cast h
    push_cast at this ⊢
    linarith
  · intro h
    have h' : (((2 * R + 1) * (2 * R + 1) : Nat) : Int) ≤ ((4 * d : Nat) : Int) := by
      push_cast at h ⊢
      linarith
    exact_mod_cast h'

theorem natAbs_le_of_bounds (d r : Int) (h1 : -r ≤ d) (h2 : d ≤ r) (hr : r ≤ 33554432) :
    d.natAbs ≤ 2147483648 := by
  omega

/-- A step that lies inside the disk of the vision range is shorter than the
range. -/
theorem disk_coordinate (d e r : Int) (hr : 1 ≤ r)
    (h : 4 * (d * d + e * e) < (2 * r - 1) * (2 * r - 1)) : -r < d ∧ d < r := by
  have he : 0 ≤ e * e := mul_self_nonneg e
  constructor
  · by_contra hcon
    have h1 : r ≤ -d := by omega
    have h2 : r * r ≤ (-d) * (-d) := mul_le_mul h1 h1 (by omega) (by omega)
    nlinarith
  · by_contra hcon
    have h1 : r ≤ d := by omega
    have h2 : r * r ≤ d * d := mul_le_mul h1 h1 (by omega) (by omega)
    nlinarith
/-- C12 (amended). For a grid with no blocking symbol (a rectangular grid,
with the render copy that `render()` makes of it), a viewer standing inside
the grid and every vision range `r` with `1 ≤ r ≤ 2 ^ 25` (and `x + r`, `y + r`
of the viewer in the `int` range), one line-of-sight pass that starts from no
detected cell comes back, and afterwards the detected cells of the grid are
exactly the cells `(x, y)` of the grid with
`4 * ((x - px) ^ 2 + (y - py) ^ 2) < (2 * r - 1) ^ 2`: up to this range the
test `round(hypot(x - px, y - py)) >= r` in `double` values is the exact one.
Every such cell is marked, detected in the grid and visible in the render
copy, by the trace aimed at it, and no trace changes a cell outside that
disk. -/
theorem open_grid_detects_disk (s : scenario) (viewer : object)
    (hrender : s.m_render = some s.m_source)
    (hrows : (s.m_source.m_lines.length : Int) = s.height)
    (hcols : ∀ line ∈ s.m_source.m_lines, (line.length : Int) = s.width)
    (hv : 0 ≤ viewer.x ∧ viewer.x < s.width ∧ 0 ≤ viewer.y ∧ viewer.y < s.height)
    (hopen : ∀ line ∈ s.m_source.m_lines, ∀ t ∈ line, viewer.visible t.symbol = true)
    (hnone : ∀ line ∈ s.m_source.m_lines, ∀ t ∈ line, t.detected = false)
    (hr1 : 1 ≤ viewer.vision_range) (hr25 : viewer.vision_range ≤ 33554432)
    (hvx : viewer.x + viewer.vision_range ≤ INT_MAX)
    (hvy : viewer.y + viewer.vision_range ≤ INT_MAX) :
    ∃ s', s.render_los viewer = .ok s' ∧
      (∀ x y, s.abroad x y = false →
        (s'.detected_at x y = true ↔
          4 * ((x - viewer.x) ^ 2 + (y - viewer.y) ^ 2) < (2 * viewer.vision_range - 1) ^ 2) ∧
        (4 * ((x - viewer.x) ^ 2 + (y - viewer.y) ^ 2) < (2 * viewer.vision_range - 1) ^ 2 →
          s'.lit_at x y = true)) ∧
      (∀ x y,
        ¬ 4 * ((x - viewer.x) ^ 2 + (y - viewer.y) ^ 2) < (2 * viewer.vision_range - 1) ^ 2 →
        s'.m_source.at x y = s.m_source.at x y ∧ s'.render_at x y = s.render_at x y) := by
  have hr29 : viewer.vision_range ≤ 536870912 := by omega
  have hgrid : s.grid_ok := by
    intro x y hin
    have h1 := at_isSome_of_inside s hrows hcols x y hin
    refine ⟨h1, ?_⟩
    simp only [scenario.render_at, hrender, Option.bind]
    exact h1
  have hvin : s.abroad viewer.x viewer.y = false := (abroad_eq_false s _ _).2 hv
  have hblocks : ∀ c, s.blocks viewer c = false := by
    intro c
    simp only [scenario.blocks]
    cases hc : s.m_source.at c.1 c.2 with
    | none => simp
    | some t =>
      obtain ⟨line, hl, ht⟩ := at_mem _ _ _ _ hc
      simp [hopen line hl t ht]
  have hlo_x : wrap_int (viewer.x - viewer.vision_range) = viewer.x - viewer.vision_range := by
    simp only [INT_MAX] at hvx; simp only [wrap_int]; omega
  have hhi_x : wrap_int (viewer.x + viewer.vision_range) = viewer.x + viewer.vision_range := by
    simp only [INT_MAX] at hvx; simp only [wrap_int]; omega
  have hlo_y : wrap_int (viewer.y - viewer.vision_range) = viewer.y - viewer.vision_range := by
    simp only [INT_MAX] at hvy; simp only [wrap_int]; omega
  have hhi_y : wrap_int (viewer.y + viewer.vision_range) = viewer.y + viewer.vision_range := by
    simp only [INT_MAX] at hvy; simp only [wrap_int]; omega
  have hisx : is_int (viewer.x - viewer.vision_range) ∧ is_int (viewer.x + viewer.vision_range) := by
    simp only [is_int, INT_MIN, INT_MAX] at hvx ⊢; omega
  have hisy : is_int (viewer.y - viewer.vision_range) ∧ is_int (viewer.y + viewer.vision_range) := by
    simp only [is_int, INT_MIN, INT_MAX] at hvy ⊢; omega
  have hnear : ∀ x y, scenario.los_aims viewer x y →
      (-viewer.vision_range ≤ x - viewer.x ∧ x - viewer.x ≤ viewer.vision_range) ∧
      (-viewer.vision_range ≤ y - viewer.y ∧ y - viewer.y ≤ viewer.vision_range) := by
    intro x y h
    obtain ⟨h1, h2, -⟩ := h
    rw [hlo_y, hhi_y, mem_int_range] at h1
    rw [hlo_x, hhi_x, mem_int_range] at h2
    omega
  have hspec : ∀ x y, scenario.los_aims viewer x y → _ := fun x y h =>
    los_ray_spec viewer x y viewer.vision_range hr29 (hnear x y h).1 (hnear x y h).2 hisx hisy
  have hrays : ∀ x y, scenario.los_aims viewer x y → ∃ path, los_ray viewer x y = some path :=
    fun x y h => let ⟨path, hp, _⟩ := hspec x y h; ⟨path, hp⟩
  have hdisk_of_aims : ∀ x y, scenario.los_aims viewer x y →
      4 * ((x - viewer.x) * (x - viewer.x) + (y - viewer.y) * (y - viewer.y))
        < (2 * viewer.vision_range - 1) * (2 * viewer.vision_range - 1) := by
    intro x y h
    have hn := hnear x y h
    have hf := h.2.2
    have e1 : wrap_int (x - viewer.x) = x - viewer.x := wrap_int_small _ (by omega)
    have e2 : wrap_int (y - viewer.y) = y - viewer.y := wrap_int_small _ (by omega)
    rw [e1, e2] at hf
    by_contra hcon
    rw [(los_far_exact _ _ _ hr1 hr25
      (natAbs_le_of_bounds _ _ hn.1.1 hn.1.2 hr25)
      (natAbs_le_of_bounds _ _ hn.2.1 hn.2.2 hr25)).2 (not_lt.1 hcon)] at hf
    cases hf
  have hreach : ∀ a b, s.los_reached viewer a b ↔
      (s.abroad a b = false ∧
        4 * ((a - viewer.x) * (a - viewer.x) + (b - viewer.y) * (b - viewer.y))
          < (2 * viewer.vision_range - 1) * (2 * viewer.vision_range - 1)) := by
    intro a b
    constructor
    · rintro ⟨x, y, path, haims, hray, hmem, hin⟩
      refine ⟨hin, ?_⟩
      obtain ⟨path', hray', hbox, -, -⟩ := hspec x y haims
      rw [hray] at hray'
      cases hray'
      have hd := hdisk_of_aims x y haims
      have hmem' := upto_stop_subset _ _ _ hmem
      have hcase : (a, b) = (viewer.x, viewer.y) ∨ (a, b) ∈ path := by
        split at hmem'
        · exact Or.inr hmem'
        · simpa using hmem'
      rcases hcase with h | h
      · simp only [Prod.mk.injEq] at h
        rw [h.1, h.2]
        have h0 : 0 < 2 * viewer.vision_range - 1 := by omega
        have := mul_pos h0 h0
        simpa using this
      · obtain ⟨j, hj⟩ := List.mem_iff_getElem?.1 h
        have := hbox j (a, b) hj
        simp only at this
        linarith [this.1, this.2]
    · rintro ⟨hin, hd⟩
      obtain ⟨hx1, hx2⟩ := disk_coordinate (a - viewer.x) (b - viewer.y) _ hr1 hd
      obtain ⟨hy1, hy2⟩ := disk_coordinate (b - viewer.y) (a - viewer.x) _ hr1
        (by rw [add_comm]; exact hd)
      have haims : scenario.los_aims viewer a b := by
        refine ⟨?_, ?_, ?_⟩
        · rw [hlo_y, hhi_y, mem_int_range]; omega
        · rw [hlo_x, hhi_x, mem_int_range]; omega
        · have e1 : wrap_int (a - viewer.x) = a - viewer.x := wrap_int_small _ (by omega)
          have e2 : wrap_int (b - viewer.y) = b - viewer.y := wrap_int_small _ (by omega)
          rw [e1, e2]
          cases hfar : los_far viewer.vision_range (a - viewer.x) (b - viewer.y) with
          | false => rfl
          | true =>
            exact absurd ((los_far_exact _ _ _ hr1 hr25
              (natAbs_le_of_bounds _ _ (by omega) (by omega) hr25)
              (natAbs_le_of_bounds _ _ (by omega) (by omega) hr25)).1 hfar) (not_le.2 hd)
      obtain ⟨path, hray, -, htarget, -⟩ := hspec a b haims
      refine ⟨a, b, path, haims, hray, ?_, hin⟩
      simp only [scenario.los_trace, hin, Bool.false_eq_true, if_false]
      rw [upto_stop_of_open _ _ (fun c _ => hblocks c)]
      by_cases hsame : a = viewer.x ∧ b = viewer.y
      · rw [hsame.1, hsame.2]; simp
      · exact List.mem_cons_of_mem _ (htarget hsame)
  have hundetected : ∀ x y, s.detected_at x y = false := by
    intro x y
    simp only [scenario.detected_at]
    cases hc : s.m_source.at x y with
    | none => rfl
    | some t =>
      obtain ⟨line, hl, ht⟩ := at_mem _ _ _ _ hc
      simp [hnone line hl t ht]
  obtain ⟨s', hpass, hext, hmarks⟩ := render_los_spec s viewer hgrid hvin hrays
  refine ⟨s', hpass, ?_, ?_⟩
  · intro x y hin
    simp only [sq]
    refine ⟨⟨?_, fun hd => (hmarks x y ((hreach x y).2 ⟨hin, hd⟩)).1⟩,
      fun hd => (hmarks x y ((hreach x y).2 ⟨hin, hd⟩)).2⟩
    intro hdet
    by_contra hd
    have hnr : ¬ s.los_reached viewer x y := fun h => hd ((hreach x y).1 h).2
    have := hext.src_out x y hnr
    simp only [scenario.detected_at, this] at hdet
    have h0 := hundetected x y
    simp only [scenario.detected_at] at h0
    rw [h0] at hdet
    cases hdet
  · intro x y hd
    simp only [sq] at hd
    have hnr : ¬ s.los_reached viewer x y := fun h => hd ((hreach x y).1 h).2
    exact ⟨hext.src_out x y hnr, hext.rnd_out x y hnr⟩
/-- Witness of C12 (amended) at the 3x3 grid of open cells with the viewer at the centre
and the vision range 2: the pass marks all 9 cells detected and visible. -/
theorem open_grid_detects_disk_witness :
    (∃ s', open_play.render_los player11 = .ok s' ∧
      (∀ x y, open_play.abroad x y = false →
        (s'.detected_at x y = true ↔
          4 * ((x - player11.x) ^ 2 + (y - player11.y) ^ 2)
            < (2 * player11.vision_range - 1) ^ 2) ∧
        (4 * ((x - player11.x) ^ 2 + (y - player11.y) ^ 2)
            < (2 * player11.vision_range - 1) ^ 2 →
          s'.lit_at x y = true)) ∧
      (∀ x y,
        ¬ 4 * ((x - player11.x) ^ 2 + (y - player11.y) ^ 2)
            < (2 * player11.vision_range - 1) ^ 2 →
        s'.m_source.at x y = open_play.m_source.at x y ∧
          s'.render_at x y = open_play.render_at x y)) ∧
    (open_play.render_los player11).map (fun s => (s.detected_cells, s.lit_cells))
      = .ok ([[true, true, true], [true, true, true], [true, true, true]],
             [[true, true, true], [true, true, true], [true, true, true]]) :=
  ⟨open_grid_detects_disk open_play player11 rfl (by decide) (by decide) (by decide)
    (by decide) (by decide) (by decide) (by decide) (by decide) (by decide), by decide⟩

theorem grid_ok_of_rows (s : scenario) (hrender : s.m_render = some s.m_source)
    (hrows : (s.m_source.m_lines.length : Int) = s.height)
    (hcols : ∀ line ∈ s.m_source.m_lines, (line.length : Int) = s.width) : s.grid_ok := by
  intro x y hin
  have h1 := at_isSome_of_inside s hrows hcols x y hin
  refine ⟨h1, ?_⟩
  simp only [scenario.render_at, hrender, Option.bind]
  exact h1

/-- A trace that meets a blocking position at the index `i` goes no further
than that index. -/
theorem upto_stop_index (blocked : Int × Int → Bool) :
    ∀ (cs : List (Int × Int)) (i : Nat) (B : Int × Int), cs[i]? = some B → blocked B = true →
      ∀ c ∈ upto_stop blocked cs, ∃ k, k ≤ i ∧ cs[k]? = some c := by
  intro cs
  induction cs with
  | nil => intro i B h; simp at h
  | cons d ds ih =>
    intro i B hB hb c hc
    simp only [upto_stop] at hc
    by_cases hd : blocked d = true
    · rw [if_pos hd] at hc
      simp only [List.mem_singleton] at hc
      exact ⟨0, Nat.zero_le _, by simp [hc]⟩
    · rw [if_neg hd] at hc
      simp only [List.mem_cons] at hc
      rcases hc with hc | hc
      · exact ⟨0, Nat.zero_le _, by simp [hc]⟩
      · cases i with
        | zero =>
          simp only [List.getElem?_cons_zero, Option.some.injEq] at hB
          rw [hB] at hd
          exact absurd hb hd
        | succ i =>
          simp only [List.getElem?_cons_succ] at hB
          obtain ⟨k, hk, hck⟩ := ih i B hB hb c hc
          exact ⟨k + 1, by omega, by simpa using hck⟩

/-- A trace whose first blocking position has the index `i` is the first
`i + 1` positions. -/
theorem upto_stop_first (blocked : Int × Int → Bool) :
    ∀ (cs : List (Int × Int)) (i : Nat) (B : Int × Int), cs[i]? = some B → blocked B = true →
      (∀ k c, k < i → cs[k]? = some c → blocked c = false) →
      upto_stop blocked cs = cs.take (i + 1) := by
  intro cs
  induction cs with
  | nil => intro i B h; simp at h
  | cons d ds ih =>
    intro i B hB hb hfirst
    cases i with
    | zero =>
      simp only [List.getElem?_cons_zero, Option.some.injEq] at hB
      subst hB
      simp [upto_stop, hb]
    | succ i =>
      simp only [List.getElem?_cons_succ] at hB
      have hd : blocked d = false := hfirst 0 d (by omega) (by simp)
      simp only [upto_stop, hd, Bool.false_eq_true, if_false, List.take_succ_cons]
      rw [ih i B hB hb (fun k c hk hc => hfirst (k + 1) c (by omega) (by simpa using hc))]

/-- C21. Within the trace of `render_los` aimed at one target, whose cells are
the viewer's own position (when the target is inside the grid) and then the
positions of the ray: when `B`, at the index `i`, is the first of them that is
inside the grid with a symbol that blocks the viewer, the trace comes back,
`B` itself is marked detected in the grid and visible in the render copy, so
is every cell of the grid among the positions before `B`, and the trace changes
no cell at any position other than these first `i + 1`: it marks nothing after
`B`. -/
theorem trace_marks_up_to_first_block (s : scenario) (viewer : object) (x y : Int)
    (path cells : List (Int × Int)) (i : Nat) (B : Int × Int)
    (hg : s.grid_ok) (hv : s.abroad viewer.x viewer.y = false)
    (hfar : los_far viewer.vision_range (wrap_int (x - viewer.x)) (wrap_int (y - viewer.y))
      = false)
    (hray : los_ray viewer x y = some path)
    (hcells : cells = if s.abroad x y then path else (viewer.x, viewer.y) :: path)
    (hB : cells[i]? = some B) (hblock : s.blocks viewer B = true)
    (hfirst : ∀ k c, k < i → cells[k]? = some c → s.blocks viewer c = false) :
    ∃ s', s.los_target viewer x y = .ok s' ∧
      s'.detected_at B.1 B.2 = true ∧ s'.lit_at B.1 B.2 = true ∧
      (∀ k c, k < i → cells[k]? = some c → s.abroad c.1 c.2 = false →
        s'.detected_at c.1 c.2 = true ∧ s'.lit_at c.1 c.2 = true) ∧
      (∀ a b, (a, b) ∉ cells.take (i + 1) →
        s'.m_source.at a b = s.m_source.at a b ∧ s'.render_at a b = s.render_at a b) := by
  obtain ⟨s', ht, hext, hmarks⟩ := los_target_spec s viewer x y path hg hv hfar hray
  have htrace : s.los_trace viewer x y path = cells.take (i + 1) := by
    rw [scenario.los_trace, ← hcells]
    exact upto_stop_first _ cells i B hB hblock hfirst
  rw [htrace] at hext hmarks
  have hBin : s.abroad B.1 B.2 = false := by
    simp only [scenario.blocks, Bool.and_eq_true, Bool.not_eq_true'] at hblock
    exact hblock.1
  have hmem : ∀ k c, k ≤ i → cells[k]? = some c → c ∈ cells.take (i + 1) := by
    intro k c hk hc
    rw [List.mem_iff_getElem?]
    exact ⟨k, by rw [List.getElem?_take_of_lt (by omega)]; exact hc⟩
  refine ⟨s', ht, (hmarks B (hmem i B (le_refl _) hB) hBin).1,
    (hmarks B (hmem i B (le_refl _) hB) hBin).2, ?_, ?_⟩
  · intro k c hk hc hin
    exact hmarks c (hmem k c (by omega) hc) hin
  · intro a b hab
    exact ⟨hext.src_out a b (fun h => hab h.1), hext.rnd_out a b (fun h => hab h.1)⟩
/-- Witness of C21 at the trace of `wall_play` aimed at `(3, 1)`: its cells are
`(0, 0)`, `(1, 0)`, `(2, 1)`, `(3, 1)`, and the wall at `(1, 0)` is the first
that blocks. -/
theorem trace_marks_up_to_first_block_witness :
    ∃ s', wall_play.los_target watcher 3 1 = .ok s' ∧
      s'.detected_at 1 0 = true ∧ s'.lit_at 1 0 = true ∧
      (∀ k c, k < 1 → [((0 : Int), (0 : Int)), (1, 0), (2, 1), (3, 1)][k]? = some c →
        wall_play.abroad c.1 c.2 = false →
        s'.detected_at c.1 c.2 = true ∧ s'.lit_at c.1 c.2 = true) ∧
      (∀ a b, (a, b) ∉ [((0 : Int), (0 : Int)), (1, 0), (2, 1), (3, 1)].take (1 + 1) →
        s'.m_source.at a b = wall_play.m_source.at a b ∧
          s'.render_at a b = wall_play.render_at a b) :=
  trace_marks_up_to_first_block wall_play watcher 3 1 [(1, 0), (2, 1), (3, 1)]
    [(0, 0), (1, 0), (2, 1), (3, 1)] 1 (1, 0)
    (grid_ok_of_rows wall_play rfl (by decide) (by decide)) (by decide) (by decide)
    (by decide) (by decide) (by decide) (by decide)
    (by
      intro k c hk hc
      have hk0 : k = 0 := by omega
      subst hk0
      simp only [List.getElem?_cons_zero, Option.some.injEq] at hc
      subst hc
      decide)

/-- The targets of a pass lie within the vision range of the viewer, so their
rays exist and have the properties of `los_ray_spec`. -/
theorem aims_near (viewer : object) (x y : Int)
    (hr29 : viewer.vision_range ≤ 536870912)
    (hx0 : 0 ≤ viewer.x) (hy0 : 0 ≤ viewer.y)
    (hvx : viewer.x + viewer.vision_range ≤ INT_MAX)
    (hvy : viewer.y + viewer.vision_range ≤ INT_MAX)
    (haims : scenario.los_aims viewer x y) :
    (-viewer.vision_range ≤ x - viewer.x ∧ x - viewer.x ≤ viewer.vision_range) ∧
    (-viewer.vision_range ≤ y - viewer.y ∧ y - viewer.y ≤ viewer.vision_range) ∧
    (is_int (viewer.x - viewer.vision_range) ∧ is_int (viewer.x + viewer.vision_range)) ∧
    (is_int (viewer.y - viewer.vision_range) ∧ is_int (viewer.y + viewer.vision_range)) := by
  obtain ⟨h1, h2, h3⟩ := haims
  have hr1 : 1 ≤ viewer.vision_range := by
    by_contra hcon
    rw [los_far_of_nonpos _ _ _ (by omega)] at h3
    cases h3
  simp only [INT_MAX] at hvx hvy
  have hlo_x : wrap_int (viewer.x - viewer.vision_range) = viewer.x - viewer.vision_range := by
    simp only [wrap_int]; omega
  have hhi_x : wrap_int (viewer.x + viewer.vision_range) = viewer.x + viewer.vision_range := by
    simp only [wrap_int]; omega
  have hlo_y : wrap_int (viewer.y - viewer.vision_range) = viewer.y - viewer.vision_range := by
    simp only [wrap_int]; omega
  have hhi_y : wrap_int (viewer.y + viewer.vision_range) = viewer.y + viewer.vision_range := by
    simp only [wrap_int]; omega
  rw [hlo_y, hhi_y, mem_int_range] at h1
  rw [hlo_x, hhi_x, mem_int_range] at h2
  simp only [is_int, INT_MIN, INT_MAX]
  omega

/-- The trace aimed at a target of the pass, on whose ray the cell `B` blocks,
changes no cell that the ray visits after `B`. -/
theorem blocked_ray_spec (s : scenario) (viewer : object) (x y : Int)
    (path : List (Int × Int)) (i j : Nat) (B c : Int × Int)
    (hg : s.grid_ok) (hv : s.abroad viewer.x viewer.y = false)
    (hr29 : viewer.vision_range ≤ 536870912)
    (hvx : viewer.x + viewer.vision_range ≤ INT_MAX)
    (hvy : viewer.y + viewer.vision_range ≤ INT_MAX)
    (haims : scenario.los_aims viewer x y) (hray : los_ray viewer x y = some path)
    (hB : path[i]? = some B) (hblock : s.blocks viewer B = true)
    (hij : i < j) (hc : path[j]? = some c) :
    ∃ s', s.los_target viewer x y = .ok s' ∧
      s'.m_source.at c.1 c.2 = s.m_source.at c.1 c.2 ∧
      s'.render_at c.1 c.2 = s.render_at c.1 c.2 := by
  have hvin := (abroad_eq_false s _ _).1 hv
  obtain ⟨hnx, hny, hix, hiy⟩ := aims_near viewer x y hr29 hvin.1 hvin.2.2.1 hvx hvy haims
  obtain ⟨path', hray', -, -, hdist⟩ :=
    los_ray_spec viewer x y viewer.vision_range hr29 hnx hny hix hiy
  rw [hray] at hray'
  cases hray'
  obtain ⟨s', ht, hext, -⟩ := los_target_spec s viewer x y path hg hv haims.2.2 hray
  have hout : ¬ ((c.1, c.2) ∈ s.los_trace viewer x y path ∧ s.abroad c.1 c.2 = false) := by
    rintro ⟨hmem, -⟩
    have hcc : (c.1, c.2) = c := rfl
    rw [hcc] at hmem
    simp only [scenario.los_trace] at hmem
    have hcoord : ∀ (k : Nat) (d : Int × Int), k ≤ i → path[k]? = some d → d = c → False := by
      intro k d hk hd hdc
      subst hdc
      rcases hdist with h | h
      · have h1 := h k d hd
        have h2 := h j d hc
        omega
      · have h1 := h k d hd
        have h2 := h j d hc
        omega
    have hviewer : c ≠ (viewer.x, viewer.y) := by
      intro h
      rcases hdist with h' | h'
      · have h2 := h' j c hc
        rw [h] at h2
        simp at h2
      · have h2 := h' j c hc
        rw [h] at h2
        simp at h2
    by_cases hab : s.abroad x y = true
    · rw [if_pos hab] at hmem
      obtain ⟨k, hk, hck⟩ := upto_stop_index _ path i B hB hblock c hmem
      exact hcoord k c hk hck rfl
    · rw [if_neg hab] at hmem
      obtain ⟨k, hk, hck⟩ := upto_stop_index _ ((viewer.x, viewer.y) :: path) (i + 1) B
        (by simpa using hB) hblock c hmem
      cases k with
      | zero =>
        simp only [List.getElem?_cons_zero, Option.some.injEq] at hck
        exact hviewer hck.symm
      | succ k =>
        simp only [List.getElem?_cons_succ] at hck
        exact hcoord k c (by omega) hck rfl
  exact ⟨s', ht, hext.src_out _ _ hout, hext.rnd_out _ _ hout⟩
/-- C13 (amended). For a viewer inside the grid with a vision range of at most
`2 ^ 29` (and `x + r`, `y + r` in the `int` range), every target of the pass
and every cell `B` of the grid on the ray to that target whose symbol blocks
the viewer: the trace aimed at that target comes back and leaves every cell
that the ray visits strictly after `B` as it was, in the grid and in the
render copy; such a cell is not marked by this trace (a trace aimed at another
target may still mark it). -/
theorem blocked_ray_leaves_later_cells (s : scenario) (viewer : object) (x y : Int)
    (path : List (Int × Int)) (i j : Nat) (B c : Int × Int)
    (hg : s.grid_ok) (hv : s.abroad viewer.x viewer.y = false)
    (hr29 : viewer.vision_range ≤ 536870912)
    (hvx : viewer.x + viewer.vision_range ≤ INT_MAX)
    (hvy : viewer.y + viewer.vision_range ≤ INT_MAX)
    (haims : scenario.los_aims viewer x y) (hray : los_ray viewer x y = some path)
    (hB : path[i]? = some B) (hblock : s.blocks viewer B = true)
    (hij : i < j) (hc : path[j]? = some c) :
    ∃ s', s.los_target viewer x y = .ok s' ∧
      s'.m_source.at c.1 c.2 = s.m_source.at c.1 c.2 ∧
      s'.render_at c.1 c.2 = s.render_at c.1 c.2 :=
  blocked_ray_spec s viewer x y path i j B c hg hv hr29 hvx hvy haims hray hB hblock hij hc

/-- Witness of C13 (amended) at `wall_play`: the ray to `(3, 1)` meets the
wall at `(1, 0)` and then visits `(2, 1)`, which the trace aimed at `(3, 1)`
leaves as it was. -/
theorem blocked_ray_leaves_later_cells_witness :
    ∃ s', wall_play.los_target watcher 3 1 = .ok s' ∧
      s'.m_source.at 2 1 = wall_play.m_source.at 2 1 ∧
      s'.render_at 2 1 = wall_play.render_at 2 1 :=
  blocked_ray_leaves_later_cells wall_play watcher 3 1 [(1, 0), (2, 1), (3, 1)] 0 1 (1, 0)
    (2, 1) (grid_ok_of_rows wall_play rfl (by decide) (by decide)) (by decide) (by decide)
    (by decide) (by decide)
    ⟨by rw [mem_int_range]; decide, by rw [mem_int_range]; decide, by decide⟩
    (by decide) (by decide) (by decide) (by decide) (by decide)

/-- C13 (counterexample). The grid of `wall_play` is open except for the wall
at `(1, 0)`, no cell is detected, and the viewer stands at `(0, 0)` with the
vision range 4. The target `(3, 1)` is in the vision disk and its ray,
`(1, 0)`, `(2, 1)`, `(3, 1)`, passes through the wall and visits `(2, 1)`
after it; yet after the pass the cell `(2, 1)` is detected: the ray aimed at
`(2, 1)` itself, `(1, 1)`, `(2, 1)`, does not meet the wall. -/
theorem cell_behind_wall_detected :
    wall_play.blocking_cells watcher
      = [[false, true, false, false], [false, false, false, false]] ∧
    wall_play.detected_cells = [[false, false, false, false], [false, false, false, false]] ∧
    wall_play.abroad watcher.x watcher.y = false ∧
    los_far watcher.vision_range (3 - watcher.x) (1 - watcher.y) = false ∧
    los_ray watcher 3 1 = some [(1, 0), (2, 1), (3, 1)] ∧
    los_ray watcher 2 1 = some [(1, 1), (2, 1)] ∧
    (wall_play.render_los watcher).map (fun s => s.detected_at 2 1) = .ok true := by
  decide

theorem los_safe_step (s s1 : scenario) (r : Except cpp_error scenario)
    (h1 : s.los_ext (fun a b => s.abroad a b = false) s1) (h2 : s1.los_safe r) :
    s.los_safe r := by
  cases r with
  | error e => exact h2
  | ok s2 =>
    simp only [scenario.los_safe] at h2 ⊢
    exact h1.trans (h2.mono (fun a b h => by rw [← h1.abroad]; exact h))

theorem los_mark_safe (s : scenario) (viewer : object) (x y : Int) (hg : s.grid_ok)
    (hin : s.abroad x y = false) :
    ∃ s1 stop, s.los_mark viewer x y = .ok (s1, stop) ∧
      s.los_ext (fun a b => s.abroad a b = false) s1 := by
  obtain ⟨s1, hm, hext, -, -⟩ := los_mark_spec s viewer x y hg hin
  exact ⟨s1, _, hm, hext.mono (fun a b h => by rw [h.1, h.2]; exact hin)⟩

theorem los_walk_x_safe (viewer : object) (x ix iy delta_x delta_y : Int) :
    ∀ (fuel : Nat) (s : scenario) (px py error : Int), s.grid_ok →
      s.los_safe (scenario.los_walk_x viewer x ix iy delta_x delta_y fuel s px py error) := by
  intro fuel
  induction fuel with
  | zero => intro s px py error _; simp [scenario.los_walk_x, scenario.los_safe]
  | succ fuel ih =>
    intro s px py error hg
    by_cases hpx : px = x
    · simp only [scenario.los_walk_x, hpx, if_true, scenario.los_safe]
      exact scenario.los_ext.refl _ _
    · simp only [scenario.los_walk_x, hpx, if_false]
      generalize wrap_int (px + ix) = px'
      generalize (if (decide (error > 0) || decide (error = 0) && decide (ix > 0)) = true
        then wrap_int (py + iy) else py) = py'
      generalize wrap_int ((if (decide (error > 0) || decide (error = 0) && decide (ix > 0)) = true
        then wrap_int (error - delta_x) else error) + delta_y) = error'
      by_cases hab : s.abroad px' py' = false
      · obtain ⟨s1, stop, hm, hext⟩ := los_mark_safe s viewer px' py' hg hab
        simp only [hab, Bool.not_false, if_true, hm]
        cases stop with
        | true => simpa only [if_true, scenario.los_safe] using hext
        | false =>
          simp only [Bool.false_eq_true, if_false]
          exact los_safe_step s s1 _ hext (ih s1 px' py' error' (hext.grid_ok hg))
      · have hab' : s.abroad px' py' = true := by simpa using hab
        simp only [hab', Bool.not_true, Bool.false_eq_true, if_false]
        exact ih s px' py' error' hg

theorem los_walk_y_safe (viewer : object) (y ix iy delta_x delta_y : Int) :
    ∀ (fuel : Nat) (s : scenario) (px py error : Int), s.grid_ok →
      s.los_safe (scenario.los_walk_y viewer y ix iy delta_x delta_y fuel s px py error) := by
  intro fuel
  induction fuel with
  | zero => intro s px py error _; simp [scenario.los_walk_y, scenario.los_safe]
  | succ fuel ih =>
    intro s px py error hg
    by_cases hpy : py = y
    · simp only [scenario.los_walk_y, hpy, if_true, scenario.los_safe]
      exact scenario.los_ext.refl _ _
    · simp only [scenario.los_walk_y, hpy, if_false]
      generalize wrap_int (py + iy) = py'
      generalize (if (decide (error > 0) || decide (error = 0) && decide (iy > 0)) = true
        then wrap_int (px + ix) else px) = px'
      generalize wrap_int ((if (decide (error > 0) || decide (error = 0) && decide (iy > 0)) = true
        then wrap_int (error - delta_y) else error) + delta_x) = error'
      by_cases hab : s.abroad px' py' = false
      · obtain ⟨s1, stop, hm, hext⟩ := los_mark_safe s viewer px' py' hg hab
        simp only [hab, Bool.not_false, if_true, hm]
        cases stop with
        | true => simpa only [if_true, scenario.los_safe] using hext
        | false =>
          simp only [Bool.false_eq_true, if_false]
          exact los_safe_step s s1 _ hext (ih s1 px' py' error' (hext.grid_ok hg))
      · have hab' : s.abroad px' py' = true := by simpa using hab
        simp only [hab', Bool.not_true, Bool.false_eq_true, if_false]
        exact ih s px' py' error' hg

theorem los_target_safe (s : scenario) (viewer : object) (x y : Int) (hg : s.grid_ok)
    (hv : s.abroad viewer.x viewer.y = false) : s.los_safe (s.los_target viewer x y) := by
  simp only [scenario.los_target]
  by_cases hfar : los_far viewer.vision_range (wrap_int (x - viewer.x))
      (wrap_int (y - viewer.y)) = true
  · rw [if_pos hfar]
    exact scenario.los_ext.refl _ _
  · rw [if_neg hfar]
    generalize wrap_int (2 * wrap_int ((wrap_int (x - viewer.x)).natAbs : Int)) = dX
    generalize wrap_int (2 * wrap_int ((wrap_int (y - viewer.y)).natAbs : Int)) = dY
    generalize los_sign (wrap_int (x - viewer.x)) = ix
    generalize los_sign (wrap_int (y - viewer.y)) = iy
    have hwalk : ∀ s1 : scenario, s1.grid_ok → s1.los_safe
        (if dX ≥ dY then
          scenario.los_walk_x viewer x ix iy dX dY 4294967296 s1 viewer.x viewer.y
            (wrap_int (dY - dX / 2))
        else
          scenario.los_walk_y viewer y ix iy dX dY 4294967296 s1 viewer.x viewer.y
            (wrap_int (dX - dY / 2))) := by
      intro s1 hg1
      by_cases hmaj : dX ≥ dY
      · rw [if_pos hmaj]
        exact los_walk_x_safe _ _ _ _ _ _ _ _ _ _ _ hg1
      · rw [if_neg hmaj]
        exact los_walk_y_safe _ _ _ _ _ _ _ _ _ _ _ hg1
    by_cases hab : s.abroad x y = true
    · simp only [hab, Bool.not_true, Bool.false_eq_true, if_false]
      exact hwalk s hg
    · have hab' : s.abroad x y = false := by simpa using hab
      obtain ⟨s1, stop, hm, hext⟩ := los_mark_safe s viewer viewer.x viewer.y hg hv
      simp only [hab', Bool.not_false, if_true, hm]
      cases stop with
      | true => simpa only [if_true, scenario.los_safe] using hext
      | false =>
        simp only [Bool.false_eq_true, if_false]
        exact los_safe_step s s1 _ hext (hwalk s1 (hext.grid_ok hg))

theorem foldlM_los_safe {α : Type} (vx vy : Int) (f : scenario → α → Except cpp_error scenario)
    (hf : ∀ (s : scenario) (a : α), s.grid_ok → s.abroad vx vy = false → s.los_safe (f s a))
    (l : List α) :
    ∀ s : scenario, s.grid_ok → s.abroad vx vy = false → s.los_safe (l.foldlM f s) := by
  induction l with
  | nil => intro s _ _; exact scenario.los_ext.refl _ _
  | cons a l ih =>
    intro s hg hv
    simp only [List.foldlM, bind, Except.bind]
    have h1 := hf s a hg hv
    cases hfa : f s a with
    | error e => rw [hfa] at h1; exact h1
    | ok s1 =>
      rw [hfa] at h1
      have h1' : s.los_ext (fun a b => s.abroad a b = false) s1 := h1
      exact los_safe_step s s1 _ h1' (ih s1 (h1'.grid_ok hg) (by rw [h1'.abroad]; exact hv))

theorem render_los_safe (s : scenario) (viewer : object) (hg : s.grid_ok)
    (hv : s.abroad viewer.x viewer.y = false) : s.los_safe (s.render_los viewer) := by
  unfold scenario.render_los
  exact foldlM_los_safe viewer.x viewer.y _
    (fun (s : scenario) (y : Int) hg hv => foldlM_los_safe viewer.x viewer.y _
      (fun (s : scenario) (x : Int) hg hv => los_target_safe s viewer x y hg hv) _ s hg hv)
    _ s hg hv
/-- C26. For every rectangular grid (with the render copy that `render()`
makes of it), every viewer standing inside the grid and every vision range,
`render_los` reads and writes cells with coordinates inside the grid only,
the viewer's own cell included, whose accesses are guarded by the bounds test
of the target: an access outside the rows is undefined behaviour in the model,
and the pass never ends in it. When moreover the vision range is at most
`2 ^ 29` (zero, negative and larger than the grid included) and `x + r`,
`y + r` of the viewer are in the `int` range, the pass comes back, and the
state it returns differs from the one before in cells of the grid only. -/
theorem render_los_stays_in_grid (s : scenario) (viewer : object)
    (hrender : s.m_render = some s.m_source)
    (hrows : (s.m_source.m_lines.length : Int) = s.height)
    (hcols : ∀ line ∈ s.m_source.m_lines, (line.length : Int) = s.width)
    (hv : 0 ≤ viewer.x ∧ viewer.x < s.width ∧ 0 ≤ viewer.y ∧ viewer.y < s.height) :
    s.render_los viewer ≠ .error .undefined_behaviour ∧
    (viewer.vision_range ≤ 536870912 → viewer.x + viewer.vision_range ≤ INT_MAX →
      viewer.y + viewer.vision_range ≤ INT_MAX →
      ∃ s', s.render_los viewer = .ok s' ∧
        s.los_ext (fun a b => 0 ≤ a ∧ a < s.width ∧ 0 ≤ b ∧ b < s.height) s') := by
  have hg := grid_ok_of_rows s hrender hrows hcols
  have hvin : s.abroad viewer.x viewer.y = false := (abroad_eq_false s _ _).2 hv
  have hsafe := render_los_safe s viewer hg hvin
  constructor
  · intro h
    rw [h] at hsafe
    simp [scenario.los_safe] at hsafe
  · intro hr29 hvx hvy
    have hrays : ∀ x y, scenario.los_aims viewer x y →
        ∃ path, los_ray viewer x y = some path := by
      intro x y haims
      obtain ⟨hnx, hny, hix, hiy⟩ := aims_near viewer x y hr29 hv.1 hv.2.2.1 hvx hvy haims
      obtain ⟨path, hray, -⟩ :=
        los_ray_spec viewer x y viewer.vision_range hr29 hnx hny hix hiy
      exact ⟨path, hray⟩
    obtain ⟨s', hpass, -, -⟩ := render_los_spec s viewer hg hvin hrays
    refine ⟨s', hpass, ?_⟩
    rw [hpass] at hsafe
    have hsafe' : s.los_ext (fun a b => s.abroad a b = false) s' := hsafe
    exact hsafe'.mono (fun a b h => (abroad_eq_false s a b).1 h)

/-- Witness of C26 at `wall_play`, whose viewer has the vision range 4 in a
grid of 4x2 cells. -/
theorem render_los_stays_in_grid_witness :
    wall_play.render_los watcher ≠ .error .undefined_behaviour ∧
    (watcher.vision_range ≤ 536870912 → watcher.x + watcher.vision_range ≤ INT_MAX →
      watcher.y + watcher.vision_range ≤ INT_MAX →
      ∃ s', wall_play.render_los watcher = .ok s' ∧
        wall_play.los_ext
          (fun a b => 0 ≤ a ∧ a < wall_play.width ∧ 0 ≤ b ∧ b < wall_play.height) s') :=
  render_los_stays_in_grid wall_play watcher rfl (by decide) (by decide) (by decide)

/-! ## Claims about the view after a move -/

/-- C22 (failing input). On the 3x3 grid with a 2x2 viewport, the player has
stepped to `(0, 0)` and the view has been panned to `(1, 1)`: the viewport is
inside the grid and so is the player. The call `move_player(0, 1)` then
returns with the player at `(0, 1)` and the view at `(1, 0)`: the viewport
covers the columns 1 and 2, and the player, in column 0, is outside it. -/
theorem move_player_leaves_view_away :
    panned_play.map scenario.view_and_positions = .ok ([1, 1, 2, 2], [(0, 0), (1, 1)]) ∧
    panned_play.map (fun s => ([decide s.inside_x, decide s.inside_y], [s.width, s.height]))
      = .ok ([true, true], [3, 3]) ∧
    (panned_play.bind (fun s => s.move_player (scenario.turn quiet_env) 0 1)).map
      scenario.view_and_positions = .ok ([1, 0, 2, 2], [(0, 1), (1, 1)]) ∧
    ¬ ((1 : Int) ≤ 0 ∧ (0 : Int) < 1 + 2) := by
  decide

/-! ## Claims about empty groups of a condition list -/

theorem leaves_evaluate_or (s : scenario) (x0 y0 : Int) (b : event_conditions)
    (hb : s.leaves_evaluate x0 y0 b) : s.leaves_evaluate x0 y0 (.leaf or_separator b) := by
  intro c hc
  simp only [event_conditions.leaves, if_true] at hc
  exact hb c hc

theorem or_of_ands_or (s : scenario) (x0 y0 : Int) (b : event_conditions) :
    s.or_of_ands x0 y0 (.leaf or_separator b) = true := by
  simp [scenario.or_of_ands, scenario.runs]

/-- C24. An empty AND-group counts as true in `parse_conditions`: the empty
condition list evaluates to true, and so does every list that begins with an
`"or"` separator, ends with an `"or"` separator, or has two adjacent `"or"`
separators, whatever booleans its leaves evaluate to. -/
theorem empty_group_counts_as_true (s : scenario) (x0 y0 : Int) (a b : event_conditions)
    (ha : s.leaves_evaluate x0 y0 a) (hb : s.leaves_evaluate x0 y0 b) :
    s.parse_conditions x0 y0 .nil = .ok true ∧
    s.parse_conditions x0 y0 (.leaf or_separator b) = .ok true ∧
    s.parse_conditions x0 y0 (a.append (.leaf or_separator .nil)) = .ok true ∧
    s.parse_conditions x0 y0 (a.append (.leaf or_separator (.leaf or_separator b)))
      = .ok true := by
  have hnil : s.leaves_evaluate x0 y0 .nil := by
    intro c hc; simp [event_conditions.leaves] at hc
  refine ⟨rfl, ?_, ?_, ?_⟩
  · rw [parse_conditions_eq s x0 y0 _ (leaves_evaluate_or s x0 y0 b hb), or_of_ands_or]
  · rw [parse_conditions_eq s x0 y0 _ (leaves_evaluate_append_or s x0 y0 a .nil ha hnil),
      or_of_ands_append_or]
    simp [scenario.or_of_ands, scenario.runs]
  · rw [parse_conditions_eq s x0 y0 _
        (leaves_evaluate_append_or s x0 y0 a _ ha (leaves_evaluate_or s x0 y0 b hb)),
      or_of_ands_append_or, or_of_ands_or]
    simp

/-- Witness of C24 with the lists `a = b = ["false"]`: the lists `[]`,
`["or", "false"]`, `["false", "or"]` and `["false", "or", "or", "false"]` are
true. -/
theorem empty_group_counts_as_true_witness :
    small_view.parse_conditions 0 0 .nil = .ok true ∧
    small_view.parse_conditions 0 0 (.leaf or_separator (.leaf "false".toList .nil))
      = .ok true ∧
    small_view.parse_conditions 0 0
      ((event_conditions.leaf "false".toList .nil).append (.leaf or_separator .nil))
      = .ok true ∧
    small_view.parse_conditions 0 0
      ((event_conditions.leaf "false".toList .nil).append
        (.leaf or_separator (.leaf or_separator (.leaf "false".toList .nil))))
      = .ok true :=
  empty_group_counts_as_true small_view 0 0 (.leaf "false".toList .nil)
    (.leaf "false".toList .nil) (by decide) (by decide)

/-! ## Claims about a declared height larger than the text -/

/-- After the last row of a text without a trailing newline the loop of the
constructor starts again at the beginning of the text. -/
theorem consumed_rows_join_again (rows : List Str) :
    ∀ (pre : Str) (m : Nat), rows ≠ [] → (∀ r ∈ rows, '\n' ∉ r) →
      (pre ++ join_rows rows).length < npos →
      consumed_rows (pre ++ join_rows rows) (rows.length + m) pre.length
        = rows ++ consumed_rows (pre ++ join_rows rows) m 0 := by
  induction rows with
  | nil => intro pre m h; exact absurd rfl h
  | cons r rs ih =>
    intro pre m _ hnl hlen
    have hr : '\n' ∉ r := hnl r (by simp)
    cases rs with
    | nil =>
      simp only [join_rows] at hlen ⊢
      have hd : (pre ++ r).drop pre.length = r := List.drop_left' rfl
      have hf : find_from (pre ++ r) '\n' pre.length = npos := by
        simp [find_from, hd, hr]
      have ht : r.take (size_sub npos pre.length) = r := by
        apply List.take_of_length_le
        simp only [List.length_append, npos] at hlen
        simp only [size_sub, npos]
        omega
      have h0 : size_add npos 1 = 0 := by decide
      rw [show [r].length + m = m + 1 by simp [Nat.add_comm], consumed_rows, hf, hd, ht, h0]
      rfl
    | cons r2 rest =>
      rw [join_rows_cons_cons] at hlen ⊢
      have hd : (pre ++ (r ++ '\n' :: join_rows (r2 :: rest))).drop pre.length
          = r ++ '\n' :: join_rows (r2 :: rest) := List.drop_left' rfl
      have hf : find_from (pre ++ (r ++ '\n' :: join_rows (r2 :: rest))) '\n' pre.length
          = pre.length + r.length := by
        simp only [find_from, hd]
        rw [if_pos (by simp), List.indexOf_append_of_not_mem hr]
        simp
      have hlen' := hlen
      simp only [List.length_append, List.length_cons, npos] at hlen'
      have hs : size_sub (pre.length + r.length) pre.length = r.length := by
        simp only [size_sub]; omega
      have ha : size_add (pre.length + r.length) 1 = (pre ++ r ++ ['\n']).length := by
        simp only [size_add, List.length_append, List.length_singleton]; omega
      have e : pre ++ (r ++ '\n' :: join_rows (r2 :: rest))
          = (pre ++ r ++ ['\n']) ++ join_rows (r2 :: rest) := by simp
      have := ih (pre ++ r ++ ['\n']) m (by simp)
        (fun r' hr' => hnl r' (by simp [List.mem_cons] at hr' ⊢; tauto))
        (by rw [← e]; exact hlen)
      rw [show (r :: r2 :: rest).length + m = ((r2 :: rest).length + m) + 1 by
        simp only [List.length_cons]; omega, consumed_rows, hf, hd, hs, ha, List.take_left', e,
        this]
      · rfl
      · rfl

/-- After the last row of a text with a trailing newline the loop of the
constructor goes on behind that newline. -/
theorem consumed_rows_join_newline (rows : List Str) :
    ∀ (pre post : Str) (m : Nat), rows ≠ [] → (∀ r ∈ rows, '\n' ∉ r) →
      (pre ++ join_rows rows ++ '\n' :: post).length < npos →
      consumed_rows (pre ++ join_rows rows ++ '\n' :: post) (rows.length + m) pre.length
        = rows ++ consumed_rows (pre ++ join_rows rows ++ '\n' :: post) m
            ((pre ++ join_rows rows).length + 1) := by
  induction rows with
  | nil => intro pre post m h; exact absurd rfl h
  | cons r rs ih =>
    intro pre post m _ hnl hlen
    have hr : '\n' ∉ r := hnl r (by simp)
    cases rs with
    | nil =>
      simp only [join_rows] at hlen ⊢
      have e0 : pre ++ r ++ '\n' :: post = pre ++ (r ++ '\n' :: post) := by simp
      have hd : (pre ++ (r ++ '\n' :: post)).drop pre.length = r ++ '\n' :: post :=
        List.drop_left' rfl
      have hf : find_from (pre ++ (r ++ '\n' :: post)) '\n' pre.length
          = pre.length + r.length := by
        simp only [find_from, hd]
        rw [if_pos (by simp), List.indexOf_append_of_not_mem hr]
        simp
      have hlen' := hlen
      simp only [List.length_append, List.length_cons, npos] at hlen'
      have hs : size_sub (pre.length + r.length) pre.length = r.length := by
        simp only [size_sub]; omega
      have ha : size_add (pre.length + r.length) 1 = (pre ++ r).length + 1 := by
        simp only [size_add, List.length_append]; omega
      rw [e0, show [r].length + m = m + 1 by simp [Nat.add_comm], consumed_rows, hf, hd, hs,
        ha, List.take_left']
      · rfl
      · rfl
    | cons r2 rest =>
      rw [join_rows_cons_cons] at hlen ⊢
      have e0 : pre ++ (r ++ '\n' :: join_rows (r2 :: rest)) ++ '\n' :: post
          = pre ++ (r ++ '\n' :: (join_rows (r2 :: rest) ++ '\n' :: post)) := by simp
      have hd : (pre ++ (r ++ '\n' :: (join_rows (r2 :: rest) ++ '\n' :: post))).drop pre.length
          = r ++ '\n' :: (join_rows (r2 :: rest) ++ '\n' :: post) := List.drop_left' rfl
      have hf : find_from (pre ++ (r ++ '\n' :: (join_rows (r2 :: rest) ++ '\n' :: post))) '\n'
          pre.length = pre.length + r.length := by
        simp only [find_from, hd]
        rw [if_pos (by simp), List.indexOf_append_of_not_mem hr]
        simp
      have hlen' := hlen
      simp only [List.length_append, List.length_cons, npos] at hlen'
      have hs : size_sub (pre.length + r.length) pre.length = r.length := by
        simp only [size_sub]; omega
      have ha : size_add (pre.length + r.length) 1 = (pre ++ r ++ ['\n']).length := by
        simp only [size_add, List.length_append, List.length_singleton]; omega
      have e : pre ++ (r ++ '\n' :: (join_rows (r2 :: rest) ++ '\n' :: post))
          = (pre ++ r ++ ['\n']) ++ join_rows (r2 :: rest) ++ '\n' :: post := by simp
      have e2 : (pre ++ (r ++ '\n' :: join_rows (r2 :: rest))).length
          = (pre ++ r ++ ['\n'] ++ join_rows (r2 :: rest)).length := by simp
      have := ih (pre ++ r ++ ['\n']) post m (by simp)
        (fun r' hr' => hnl r' (by simp [List.mem_cons] at hr' ⊢; tauto))
        (by rw [← e, ← e0]; exact hlen)
      rw [e0, show (r :: r2 :: rest).length + m = ((r2 :: rest).length + m) + 1 by
        simp only [List.length_cons]; omega, consumed_rows, hf, hd, hs, ha, List.take_left', e,
        this, e2]
      · rfl
      · rfl
theorem consumed_rows_take (map : Str) (a b : Nat) :
    ∀ pos, consumed_rows map a pos = (consumed_rows map (a + b) pos).take a := by
  induction a with
  | zero => intro pos; simp [consumed_rows]
  | succ a ih =>
    intro pos
    rw [show a + 1 + b = (a + b) + 1 by omega]
    simp only [consumed_rows, List.take_succ_cons]
    rw [← ih]

/-- The rows that the constructor consumes from a text without a trailing
newline: the rows of the text, over and over. -/
theorem consumed_rows_cyclic (rows : List Str) (hne : rows ≠ [])
    (hnl : ∀ r ∈ rows, '\n' ∉ r) (hlen : (join_rows rows).length < npos) :
    ∀ (h k : Nat), k < h →
      (consumed_rows (join_rows rows) h 0)[k]? = rows[k % rows.length]? := by
  have hn : 0 < rows.length := List.length_pos.2 hne
  have hagain : ∀ m, consumed_rows (join_rows rows) (rows.length + m) 0
      = rows ++ consumed_rows (join_rows rows) m 0 := by
    intro m
    have := consumed_rows_join_again rows [] m hne hnl (by simpa using hlen)
    simpa using this
  intro h
  induction h using Nat.strong_induction_on with
  | _ h ih =>
    intro k hk
    by_cases hh : h ≤ rows.length
    · obtain ⟨b, hb⟩ : ∃ b, rows.length = h + b := ⟨rows.length - h, by omega⟩
      have h1 := consumed_rows_take (join_rows rows) h b 0
      rw [← hb] at h1
      have h2 := hagain 0
      simp only [Nat.add_zero, consumed_rows, List.append_nil] at h2
      rw [h1, h2, List.getElem?_take_of_lt hk, Nat.mod_eq_of_lt (by omega)]
    · obtain ⟨m, hm⟩ : ∃ m, h = rows.length + m := ⟨h - rows.length, by omega⟩
      subst hm
      rw [hagain m]
      by_cases hkn : k < rows.length
      · rw [List.getElem?_append_left hkn, Nat.mod_eq_of_lt hkn]
      · have hkm : k - rows.length < m := by omega
        have hmh : m < rows.length + m := by omega
        have hkn' : rows.length ≤ k := by omega
        rw [List.getElem?_append_right hkn', ih m hmh (k - rows.length) hkm]
        congr 1
        exact (Nat.mod_eq_sub_mod hkn').symm

/-- Pushing rows of the length `w` onto a grid of the width `w`. -/
theorem foldlM_push_ok (w : Int) (hw : w ≠ 0) (hwi : is_int w) (rows : List Str) :
    ∀ (m : character_map), m.m_width = w → 0 ≤ m.m_height →
      m.m_height + rows.length ≤ INT_MAX →
      (∀ r ∈ rows, (r.length : Int) = w) →
      rows.foldlM (fun (m : character_map) row => m.push row) m
        = .ok { m_x := m.m_x, m_y := m.m_y, m_width := w,
                m_height := m.m_height + rows.length,
                m_lines := m.m_lines ++ rows.map text_of } := by
  induction rows with
  | nil =>
    intro m hmw _ _ _
    simp only [List.foldlM, pure, Except.pure, List.length_nil, Nat.cast_zero, add_zero,
      List.map_nil, List.append_nil, ← hmw]
  | cons r rs ih =>
    intro m hmw hmh hsum hrows
    have hrw : (r.length : Int) = w := hrows r (by simp)
    have hrne : r ≠ [] := by
      intro h; rw [h] at hrw; simp at hrw; exact hw hrw.symm
    simp only [List.length_cons, Nat.cast_add, Nat.cast_one, INT_MAX] at hsum
    have hwrap : wrap_int (m.m_height + 1) = m.m_height + 1 := by
      simp only [wrap_int]; omega
    have hrlen : wrap_int (r.length : Int) = r.length := by
      rw [hrw]; exact wrap_int_of_is_int w hwi
    have hww : wrap_int w = w := wrap_int_of_is_int w hwi
    have hpush : m.push r = .ok (character_map.mk m.m_x m.m_y w (m.m_height + 1)
        (m.m_lines ++ [text_of r])) := by
      simp [character_map.push, hrne, hrlen, hmw, hw, hrw, hwrap, hww]
    simp only [List.foldlM, bind, Except.bind, hpush]
    rw [ih _ rfl (by simp only; omega) (by simp only [INT_MAX]; omega)
      (fun r' hr' => hrows r' (by simp [hr']))]
    simp only [List.length_cons, Nat.cast_add, Nat.cast_one, List.map_cons, List.append_assoc,
      List.singleton_append, Except.ok.injEq, character_map.mk.injEq, true_and, and_true]
    omega
theorem first_push (r : Str) (w dw : Int) (hw : 1 ≤ w) (hwi : is_int w)
    (hr : (r.length : Int) = w) (hdw : dw = 0 ∨ dw = w) :
    character_map.push (character_map.mk 0 0 dw 0 []) r
      = .ok (character_map.mk 0 0 w 1 [text_of r]) := by
  have hrne : r ≠ [] := by
    intro h; rw [h] at hr; simp at hr; omega
  have hrlen : wrap_int (r.length : Int) = w := by
    rw [hr]; exact wrap_int_of_is_int w hwi
  have hone : wrap_int 1 = 1 := by decide
  have hw0 : w ≠ 0 := by omega
  rcases hdw with h | h
  · subst h
    simp [character_map.push, hrne, hrlen, hone]
  · subst h
    simp [character_map.push, hrne, hrlen, hone, hw0]

theorem symbols_text_of (r : Str) : (text_of r).map (fun t => t.symbol) = r := by
  simp [text_of, List.map_map, Function.comp_def]

theorem decorate_symbols (map_attrs : List (Char × Nat)) (dflt : Nat) (m : character_map) :
    (m.decorate map_attrs dflt).m_lines.map (fun line => line.map (fun t => t.symbol))
      = m.m_lines.map (fun line => line.map (fun t => t.symbol)) := by
  simp only [character_map.decorate, List.map_map]
  apply List.map_congr_left
  intro line _
  simp only [Function.comp_def, List.map_map]
  apply List.map_congr_left
  intro t _
  split <;> rfl

/-- C25. When the map text consists of `n ≥ 1` rows of the same length
`w ≥ 1`, separated by newlines, with no trailing newline, the declared width
is `w` (or zero, so that the first row sets it), and the declared height `h`
exceeds `n`, the constructor of the grid does not fail: after the last row it
reads the text again from its beginning, so the grid has the width `w`, the
height `h` and `h` rows, of which the row `k` (counted from zero) has the
symbols of the row `k mod n` of the text. With a trailing newline the same
input fails instead, with the message "Line n+1 is empty.". -/
theorem height_beyond_text_restarts (map_attrs : List (Char × Nat)) (dflt : Nat)
    (rows : List Str) (w dw h : Int)
    (hne : rows ≠ []) (hw : 1 ≤ w)
    (hrows : ∀ r ∈ rows, (r.length : Int) = w ∧ '\n' ∉ r)
    (hdw : dw = 0 ∨ dw = w)
    (hh : (rows.length : Int) < h ∧ h ≤ INT_MAX)
    (hlen : ((join_rows rows).length : Int) < INT_MAX) :
    (∃ m, character_map.create map_attrs dflt (join_rows rows) dw h = .ok m ∧
      m.m_width = w ∧ m.m_height = h ∧ m.m_lines.length = h.toNat ∧
      ∀ k, k < h.toNat →
        (m.m_lines[k]?).map (fun line => line.map (fun t => t.symbol))
          = rows[k % rows.length]?) ∧
    character_map.create map_attrs dflt (join_rows rows ++ ['\n']) dw h
      = .error (.game_error
          ("Line ".toList ++ to_string (rows.length + 1) ++ " is empty.".toList)) := by
  have hn : 0 < rows.length := List.length_pos.2 hne
  have hnpos : (join_rows rows).length < npos := by
    simp only [INT_MAX] at hlen; simp only [npos]; omega
  have hnpos2 : (join_rows rows ++ ['\n']).length < npos := by
    simp only [INT_MAX] at hlen
    simp only [npos, List.length_append, List.length_singleton]; omega
  have hcount : (h % 4294967296).toNat = h.toNat := by
    simp only [INT_MAX] at hh; omega
  have hwi : is_int w := by
    obtain ⟨r, hr⟩ := List.exists_mem_of_ne_nil rows hne
    have h1 := (hrows r hr).1
    have h2 := row_length_le_join rows r hr
    simp only [is_int, INT_MIN, INT_MAX] at hlen ⊢
    omega
  have hw0 : w ≠ 0 := by omega
  obtain ⟨H, hH⟩ : ∃ H, h.toNat = H + 1 := ⟨h.toNat - 1, by omega⟩
  constructor
  · have hcyc := consumed_rows_cyclic rows hne (fun r hr => (hrows r hr).2) hnpos h.toNat
    have hCw : ∀ r ∈ consumed_rows (join_rows rows) h.toNat 0, (r.length : Int) = w := by
      intro r hr
      obtain ⟨k, hk⟩ := List.mem_iff_getElem?.1 hr
      have hkl : k < h.toNat := by
        have := (List.getElem?_eq_some.1 hk).1
        rwa [consumed_rows_length] at this
      rw [hcyc k hkl] at hk
      exact (hrows r (List.mem_iff_getElem?.2 ⟨_, hk⟩)).1
    have hClen := consumed_rows_length (join_rows rows) h.toNat 0
    cases hC : consumed_rows (join_rows rows) h.toNat 0 with
    | nil => rw [hC] at hClen; simp at hClen; omega
    | cons c0 cs =>
      rw [hC] at hCw hClen
      simp only [List.length_cons] at hClen
      have hp := first_push c0 w dw hw hwi (hCw c0 (by simp)) hdw
      have hfold := foldlM_push_ok w hw0 hwi cs (character_map.mk 0 0 w 1 [text_of c0]) rfl
        (by show (0 : Int) ≤ 1; omega) (by simp only [INT_MAX] at hh ⊢; omega)
        (fun r hr => hCw r (by simp [hr]))
      refine ⟨(character_map.mk 0 0 w (1 + (cs.length : Int))
        ([text_of c0] ++ cs.map text_of)).decorate map_attrs dflt, ?_, ?_, ?_, ?_, ?_⟩
      · simp only [character_map.create, hcount,
          read_rows_eq_foldlM _ hnpos _ 0 _ (Nat.zero_le _), hC, List.foldlM, bind, Except.bind]
        rw [show ({ m_x := 0, m_y := 0, m_height := 0, m_width := dw, m_lines := [] }
          : character_map) = character_map.mk 0 0 dw 0 [] from rfl, hp]
        simp only [hfold, pure, Except.pure]
        try rfl
      · rfl
      · show (1 : Int) + (cs.length : Int) = h
        omega
      · simp only [character_map.decorate, List.length_map, List.length_append,
          List.length_singleton]
        omega
      · intro k hk
        rw [← hcyc k hk, hC, ← List.getElem?_map, decorate_symbols]
        simp only [List.singleton_append, List.map_cons, List.map_map, symbols_text_of]
        congr 1
        have : (fun line => List.map (fun t => t.symbol) line) ∘ text_of = id := by
          funext r; exact symbols_text_of r
        rw [this]; simp
  · obtain ⟨M, hM⟩ : ∃ M, h.toNat = rows.length + (M + 1) :=
      ⟨h.toNat - rows.length - 1, by omega⟩
    have hagain := consumed_rows_join_newline rows [] [] (M + 1) hne
      (fun r hr => (hrows r hr).2) (by simpa using hnpos2)
    simp only [List.nil_append, List.length_nil] at hagain
    have hdrop : (join_rows rows ++ ['\n']).drop ((join_rows rows).length + 1) = [] :=
      List.drop_of_length_le (by simp)
    rw [← hM] at hagain
    rw [show consumed_rows (join_rows rows ++ ['\n']) (M + 1) ((join_rows rows).length + 1)
      = [] :: consumed_rows (join_rows rows ++ ['\n']) M
          (size_add (find_from (join_rows rows ++ ['\n']) '\n'
            ((join_rows rows).length + 1)) 1) by
        rw [consumed_rows, hdrop, List.take_nil]] at hagain
    generalize consumed_rows (join_rows rows ++ ['\n']) M _ = rest at hagain
    have hClen := consumed_rows_length (join_rows rows ++ ['\n']) h.toNat 0
    have hCrow := consumed_rows_row_length (join_rows rows ++ ['\n']) h.toNat 0
    rw [hagain] at hClen hCrow
    cases rows with
    | nil => exact absurd rfl hne
    | cons r0 rs =>
      have hp := first_push r0 w dw hw hwi (hrows r0 (by simp)).1 hdw
      have hbad := foldlM_push_first_bad w hw0 (rs ++ [] :: rest)
        (character_map.mk 0 0 w 1 [text_of r0]) rs.length [] rfl
        (by show (0 : Int) ≤ 1; omega)
        (by
          simp only [List.length_append, List.length_cons] at hClen
          simp only [INT_MAX] at hh ⊢
          show (1 : Int) + ((rs ++ [] :: rest).length : Int) ≤ 2147483647
          simp only [List.length_append, List.length_cons]
          omega)
        (fun r hr => by
          have h1 := hCrow r (by simp only [List.cons_append, List.mem_cons]; right; exact hr)
          simp only [List.length_append, List.length_singleton] at h1
          simp only [INT_MAX] at hlen ⊢; omega)
        (by rw [List.get?_eq_getElem?, List.getElem?_append_right (le_refl _)]; simp)
        (fun j r hj hjr => by
          rw [List.get?_eq_getElem?, List.getElem?_append_left hj] at hjr
          have hmem : r ∈ r0 :: rs :=
            List.mem_cons_of_mem _ (List.mem_iff_getElem?.2 ⟨_, hjr⟩)
          have h1 := (hrows r hmem).1
          refine ⟨?_, h1⟩
          intro h0; rw [h0] at h1; simp at h1; omega)
        (Or.inl rfl)
      simp only [character_map.create, hcount,
        read_rows_eq_foldlM _ hnpos2 _ 0 _ (Nat.zero_le _), hagain, List.cons_append,
        List.foldlM, bind, Except.bind]
      rw [show ({ m_x := 0, m_y := 0, m_height := 0, m_width := dw, m_lines := [] }
        : character_map) = character_map.mk 0 0 dw 0 [] from rfl, hp]
      simp only [hbad, bad_row_message, if_true]
      simp only [List.length_cons, Nat.cast_add, Nat.cast_one]
      rw [show (1 : Int) + (rs.length : Int) + 1 = (rs.length : Int) + 1 + 1 by omega]

/-- Witness for C25: the text of the two rows `ab` and `cd` with the declared
height five gives the rows `ab`, `cd`, `ab`, `cd`, `ab`; with a trailing
newline the third row is reported as empty. -/
theorem height_beyond_text_restarts_witness :
    (∃ m, character_map.create [] 0 (join_rows ["ab".toList, "cd".toList]) 2 5 = .ok m ∧
      m.m_width = 2 ∧ m.m_height = 5 ∧ m.m_lines.length = (5 : Int).toNat ∧
      ∀ k, k < (5 : Int).toNat →
        (m.m_lines[k]?).map (fun line => line.map (fun t => t.symbol))
          = ["ab".toList, "cd".toList][k % ["ab".toList, "cd".toList].length]?) ∧
    character_map.create [] 0 (join_rows ["ab".toList, "cd".toList] ++ ['\n']) 2 5
      = .error (.game_error
          ("Line ".toList ++ to_string (["ab".toList, "cd".toList].length + 1)
            ++ " is empty.".toList)) :=
  height_beyond_text_restarts [] 0 ["ab".toList, "cd".toList] 2 2 5
    (by decide) (by decide) (by decide) (Or.inr rfl) (by decide) (by decide)

/-! ## Claims about the dispatch of an event -/

/-- The dialog of an event executes the instructions of the picked items as one
list, after the window is pushed. -/
theorem dialog_eq_picked (env : play_env) (s : scenario) (e : event) :
    s.dialog env e
      = (e.picked_instructions env).foldlM
          (fun (s : scenario) f => s.parse_command (event.run env.stack) f)
          { s with calls := s.calls ++ [.dialog e.id] } := by
  unfold scenario.dialog event.picked_instructions
  generalize ({ s with calls := s.calls ++ [.dialog e.id] } : scenario) = s0
  generalize env.choices e = cs
  induction cs generalizing s0 with
  | nil => rfl
  | cons k cs ih =>
    simp only [List.map_cons, List.flatten_cons, List.foldlM_append, List.foldlM_cons]
    cases hk : e.m_items.get? k with
    | none =>
      simp only [List.foldlM_nil, pure_bind]
      exact ih s0
    | some item =>
      simp only [scenario.parse_instructions]
      congr 1
      funext s1
      exact ih s1

/-- C23. The dispatch of `test()` for the event `e` at position `i` of the
table, whose condition tree evaluates to `fired`. When the tree is false,
`test()` returns the state as it was: no instruction is executed and no dialog
is opened. When the tree is true and the event has no message, `test()` hands
the default instruction list of the event to `parse_command`, every instruction
once and in the declared order, and then marks the event as happened; no dialog
is recorded before the first instruction. When the tree is true and there is a
message, the dialog is opened, the default instruction list is not used, and
the instructions handed to `parse_command` are those of the items that the
player picks, in the order of picking; a player who picks nothing lets no
instruction run. -/
theorem test_dispatches_on_condition_and_message (env : play_env) (s : scenario) (i : Nat)
    (e : event) (fired : Bool)
    (he : s.m_events.get? i = some e)
    (hc : s.parse_conditions env.x0 env.y0 e.m_conditions = .ok fired) :
    (fired = false → s.test_event env i = .ok s) ∧
    (fired = true → e.m_message = [] →
      s.test_event env i
        = (e.m_instructions.foldlM
            (fun (s : scenario) f => s.parse_command (event.run env.stack) f) s).map
            (fun (t : scenario) => t.mark_happened i)) ∧
    (fired = true → e.m_message ≠ [] →
      s.test_event env i
        = ((e.picked_instructions env).foldlM
            (fun (s : scenario) f => s.parse_command (event.run env.stack) f)
            { s with calls := s.calls ++ [.dialog e.id] }).map
            (fun (t : scenario) => t.mark_happened i)) ∧
    (fired = true → e.m_message ≠ [] → env.choices e = [] →
      s.test_event env i
        = .ok (({ s with calls := s.calls ++ [.dialog e.id] } : scenario).mark_happened i)) := by
  have hmsg : fired = true → e.m_message ≠ [] →
      s.test_event env i
        = ((e.picked_instructions env).foldlM
            (fun (s : scenario) f => s.parse_command (event.run env.stack) f)
            { s with calls := s.calls ++ [.dialog e.id] }).map
            (fun (t : scenario) => t.mark_happened i) := by
    intro hf hm
    subst hf
    simp only [scenario.test_event, he, hc, bind, Except.bind, if_true, if_neg hm,
      dialog_eq_picked]
    cases (e.picked_instructions env).foldlM
        (fun (s : scenario) f => s.parse_command (event.run env.stack) f)
        { s with calls := s.calls ++ [.dialog e.id] } <;> rfl
  refine ⟨?_, ?_, hmsg, ?_⟩
  · intro hf
    subst hf
    simp only [scenario.test_event, he, hc, bind, Except.bind]
    rfl
  · intro hf hm
    subst hf
    simp only [scenario.test_event, he, hc, bind, Except.bind, if_true, if_pos hm,
      scenario.parse_instructions]
    cases e.m_instructions.foldlM
        (fun (s : scenario) f => s.parse_command (event.run env.stack) f) s <;> rfl
  · intro hf hm hch
    rw [hmsg hf hm]
    simp only [event.picked_instructions, hch]
    rfl

/-- Witness of C23 at the event `talk` of `talk_play`, whose condition is true
and which has a message: the player picks the first item, so the dialog is
opened and `dialog.close()` runs, while the default instruction
`scenario.exit()` does not. -/
theorem test_dispatches_on_condition_and_message_witness :
    (talk_play.test_event picking_env 0).map (fun (s : scenario) => s.calls)
      = .ok [.dialog "talk".toList, .window_pop] ∧
    talk_play.test_event picking_env 0
      = ((ev_talk.picked_instructions picking_env).foldlM
          (fun (s : scenario) f => s.parse_command (event.run picking_env.stack) f)
          { talk_play with calls := talk_play.calls ++ [.dialog ev_talk.id] }).map
          (fun (t : scenario) => t.mark_happened 0) :=
  ⟨by decide,
   (test_dispatches_on_condition_and_message picking_env talk_play 0 ev_talk true
      (by decide) (by decide)).2.2.1 rfl (by decide)⟩

/-! ## The distance test beyond the range `2 ^ 25` -/

theorem double_places_le_of (d j : Nat) (h : 2 ^ 106 ≤ d * 4 ^ (j + 1)) :
    ∀ n, double_places d n ≤ j := by
  intro n
  induction n with
  | zero => simp [double_places]
  | succ n ih =>
    rw [double_places]
    split
    · next hlt =>
      by_contra hcon
      have hjn : j + 1 ≤ n + 1 := by omega
      have : d * 4 ^ (j + 1) ≤ d * 4 ^ (n + 1) :=
        Nat.mul_le_mul_left _ (Nat.pow_le_pow_right (by norm_num) hjn)
      omega
    · exact ih

/-- In the `double` values of `hypot`, a target at least `2 ^ 26` columns and
`8192` rows away is out of the vision range `2 ^ 26 + 1`. -/
theorem los_far_beyond (dx dy : Int)
    (hx : 67108864 ≤ dx.natAbs ∧ dx.natAbs ≤ 67108865)
    (hy : 8192 ≤ dy.natAbs ∧ dy.natAbs ≤ 67108865) :
    los_far 67108865 dx dy = true := by
  simp only [los_far, std_hypot, std_round, decide_eq_true_eq, ge_iff_le]
  have hA1 : 67108864 * 67108864 ≤ dx.natAbs * dx.natAbs := Nat.mul_le_mul hx.1 hx.1
  have hA2 : dx.natAbs * dx.natAbs ≤ 67108865 * 67108865 := Nat.mul_le_mul hx.2 hx.2
  have hB1 : 8192 * 8192 ≤ dy.natAbs * dy.natAbs := Nat.mul_le_mul hy.1 hy.1
  have hB2 : dy.natAbs * dy.natAbs ≤ 67108865 * 67108865 := Nat.mul_le_mul hy.2 hy.2
  generalize dx.natAbs * dx.natAbs = A at *
  generalize dy.natAbs * dy.natAbs = B at *
  have hd1 : 4503599694479360 ≤ A + B := by norm_num at hA1 hB1; omega
  have hd2 : A + B ≤ 9007199523176450 := by norm_num at hA2 hB2; omega
  clear hA1 hA2 hB1 hB2 hx hy
  generalize A + B = d at *
  have hk1 : 26 ≤ double_places d 52 := by
    apply double_places_ge d 26 _ 52 (by norm_num)
    calc d * 4 ^ 26 ≤ 9007199523176450 * 4 ^ 26 := Nat.mul_le_mul_right _ hd2
      _ < 2 ^ 106 := by norm_num
  have hk2 : double_places d 52 ≤ 26 := by
    apply double_places_le_of d 26 _ 52
    calc 2 ^ 106 ≤ 4503599694479360 * 4 ^ (26 + 1) := by norm_num
      _ ≤ d * 4 ^ (26 + 1) := Nat.mul_le_mul_right _ hd1
  have hk : double_places d 52 = 26 := by omega
  rw [hk]
  have hD1 : 4503599694479360 * 4 ^ 26 ≤ d * 4 ^ 26 := Nat.mul_le_mul_right _ hd1
  have hD2 : d * 4 ^ 26 < 2 ^ 106 :=
    calc d * 4 ^ 26 ≤ 9007199523176450 * 4 ^ 26 := Nat.mul_le_mul_right _ hd2
      _ < 2 ^ 106 := by norm_num
  have hspec := sqrt_nearest_spec (d * 4 ^ 26) 4503599660924928 hD2 (by norm_num)
  generalize d * 4 ^ 26 = D at *
  have hm : 4503599660924928 ≤ sqrt_nearest D := by
    rw [hspec]
    norm_num at hD1 ⊢
    omega
  generalize sqrt_nearest D = m at *
  rw [show ((67108865 : Int)) = ((67108865 : Nat) : Int) by rfl, Int.ofNat_le,
    Nat.le_div_iff_mul_le (by norm_num)]
  norm_num
  omega

theorem natAbs_ge_of_sq (d : Int) (n : Nat) (h : (n : Int) * n ≤ d * d) : n ≤ d.natAbs := by
  by_contra hcon
  have h1 : d.natAbs + 1 ≤ n := by omega
  have h2 : (d.natAbs + 1) * (d.natAbs + 1) ≤ n * n := Nat.mul_le_mul h1 h1
  have h3 : d * d = ((d.natAbs * d.natAbs : Nat) : Int) := by
    rw [Nat.cast_mul]; exact (Int.natAbs_mul_self' d).symm
  rw [h3] at h
  have h4 : n * n ≤ d.natAbs * d.natAbs := by exact_mod_cast h
  generalize d.natAbs = a at *
  have h5 : (a + 1) * (a + 1) = a * a + 2 * a + 1 := by ring
  omega

theorem far_play_cells (x y : Int) (t : tile) (h : far_play.m_source.at x y = some t) :
    t = ⟨'.', 0⟩ := by
  obtain ⟨line, hl, ht⟩ := at_mem _ _ _ _ h
  have hl' : line ∈ List.replicate 8193 (List.replicate 67108865 (⟨'.', 0⟩ : tile)) := hl
  rw [List.mem_replicate] at hl'
  rw [hl'.2, List.mem_replicate] at ht
  exact ht.2

/-- C12 (counterexample). On an open grid of 67108865 columns and 8193 rows
with no detected cell, the viewer stands at `(0, 0)` with the vision range
`2 ^ 26 + 1`. The cell `(67108864, 8192)` is in the grid and satisfies
`4 * ((x - px) ^ 2 + (y - py) ^ 2) < (2 * r - 1) ^ 2`, its distance being less
than `r - 1/2`; but the `double` nearest to that distance is `67108864.5`
(the pair `(67108864 * 2 ^ 26 + 2 ^ 25, 26)`), which `round` takes to `r`, so
the target is skipped; no other trace passes the cell, and the pass comes back
with the cell not detected. -/
theorem far_cell_in_disk_undetected :
    (∀ c, far_play.blocks far_watcher c = false) ∧
    (∀ x y, far_play.detected_at x y = false) ∧
    far_play.abroad far_watcher.x far_watcher.y = false ∧
    far_play.abroad 67108864 8192 = false ∧
    4 * ((67108864 - far_watcher.x) ^ 2 + (8192 - far_watcher.y) ^ 2)
      < (2 * far_watcher.vision_range - 1) ^ 2 ∧
    std_hypot (67108864 - far_watcher.x) (8192 - far_watcher.y)
      = (67108864 * 2 ^ 26 + 2 ^ 25, 26) ∧
    los_far far_watcher.vision_range (67108864 - far_watcher.x) (8192 - far_watcher.y)
      = true ∧
    ∃ s', far_play.render_los far_watcher = .ok s' ∧ s'.detected_at 67108864 8192 = false := by
  have hnone : ∀ x y, far_play.detected_at x y = false := by
    intro x y
    simp only [scenario.detected_at]
    cases h : far_play.m_source.at x y with
    | none => rfl
    | some t => rw [far_play_cells x y t h]; rfl
  have hblocks : ∀ c, far_play.blocks far_watcher c = false := by
    intro c
    simp only [scenario.blocks]
    cases h : far_play.m_source.at c.1 c.2 with
    | none => simp
    | some t => simp [far_watcher, object.visible]
  have hv : far_play.abroad far_watcher.x far_watcher.y = false := by decide
  have hrows : (far_play.m_source.m_lines.length : Int) = far_play.height := by
    show ((List.replicate 8193 (List.replicate 67108865 (⟨'.', 0⟩ : tile))).length : Int) = 8193
    rw [List.length_replicate]; rfl
  have hcols : ∀ line ∈ far_play.m_source.m_lines, (line.length : Int) = far_play.width := by
    intro line hl
    have hl' : line ∈ List.replicate 8193 (List.replicate 67108865 (⟨'.', 0⟩ : tile)) := hl
    rw [List.mem_replicate] at hl'
    rw [hl'.2, List.length_replicate]; rfl
  have hg : far_play.grid_ok := grid_ok_of_rows far_play rfl hrows hcols
  have hnear : ∀ x y, scenario.los_aims far_watcher x y → _ := fun x y h =>
    aims_near far_watcher x y (by decide) (by decide) (by decide) (by decide) (by decide) h
  have hrays : ∀ x y, scenario.los_aims far_watcher x y →
      ∃ path, los_ray far_watcher x y = some path := by
    intro x y h
    obtain ⟨hnx, hny, hix, hiy⟩ := hnear x y h
    obtain ⟨path, hp, -⟩ :=
      los_ray_spec far_watcher x y far_watcher.vision_range (by decide) hnx hny hix hiy
    exact ⟨path, hp⟩
  obtain ⟨s', hs', hext, -⟩ := render_los_spec far_play far_watcher hg hv hrays
  refine ⟨hblocks, hnone, hv, by decide, by decide, by decide, by decide, s', hs', ?_⟩
  have hnot : ¬ far_play.los_reached far_watcher 67108864 8192 := by
    rintro ⟨x, y, path, haims, hray, hmem, -⟩
    obtain ⟨hnx, hny, hix, hiy⟩ := hnear x y haims
    obtain ⟨path', hray', hbox, -, -⟩ :=
      los_ray_spec far_watcher x y far_watcher.vision_range (by decide) hnx hny hix hiy
    rw [hray] at hray'
    cases hray'
    have hmem' := upto_stop_subset _ _ _ hmem
    have hmem2 : ((67108864 : Int), (8192 : Int)) ∈ path := by
      split at hmem'
      · exact hmem'
      · simp only [List.mem_cons, Prod.mk.injEq] at hmem'
        rcases hmem' with h | h
        · exact absurd h.1 (by decide)
        · exact h
    obtain ⟨j, hj⟩ := List.mem_iff_getElem?.1 hmem2
    obtain ⟨hb1, hb2⟩ := hbox j _ hj
    have hfar := haims.2.2
    have hvr : far_watcher.vision_range = 67108865 := rfl
    have hvx0 : far_watcher.x = 0 := rfl
    have hvy0 : far_watcher.y = 0 := rfl
    rw [hvr] at hnx hny hfar
    rw [hvx0] at hnx hb1 hfar
    rw [hvy0] at hny hb2 hfar
    simp only [sub_zero] at hnx hny hb1 hb2 hfar
    rw [wrap_int_small x (by omega), wrap_int_small y (by omega)] at hfar
    have hx1 : 67108864 ≤ x.natAbs := natAbs_ge_of_sq x 67108864 (by simpa using hb1)
    have hy1 : 8192 ≤ y.natAbs := natAbs_ge_of_sq y 8192 (by simpa using hb2)
    rw [los_far_beyond x y ⟨hx1, by omega⟩ ⟨hy1, by omega⟩] at hfar
    cases hfar
  have hsame := hext.src_out _ _ hnot
  have h0 := hnone 67108864 8192
  simp only [scenario.detected_at] at h0 ⊢
  rw [hsame]
  exact h0

end Walker
